import Mathlib

/-! # JSON serializer of flecs (`src/addons/json/serialize.c`)

A shallow embedding of the type-program interpreter and of its value encoders,
followed by theorems about them.

Conventions of the embedding.

* Addresses, byte offsets, element counts and operation indices are `Int`
  (C `int32_t` / pointer arithmetic, taken without overflow).  The stored
  bitmask is an unsigned 32-bit number: a `Nat` reduced modulo `2 ^ 32`.
* A slice of a type program is the underlying operation array `ops`, the index
  `start` of the slice's first operation in that array (the C pointer `ops`)
  and the slice length `op_count`.
* Every recursive function takes a `fuel : Nat` that bounds the number of
  nested calls and loop iterations; `Result.timeout` is returned when it runs
  out.  The C code itself has no such bound.
-/

namespace FlecsJson

/-! ## Output writer -/

/-- Modelled from the spec: one open list scope of the Output Writer (`ecs_strbuf_t` is
declared outside `serialize.c`): the number of items started so far and the separator
emitted between items. -/
structure ecs_strbuf_list_elem where
  count : Nat
  separator : String
deriving DecidableEq, Repr

/-- Modelled from the spec: the Output Writer, an append-only text sink with a stack of
open list scopes (innermost first). -/
structure ecs_strbuf_t where
  content : String
  list_stack : List ecs_strbuf_list_elem
deriving DecidableEq, Repr

/-- Modelled from the spec: a fresh Output Writer, no text and no open list scope. -/
def ECS_STRBUF_INIT : ecs_strbuf_t := ⟨"", []⟩

/-- Modelled from the spec: `appendRaw(text)` of the Output Writer. -/
def ecs_strbuf_appendstr (b : ecs_strbuf_t) (s : String) : ecs_strbuf_t :=
  { b with content := b.content ++ s }

/-- Modelled from the spec: formatted append with one `%s` directive; `before` and `after`
are the parts of the format string around the directive, `arg` is the string argument,
copied verbatim. -/
def ecs_strbuf_append (b : ecs_strbuf_t) (before arg after : String) : ecs_strbuf_t :=
  { b with content := b.content ++ (before ++ arg ++ after) }

/-- Modelled from the spec: open a list scope, emitting its opening text. -/
def ecs_strbuf_list_push (b : ecs_strbuf_t) (list_open separator : String) : ecs_strbuf_t :=
  { content := b.content ++ list_open, list_stack := ⟨0, separator⟩ :: b.list_stack }

/-- Modelled from the spec: close the innermost list scope, emitting its closing text. -/
def ecs_strbuf_list_pop (b : ecs_strbuf_t) (list_close : String) : ecs_strbuf_t :=
  { content := b.content ++ list_close, list_stack := b.list_stack.tail }

/-- Modelled from the spec: `nextItem()`, which emits the separator of the innermost list
scope unless the item is the first of that scope.  With no scope open there is no
separator to emit. -/
def ecs_strbuf_list_next (b : ecs_strbuf_t) : ecs_strbuf_t :=
  match b.list_stack with
  | [] => b
  | e :: rest =>
    { content := if e.count ≠ 0 then b.content ++ e.separator else b.content,
      list_stack := ⟨e.count + 1, e.separator⟩ :: rest }

/-- Modelled from the spec: start the next list item and append a string to it. -/
def ecs_strbuf_list_appendstr (b : ecs_strbuf_t) (s : String) : ecs_strbuf_t :=
  ecs_strbuf_appendstr (ecs_strbuf_list_next b) s

/-- Modelled from the spec: discard the writer's content. -/
def ecs_strbuf_reset (_b : ecs_strbuf_t) : ecs_strbuf_t := ECS_STRBUF_INIT

/-- Modelled from the spec: the finished text of the writer. -/
def ecs_strbuf_get (b : ecs_strbuf_t) : String := b.content

/-! ## Type programs -/

/-- Modelled from the spec: the kind tag of a type operation (the enumeration is declared in
a header): ScopeOpen, ScopeClose, Primitive(subkind), Enum, FlagSet, FixedArray,
DynamicVector, Reference. -/
inductive ecs_meta_type_op_kind_t where
  | EcsOpPush
  | EcsOpPop
  | EcsOpPrimitive (subkind : Nat)
  | EcsOpEnum
  | EcsOpBitmask
  | EcsOpArray
  | EcsOpVector
  | EcsOpEntity
deriving DecidableEq, Repr

export ecs_meta_type_op_kind_t
  (EcsOpPush EcsOpPop EcsOpPrimitive EcsOpEnum EcsOpBitmask EcsOpArray EcsOpVector EcsOpEntity)

/-- Modelled from the spec: one type operation, with the fields `serialize.c` reads:
`kind`, `offset` (byteOffset), `count` (elementCount), `op_count` (subProgramLength),
`size` (elementStride), `name` (fieldName, `none` for a NULL name) and `type`
(referencedSchemaId). -/
structure ecs_meta_type_op_t where
  kind : ecs_meta_type_op_kind_t
  offset : Int
  count : Int
  op_count : Int
  size : Int
  name : Option String
  type : Nat
deriving DecidableEq, Repr

/-! ## Schema registry and memory -/

/-- Modelled from the spec: an enum constant, identified by its entity. -/
structure ecs_enum_constant_t where
  constant : Nat
deriving DecidableEq, Repr

/-- Modelled from the spec: a flag constant, identified by its entity. -/
structure ecs_bitmask_constant_t where
  constant : Nat
deriving DecidableEq, Repr

/-- Modelled from the spec: EnumSchema, a map keyed on the enumeration value. -/
structure EcsEnum where
  constants : List (Int × ecs_enum_constant_t)

/-- Modelled from the spec: FlagSetSchema, the (pattern, constant) pairs in iteration
(declaration) order. -/
structure EcsBitmask where
  constants : List (Nat × ecs_bitmask_constant_t)

/-- Modelled from the spec: ArraySchema, of which `serialize.c` reads the element type. -/
structure EcsArray where
  type : Nat

/-- Modelled from the spec: VectorSchema, the element type. -/
structure EcsVector where
  type : Nat

/-- Modelled from the spec: size and alignment of a component type. -/
structure EcsComponent where
  size : Int
  alignment : Int

/-- Modelled from the spec: the compiled type program of a type. -/
structure EcsMetaTypeSerialized where
  ops : List ecs_meta_type_op_t

/-- Modelled from the spec: the read-only schema registry (`ecs_get` per component kind,
`none` when the type does not have the component), constant names and the Reference
Resolver (`none` for a NULL path). -/
structure ecs_world_t where
  get_EcsEnum : Nat → Option EcsEnum
  get_EcsBitmask : Nat → Option EcsBitmask
  get_EcsArray : Nat → Option EcsArray
  get_EcsVector : Nat → Option EcsVector
  get_EcsComponent : Nat → Option EcsComponent
  get_EcsMetaTypeSerialized : Nat → Option EcsMetaTypeSerialized
  ecs_get_name : Nat → String
  ecs_get_fullpath : Nat → Option String

/-- Modelled from the spec: a non-null vector handle: its runtime element count and the
address of its contiguous storage for a given element size and alignment. -/
structure ecs_vector_t where
  count : Int
  first : Int → Int → Int

/-- Modelled from the spec: the value buffer as typed reads at an address, and the Scalar
Encoder's result on the bytes stored at an address (`none` when it rejects them). -/
structure Memory where
  int32 : Int → Int
  uint32 : Int → Nat
  entity : Int → Nat
  vector : Int → Option ecs_vector_t
  primitive_to_expr : Nat → Int → Option String

/-- Address arithmetic `ECS_OFFSET(ptr, offset)`. -/
def ECS_OFFSET (ptr offset : Int) : Int := ptr + offset

/-- The unsigned 32-bit value stored at `ptr`. -/
def load_uint32 (mem : Memory) (ptr : Int) : Nat := mem.uint32 ptr % 4294967296

/-- Modelled from the spec: exact-match lookup in a map (first entry with the key). -/
def ecs_map_get {β : Type} (m : List (Int × β)) (key : Int) : Option β :=
  match m with
  | [] => none
  | (k, v) :: rest => if k = key then some v else ecs_map_get rest key

/-- Element `i` of the operation array, `none` outside of it. -/
def op_at (ops : List ecs_meta_type_op_t) (i : Int) : Option ecs_meta_type_op_t :=
  if 0 ≤ i then ops.get? i.toNat else none

/-! ## Results -/

/-- Modelled from the spec: the error codes that `serialize.c` passes to `ecs_abort` and
`ecs_assert`. -/
inductive ecs_error_code where
  | ECS_INVALID_PARAMETER
  | ECS_INTERNAL_ERROR
deriving DecidableEq, Repr

export ecs_error_code (ECS_INVALID_PARAMETER ECS_INTERNAL_ERROR)

/-- Outcome of a serializer function: `ok` is `return 0`, `error` is `return -1` (both with
the writer as the call left it), `abort code` is the trap `ecs_abort(code, ...)`,
`assert_failed code` is a failed `ecs_assert(cond, code, ...)`, `undefined` is a read
outside the operation array or through a NULL registry pointer, and `timeout` is the
embedding running out of fuel. -/
inductive Result where
  | ok (str : ecs_strbuf_t)
  | error (str : ecs_strbuf_t)
  | abort (code : ecs_error_code)
  | assert_failed (code : ecs_error_code)
  | undefined
  | timeout
deriving DecidableEq, Repr

/-- The `if (f(...)) return -1;` idiom: a nonzero return becomes `-1`, a zero return lets
the caller continue with the writer. -/
def Result.andThen (r : Result) (k : ecs_strbuf_t → Result) : Result :=
  match r with
  | .ok s => k s
  | .error s => .error s
  | .abort code => .abort code
  | .assert_failed code => .assert_failed code
  | .undefined => .undefined
  | .timeout => .timeout

/-! ## Value encoders -/

/-- The primitive kind of an operation kind, `kind - EcsOpPrimitive`.  The numeric tags of
the kinds are declared in a header; the embedding writes a kind from `EcsOpPrimitive` on as
`EcsOpPrimitive subkind`, its difference to `EcsOpPrimitive`, which is the value returned.
`json_ser_type_op` calls the function in its `default` case only, that is on such a kind;
on the other kinds the difference depends on the tags of the header and the value 0 given
here is not the one of the source. -/
def json_op_to_primitive_kind (kind : ecs_meta_type_op_kind_t) : Nat :=
  match kind with
  | EcsOpPrimitive subkind => subkind
  | _ => 0

/-- Serialize enumeration. -/
def json_ser_enum (world : ecs_world_t) (mem : Memory) (op : ecs_meta_type_op_t)
    (base : Int) (str : ecs_strbuf_t) : Result :=
  match world.get_EcsEnum op.type with
  | none => .assert_failed ECS_INVALID_PARAMETER
  | some enum_type =>
    let value := mem.int32 base
    match ecs_map_get enum_type.constants value with
    | none => .error str
    | some constant =>
      let str := ecs_strbuf_appendstr str "\""
      let str := ecs_strbuf_appendstr str (world.ecs_get_name constant.constant)
      let str := ecs_strbuf_appendstr str "\""
      .ok str

/-- The `while (ecs_map_next ...)` loop of `json_ser_bitmask`: the residual value and the
writer after visiting the constants in iteration order. -/
def json_ser_bitmask_loop (world : ecs_world_t) :
    List (Nat × ecs_bitmask_constant_t) → Nat → ecs_strbuf_t → Nat × ecs_strbuf_t
  | [], value, str => (value, str)
  | (key, constant) :: it, value, str =>
    if value &&& key = key then
      json_ser_bitmask_loop world it
        ((value + 4294967296 - key % 4294967296) % 4294967296)
        (ecs_strbuf_list_appendstr str (world.ecs_get_name constant.constant))
    else
      json_ser_bitmask_loop world it value str

/-- Serialize bitmask. -/
def json_ser_bitmask (world : ecs_world_t) (mem : Memory) (op : ecs_meta_type_op_t)
    (ptr : Int) (str : ecs_strbuf_t) : Result :=
  match world.get_EcsBitmask op.type with
  | none => .assert_failed ECS_INVALID_PARAMETER
  | some bitmask_type =>
    let value := load_uint32 mem ptr
    if value = 0 then
      .ok (ecs_strbuf_appendstr str "0")
    else
      let str := ecs_strbuf_list_push str "\"" "|"
      let r := json_ser_bitmask_loop world bitmask_type.constants value str
      if r.1 ≠ 0 then
        .error r.2
      else
        .ok (ecs_strbuf_list_pop r.2 "\"")

/-- One subtraction done by the loop of `json_ser_bitmask`: the residual value before it,
the key subtracted and the constant whose name is emitted. -/
structure bitmask_step where
  residual : Nat
  key : Nat
  constant : ecs_bitmask_constant_t
deriving DecidableEq, Repr

/-- The loop of `json_ser_bitmask` instrumented to record, in order, the constants it
matches (same test and same subtraction as `json_ser_bitmask_loop`). -/
def json_ser_bitmask_steps :
    List (Nat × ecs_bitmask_constant_t) → Nat → List bitmask_step
  | [], _ => []
  | (key, constant) :: it, value =>
    if value &&& key = key then
      ⟨value, key, constant⟩ ::
        json_ser_bitmask_steps it ((value + 4294967296 - key % 4294967296) % 4294967296)
    else
      json_ser_bitmask_steps it value

/-! ## The interpreter -/

mutual

/-- The `for` loop of `json_ser_elements`, from element `i` on, `ptr` being the address of
element `i`. -/
def json_ser_elements_loop (fuel : Nat) (world : ecs_world_t) (mem : Memory)
    (ops : List ecs_meta_type_op_t) (start op_count : Int) (ptr : Int)
    (elem_count elem_size : Int) (i : Int) (str : ecs_strbuf_t) : Result :=
  match fuel with
  | 0 => .timeout
  | fuel + 1 =>
    if i < elem_count then
      let str := ecs_strbuf_list_next str
      (json_ser_type_ops fuel world mem ops start op_count ptr str).andThen fun str =>
        json_ser_elements_loop fuel world mem ops start op_count (ECS_OFFSET ptr elem_size)
          elem_count elem_size (i + 1) str
    else
      .ok (ecs_strbuf_list_pop str "]")

/-- Serialize elements of a contiguous array. -/
def json_ser_elements (fuel : Nat) (world : ecs_world_t) (mem : Memory)
    (ops : List ecs_meta_type_op_t) (start op_count : Int) (base : Int)
    (elem_count elem_size : Int) (str : ecs_strbuf_t) : Result :=
  match fuel with
  | 0 => .timeout
  | fuel + 1 =>
    let str := ecs_strbuf_list_push str "[" ", "
    json_ser_elements_loop fuel world mem ops start op_count base elem_count elem_size 0 str

def json_ser_type_elements (fuel : Nat) (world : ecs_world_t) (mem : Memory)
    (type : Nat) (base : Int) (elem_count : Int) (str : ecs_strbuf_t) : Result :=
  match fuel with
  | 0 => .timeout
  | fuel + 1 =>
    match world.get_EcsMetaTypeSerialized type with
    | none => .assert_failed ECS_INTERNAL_ERROR
    | some ser =>
      match world.get_EcsComponent type with
      | none => .assert_failed ECS_INTERNAL_ERROR
      | some comp =>
        json_ser_elements fuel world mem ser.ops 0 ser.ops.length base elem_count comp.size str

/-- Serialize array. -/
def json_ser_array (fuel : Nat) (world : ecs_world_t) (mem : Memory)
    (op : ecs_meta_type_op_t) (ptr : Int) (str : ecs_strbuf_t) : Result :=
  match fuel with
  | 0 => .timeout
  | fuel + 1 =>
    match world.get_EcsArray op.type with
    | none => .assert_failed ECS_INTERNAL_ERROR
    | some a => json_ser_type_elements fuel world mem a.type ptr op.count str

/-- Serialize vector. -/
def json_ser_vector (fuel : Nat) (world : ecs_world_t) (mem : Memory)
    (op : ecs_meta_type_op_t) (base : Int) (str : ecs_strbuf_t) : Result :=
  match fuel with
  | 0 => .timeout
  | fuel + 1 =>
    match mem.vector base with
    | none => .ok (ecs_strbuf_appendstr str "null")
    | some value =>
      match world.get_EcsVector op.type with
      | none => .assert_failed ECS_INTERNAL_ERROR
      | some v =>
        match world.get_EcsComponent v.type with
        | none => .assert_failed ECS_INTERNAL_ERROR
        | some comp =>
          let count := value.count
          let array := value.first comp.size comp.alignment
          json_ser_type_elements fuel world mem v.type array count str

/-- Forward serialization to the different type kinds. -/
def json_ser_type_op (fuel : Nat) (world : ecs_world_t) (mem : Memory)
    (op : ecs_meta_type_op_t) (ptr : Int) (str : ecs_strbuf_t) : Result :=
  match fuel with
  | 0 => .timeout
  | fuel + 1 =>
    match op.kind with
    | EcsOpPush => .abort ECS_INVALID_PARAMETER
    | EcsOpPop => .abort ECS_INVALID_PARAMETER
    | EcsOpEnum =>
      (json_ser_enum world mem op (ECS_OFFSET ptr op.offset) str).andThen .ok
    | EcsOpBitmask =>
      (json_ser_bitmask world mem op (ECS_OFFSET ptr op.offset) str).andThen .ok
    | EcsOpArray =>
      (json_ser_array fuel world mem op (ECS_OFFSET ptr op.offset) str).andThen .ok
    | EcsOpVector =>
      (json_ser_vector fuel world mem op (ECS_OFFSET ptr op.offset) str).andThen .ok
    | EcsOpEntity =>
      let e := mem.entity ptr
      if e = 0 then
        .ok (ecs_strbuf_appendstr str "0")
      else
        match world.ecs_get_fullpath e with
        | none => .assert_failed ECS_INTERNAL_ERROR
        | some path => .ok (ecs_strbuf_append str "\"" path "\"")
    | EcsOpPrimitive subkind =>
      match mem.primitive_to_expr (json_op_to_primitive_kind (EcsOpPrimitive subkind))
          (ECS_OFFSET ptr op.offset) with
      | some text => .ok (ecs_strbuf_appendstr str text)
      | none => .abort ECS_INTERNAL_ERROR

/-- The `for` loop of `json_ser_type_ops`, from cursor `i` on. -/
def json_ser_type_ops_loop (fuel : Nat) (world : ecs_world_t) (mem : Memory)
    (ops : List ecs_meta_type_op_t) (start op_count : Int) (base : Int)
    (i : Int) (str : ecs_strbuf_t) : Result :=
  match fuel with
  | 0 => .timeout
  | fuel + 1 =>
    if i < op_count then
      match op_at ops (start + i) with
      | none => .undefined
      | some op =>
        let str :=
          if i ≠ 0 then
            match op.name with
            | some name => ecs_strbuf_append (ecs_strbuf_list_next str) "\"" name "\": "
            | none => str
          else str
        if i ≠ 0 ∧ op.count > 1 then
          (json_ser_elements fuel world mem ops (start + i) op.op_count base
              op.count op.size str).andThen fun str =>
            json_ser_type_ops_loop fuel world mem ops start op_count base
              (i + (op.op_count - 1) + 1) str
        else
          match op.kind with
          | EcsOpPush =>
            json_ser_type_ops_loop fuel world mem ops start op_count base (i + 1)
              (ecs_strbuf_list_push str "\x7b" ", ")
          | EcsOpPop =>
            json_ser_type_ops_loop fuel world mem ops start op_count base (i + 1)
              (ecs_strbuf_list_pop str "\x7d")
          | _ =>
            (json_ser_type_op fuel world mem op base str).andThen fun str =>
              json_ser_type_ops_loop fuel world mem ops start op_count base (i + 1) str
    else
      .ok str

/-- Iterate over a slice of the type ops array. -/
def json_ser_type_ops (fuel : Nat) (world : ecs_world_t) (mem : Memory)
    (ops : List ecs_meta_type_op_t) (start op_count : Int) (base : Int)
    (str : ecs_strbuf_t) : Result :=
  match fuel with
  | 0 => .timeout
  | fuel + 1 => json_ser_type_ops_loop fuel world mem ops start op_count base 0 str

end

/-- Iterate over the type ops of a type. -/
def json_ser_type (fuel : Nat) (world : ecs_world_t) (mem : Memory)
    (v_ops : List ecs_meta_type_op_t) (base : Int) (str : ecs_strbuf_t) : Result :=
  json_ser_type_ops fuel world mem v_ops 0 v_ops.length base str

def ecs_ptr_to_json_buf (fuel : Nat) (world : ecs_world_t) (mem : Memory)
    (type : Nat) (ptr : Int) (buf_out : ecs_strbuf_t) : Result :=
  match world.get_EcsMetaTypeSerialized type with
  | none => .undefined
  | some ser => (json_ser_type fuel world mem ser.ops ptr buf_out).andThen .ok

/-- Outcome of `ecs_ptr_to_json`: `some (some text)` is the returned text, `some none` is
a NULL return; `none` stands for a call that does not return (trap, failed assertion,
undefined behaviour or the embedding running out of fuel). -/
def ecs_ptr_to_json (fuel : Nat) (world : ecs_world_t) (mem : Memory)
    (type : Nat) (ptr : Int) : Option (Option String) :=
  match ecs_ptr_to_json_buf fuel world mem type ptr ECS_STRBUF_INIT with
  | .ok str => some (some (ecs_strbuf_get str))
  | .error _ => some none
  | _ => none

/-! ## Example data -/

/-- A ScopeOpen operation. -/
def push_op : ecs_meta_type_op_t :=
  { kind := EcsOpPush, offset := 0, count := 1, op_count := 1, size := 0, name := none,
    type := 0 }

/-- A ScopeClose operation without a field name. -/
def pop_op : ecs_meta_type_op_t :=
  { kind := EcsOpPop, offset := 0, count := 1, op_count := 1, size := 0, name := none,
    type := 0 }

/-- A ScopeClose operation that carries the field name `z`. -/
def named_pop_op : ecs_meta_type_op_t :=
  { kind := EcsOpPop, offset := 0, count := 1, op_count := 1, size := 0, name := some "z",
    type := 0 }

/-- A ScopeClose operation without a field name and with an elementCount of 2. -/
def repeated_pop_op : ecs_meta_type_op_t :=
  { kind := EcsOpPop, offset := 0, count := 2, op_count := 1, size := 0, name := none,
    type := 0 }

/-- An `int32` member with the given field name at the given offset. -/
def int32_member (name : String) (offset : Int) : ecs_meta_type_op_t :=
  { kind := EcsOpPrimitive 9, offset := offset, count := 1, op_count := 1, size := 4,
    name := some name, type := 0 }

/-- The type program of the struct `{x:int32, y:int32}`. -/
def point_ops : List ecs_meta_type_op_t :=
  [push_op, int32_member "x" 0, int32_member "y" 4, pop_op]

/-- An inline array of `count` `int32` values with the given field name, offset and
sub-program length. -/
def int32_array_member (name : String) (offset count op_count : Int) : ecs_meta_type_op_t :=
  { kind := EcsOpPrimitive 9, offset := offset, count := count, op_count := op_count,
    size := 4, name := some name, type := 0 }

/-- A struct whose first member is an inline array of three `int32` at offset 32 and whose
second member is an `int32` at offset 4. -/
def array_struct_ops : List ecs_meta_type_op_t :=
  [push_op, int32_array_member "a" 32 3 1, int32_member "y" 4, pop_op]

/-- A program whose inline-array head is a Primitive with a sub-program length of 2, so
that the member `b` after it belongs to the element sub-program. -/
def long_array_ops : List ecs_meta_type_op_t :=
  [push_op, int32_array_member "a" 32 2 2, int32_member "b" 0, pop_op]

/-- A Reference member with the given field name at the given offset. -/
def entity_member (name : String) (offset : Int) : ecs_meta_type_op_t :=
  { kind := EcsOpEntity, offset := offset, count := 1, op_count := 1, size := 8,
    name := some name, type := 0 }

/-- A struct of two Reference members, `a` at offset 0 and `b` at offset 8. -/
def reference_struct_ops : List ecs_meta_type_op_t :=
  [push_op, entity_member "a" 0, entity_member "b" 8, pop_op]

/-- A registry with the example schemas of the specification: type 1 is the enum
`{Red:0, Green:1, Blue:2}`, type 2 the flag set `{A:1, B:2, C:4}`, type 3 the struct
`{x:int32, y:int32}` of size 8, type 4 a vector of type 3, type 5 the flag set
`{A:1, AB:3}` with overlapping patterns and type 6 the same constants in the order
`{AB:3, A:1}`; entity 100 has the path `Foo.Bar`, entity 101
the path `Foo.Baz`. -/
def example_world : ecs_world_t :=
  { get_EcsEnum := fun t =>
      if t = 1 then some ⟨[(0, ⟨10⟩), (1, ⟨11⟩), (2, ⟨12⟩)]⟩ else none
    get_EcsBitmask := fun t =>
      if t = 2 then some ⟨[(1, ⟨20⟩), (2, ⟨21⟩), (4, ⟨22⟩)]⟩
      else if t = 5 then some ⟨[(1, ⟨20⟩), (3, ⟨23⟩)]⟩
      else if t = 6 then some ⟨[(3, ⟨23⟩), (1, ⟨20⟩)]⟩ else none
    get_EcsArray := fun _ => none
    get_EcsVector := fun t => if t = 4 then some ⟨3⟩ else none
    get_EcsComponent := fun t => if t = 3 then some ⟨8, 4⟩ else none
    get_EcsMetaTypeSerialized := fun t =>
      if t = 3 then some ⟨point_ops⟩ else none
    ecs_get_name := fun e =>
      if e = 10 then "Red" else if e = 11 then "Green" else if e = 12 then "Blue"
      else if e = 20 then "A" else if e = 21 then "B" else if e = 22 then "C"
      else if e = 23 then "AB" else ""
    ecs_get_fullpath := fun e =>
      if e = 100 then some "Foo.Bar" else if e = 101 then some "Foo.Baz" else none }

/-- An operation whose value lives at offset 0 of its base. -/
def example_op (kind : ecs_meta_type_op_kind_t) (type : Nat) : ecs_meta_type_op_t :=
  { kind := kind, offset := 0, count := 1, op_count := 1, size := 4, name := none,
    type := type }

/-- A value buffer.  The signed and the unsigned 32-bit reads at address `p` both give `p`
(so that the stored enum or flag value is chosen by the address).  The scalar encoder
succeeds on the struct `(1, 2)` at address 0, on the inline array `1, 2, 3` at address 32
and on the structs `(1, 2)`, `(3, 4)` at address 64, and rejects every other address.
Entity 100 is stored at addresses 8 and 56, entity 101 at address 48, entity 0 elsewhere.
Every vector handle is null except the empty one at address 16 and the one at address 24,
which has two elements stored at address 64. -/
def example_memory : Memory :=
  { int32 := fun p => p
    uint32 := fun p => p.toNat
    entity := fun p => if p = 8 then 100 else if p = 48 then 101 else if p = 56 then 100 else 0
    vector := fun p =>
      if p = 16 then some ⟨0, fun _ _ => 64⟩
      else if p = 24 then some ⟨2, fun _ _ => 64⟩ else none
    primitive_to_expr := fun _ p =>
      if p = 0 then some "1" else if p = 4 then some "2"
      else if p = 32 then some "1" else if p = 36 then some "2" else if p = 40 then some "3"
      else if p = 64 then some "1" else if p = 68 then some "2"
      else if p = 72 then some "3" else if p = 76 then some "4" else none }

/-- A FixedArray operation of two elements stored at offset 64, referencing array type 7,
with the given field name. -/
def array_op (name : Option String) : ecs_meta_type_op_t :=
  { kind := EcsOpArray, offset := 64, count := 2, op_count := 1, size := 8, name := name,
    type := 7 }

/-- A struct whose only member `a` is a FixedArray of two `int32`. -/
def fixed_array_struct_ops : List ecs_meta_type_op_t :=
  [push_op, array_op (some "a"), pop_op]

/-- The example registry extended with: array type 7 whose elements have type 10, a plain
`int32` of size 4; vector type 8 whose elements have type 1, the enum
`{Red:0, Green:1, Blue:2}` stored in 4 bytes; type 9, whose program is a single
DynamicVector operation of vector type 8; type 11, the struct with a FixedArray member;
type 12, whose program is a single FixedArray operation. -/
def example_registry : ecs_world_t :=
  { example_world with
    get_EcsArray := fun t => if t = 7 then some ⟨10⟩ else none
    get_EcsVector := fun t =>
      if t = 4 then some ⟨3⟩ else if t = 8 then some ⟨1⟩ else none
    get_EcsComponent := fun t =>
      if t = 3 then some ⟨8, 4⟩ else if t = 10 then some ⟨4, 4⟩
      else if t = 1 then some ⟨4, 4⟩ else none
    get_EcsMetaTypeSerialized := fun t =>
      if t = 3 then some ⟨point_ops⟩
      else if t = 10 then some ⟨[example_op (EcsOpPrimitive 9) 0]⟩
      else if t = 1 then some ⟨[example_op EcsOpEnum 1]⟩
      else if t = 9 then some ⟨[example_op EcsOpVector 8]⟩
      else if t = 11 then some ⟨fixed_array_struct_ops⟩
      else if t = 12 then some ⟨[array_op none]⟩ else none }

/-- A registry in which entity 100 has a path holding a double quote and a backslash. -/
def quoted_path_world : ecs_world_t :=
  { example_world with
    ecs_get_fullpath := fun e => if e = 100 then some "a\"b\\c" else none }

/-! ## Vocabulary of the statements -/

/-- The operation `op` is a Primitive with elementCount at most 1 and field name `nt.1`,
and the scalar encoder returns the text `nt.2` for the value of `op` in the buffer at
`base`. -/
def primitive_member (mem : Memory) (base : Int) (op : ecs_meta_type_op_t)
    (nt : String × String) : Prop :=
  match op.kind with
  | EcsOpPrimitive subkind =>
    op.count ≤ 1 ∧ op.name = some nt.1 ∧
      mem.primitive_to_expr subkind (ECS_OFFSET base op.offset) = some nt.2
  | _ => False

/-- The text of the object member with name `nt.1` and value text `nt.2`. -/
def member_text (nt : String × String) : String := "\"" ++ nt.1 ++ "\": " ++ nt.2

/-- The writer after the loop of `json_ser_type_ops` has emitted the separator and the
field name of a named operation that is not the first of its slice. -/
def named_writer (op : ecs_meta_type_op_t) (str : ecs_strbuf_t) : ecs_strbuf_t :=
  match op.name with
  | some name => ecs_strbuf_append (ecs_strbuf_list_next str) "\"" name "\": "
  | none => str

/-- Static check that the scopes of the slice `ops[start .. start + op_count)` are properly
nested, from cursor `i` on at nesting depth `d`.  The check follows the cursor of the loop
of `json_ser_type_ops`: a ScopeOpen raises the depth, a ScopeClose needs a depth above 0
and lowers it, an operation after the first with elementCount above 1 heads an inline
array whose sub-program slice must pass the check on its own and is then skipped, and the
depth must be 0 at the end of the slice.  With `strict`, a named operation after the first
must moreover lie inside a scope of the slice.  `cf` bounds the number of steps. -/
def scope_check (strict : Bool) :
    Nat → List ecs_meta_type_op_t → Int → Int → Int → Nat → Bool
  | 0, _, _, _, _, _ => false
  | cf + 1, ops, start, op_count, i, d =>
    if i < op_count then
      match op_at ops (start + i) with
      | none => false
      | some op =>
        if strict = true ∧ i ≠ 0 ∧ op.name ≠ none ∧ d = 0 then false
        else if i ≠ 0 ∧ op.count > 1 then
          scope_check false cf ops (start + i) op.op_count 0 0 &&
            scope_check strict cf ops start op_count (i + (op.op_count - 1) + 1) d
        else
          match op.kind with
          | EcsOpPush => scope_check strict cf ops start op_count (i + 1) (d + 1)
          | EcsOpPop =>
            match d with
            | 0 => false
            | d + 1 => scope_check strict cf ops start op_count (i + 1) d
          | _ => scope_check strict cf ops start op_count (i + 1) d
    else decide (d = 0)

/-- Every type program of the registry has properly nested scopes. -/
def registry_scoped (world : ecs_world_t) : Prop :=
  ∀ t ser, world.get_EcsMetaTypeSerialized t = some ser →
    ∃ cf, scope_check false cf ser.ops 0 ser.ops.length 0 0 = true

/-- Scan of a text for brackets, with the stack `opened` of the brackets that are open
(innermost first): an opening `{` or `[` is pushed, a closing `}` or `]` must match the
innermost open bracket and pops it, any other character is skipped.  The result is the
stack of brackets left open, or `none` when a closing bracket does not match. -/
def bracket_scan : List Char → List Char → Option (List Char)
  | [], opened => some opened
  | c :: cs, opened =>
    if c = Char.ofNat 123 ∨ c = Char.ofNat 91 then bracket_scan cs (c :: opened)
    else if c = Char.ofNat 125 then
      match opened with
      | o :: rest => if o = Char.ofNat 123 then bracket_scan cs rest else none
      | [] => none
    else if c = Char.ofNat 93 then
      match opened with
      | o :: rest => if o = Char.ofNat 91 then bracket_scan cs rest else none
      | [] => none
    else bracket_scan cs opened

/-- The brackets of the text are equal in number and properly nested. -/
def brackets_balanced (text : String) : Prop := bracket_scan text.data [] = some []

/-- The text holds none of the characters `{`, `}`, `[`, `]`. -/
def no_brackets (text : String) : Prop :=
  ∀ c ∈ text.data, c ≠ Char.ofNat 123 ∧ c ≠ Char.ofNat 125 ∧ c ≠ Char.ofNat 91 ∧
    c ≠ Char.ofNat 93

/-- No field name of the program holds a bracket. -/
def names_bracket_free (ops : List ecs_meta_type_op_t) : Prop :=
  ∀ op ∈ ops, ∀ name, op.name = some name → no_brackets name

/-- No separator of an open list scope of the writer holds a bracket. -/
def separators_bracket_free (s : ecs_strbuf_t) : Prop :=
  ∀ el ∈ s.list_stack, no_brackets el.separator

/-- The collaborators emit no bracket: the texts of the scalar encoder, the names of the
constants, the paths of the reference resolver and the field names of the registered
programs hold none. -/
def collaborators_bracket_free (world : ecs_world_t) (mem : Memory) : Prop :=
  (∀ k p text, mem.primitive_to_expr k p = some text → no_brackets text) ∧
  (∀ e, no_brackets (world.ecs_get_name e)) ∧
  (∀ e path, world.ecs_get_fullpath e = some path → no_brackets path) ∧
  (∀ t ser, world.get_EcsMetaTypeSerialized t = some ser → names_bracket_free ser.ops)

/-- The writer `s1` holds the content of `s` followed by a text that closes the open
brackets `opened` (innermost first) and is otherwise balanced. -/
def appends_closing (opened : List Char) (s s1 : ecs_strbuf_t) : Prop :=
  ∃ text : String, s1.content = s.content ++ text ∧
    ∀ rest, bracket_scan text.data (opened ++ rest) = some rest

/-- The writer `s` as it stands when the caller's writer already held the text `prior`
and the open list scopes `scopes` before anything that `s` records was written. -/
def framed_writer (prior : String) (scopes : List ecs_strbuf_list_elem)
    (s : ecs_strbuf_t) : ecs_strbuf_t :=
  ⟨prior ++ s.content, s.list_stack ++ scopes⟩

/-- The outcome `r` with its writer, if any, framed by the caller's prior text and open
list scopes. -/
def framed_result (prior : String) (scopes : List ecs_strbuf_list_elem) :
    Result → Result
  | .ok s => .ok (framed_writer prior scopes s)
  | .error s => .error (framed_writer prior scopes s)
  | .abort code => .abort code
  | .assert_failed code => .assert_failed code
  | .undefined => .undefined
  | .timeout => .timeout

/-- A registry in which the element type 13 of vector type 8 has a program whose scopes
are not nested: a ScopeClose, the `int32` member `x`, then a ScopeOpen.  The program of
type 9 is a single DynamicVector operation of vector type 8. -/
def unscoped_element_registry : ecs_world_t :=
  { example_world with
    get_EcsVector := fun t => if t = 8 then some ⟨13⟩ else none
    get_EcsComponent := fun t => if t = 13 then some ⟨8, 4⟩ else none
    get_EcsMetaTypeSerialized := fun t =>
      if t = 9 then some ⟨[example_op EcsOpVector 8]⟩
      else if t = 13 then
        some ⟨[pop_op, { example_op (EcsOpPrimitive 9) 0 with name := some "x" }, push_op]⟩
      else none }

/-- A value buffer holding, at address 0, the handle of a vector of one element stored at
address 64. -/
def single_element_memory : Memory :=
  { example_memory with
    vector := fun p => if p = 0 then some ⟨1, fun _ _ => 64⟩ else none }

/-- The call came to an end: it returned (`ok`, `error`) or trapped (`abort`,
`assert_failed`); it neither read outside the operation array nor ran out of fuel. -/
def Result.halts : Result → Bool
  | .ok _ => true
  | .error _ => true
  | .abort _ => true
  | .assert_failed _ => true
  | .undefined => false
  | .timeout => false

/-- The slices of a program that the walk can be invoked on: the whole program, and, for a
slice of the family, the sub-program headed by an operation at an index `i ≥ 1` of that
slice with elementCount > 1. -/
inductive walk_slice (ops : List ecs_meta_type_op_t) : Int → Int → Prop where
  | root : walk_slice ops 0 ops.length
  | nested (start len i : Int) (op : ecs_meta_type_op_t) :
      walk_slice ops start len → 1 ≤ i → i < len → op_at ops (start + i) = some op →
      op.count > 1 → walk_slice ops (start + i) op.op_count

/-- The program has no FixedArray/DynamicVector operation, and every operation at an
index `i ≥ 1` of its slice with elementCount > 1 has `1 ≤ subProgramLength` and
`i + subProgramLength ≤` the length of the slice. -/
def inline_arrays_bounded (ops : List ecs_meta_type_op_t) : Prop :=
  (∀ op ∈ ops, op.kind ≠ EcsOpArray ∧ op.kind ≠ EcsOpVector) ∧
  ∀ start len, walk_slice ops start len → ∀ i op, 1 ≤ i → i < len →
    op_at ops (start + i) = some op → op.count > 1 →
      1 ≤ op.op_count ∧ i + op.op_count ≤ len

/-- A struct whose member `a` is an inline array of three `int32` with a sub-program
length of 0. -/
def stalled_array_ops : List ecs_meta_type_op_t :=
  [push_op, int32_array_member "a" 32 3 0, pop_op]

/-- A registry in which the element type 14 of vector type 8 and of array type 7 has the
scope-free program `[int32, int32 "x"]`: an unnamed `int32` at offset 0 followed by the
`int32` member `x` at offset 4, in 8 bytes.  The program of type 16 is a single FixedArray
operation of array type 7. -/
def flat_pair_registry : ecs_world_t :=
  { example_world with
    get_EcsArray := fun t => if t = 7 then some ⟨14⟩ else none
    get_EcsVector := fun t => if t = 8 then some ⟨14⟩ else none
    get_EcsComponent := fun t => if t = 14 then some ⟨8, 4⟩ else none
    get_EcsMetaTypeSerialized := fun t =>
      if t = 14 then some ⟨[example_op (EcsOpPrimitive 9) 0, int32_member "x" 4]⟩
      else if t = 16 then some ⟨[array_op none]⟩
      else none }

/-- The registry with the ill-nested element type 13, extended with vector type 17 and
array type 18, whose elements have type 9 (a DynamicVector of vector type 8, in 8 bytes),
and with type 19, whose program is a single FixedArray operation of array type 18 with
one element. -/
def unscoped_nested_registry : ecs_world_t :=
  { unscoped_element_registry with
    get_EcsArray := fun t => if t = 18 then some ⟨9⟩ else none
    get_EcsVector := fun t =>
      if t = 17 then some ⟨9⟩ else unscoped_element_registry.get_EcsVector t
    get_EcsComponent := fun t =>
      if t = 9 then some ⟨8, 8⟩ else unscoped_element_registry.get_EcsComponent t
    get_EcsMetaTypeSerialized := fun t =>
      if t = 19 then some ⟨[example_op EcsOpArray 18]⟩
      else unscoped_element_registry.get_EcsMetaTypeSerialized t }

/-- A value buffer holding, at address 200, the handle of a vector of one element stored
at address 0, that element being the handle of a vector of one element stored at
address 64. -/
def nested_vector_memory : Memory :=
  { single_element_memory with
    vector := fun p =>
      if p = 200 then some ⟨1, fun _ _ => 0⟩ else single_element_memory.vector p }

theorem ecs_map_get_of_mem {β : Type} (m : List (Int × β)) (key : Int) (v : β)
    (hnd : (m.map Prod.fst).Nodup) (h : (key, v) ∈ m) : ecs_map_get m key = some v := by
  induction m with
  | nil => simp at h
  | cons a rest ih =>
    obtain ⟨k, x⟩ := a
    simp only [List.map_cons, List.nodup_cons] at hnd
    simp only [ecs_map_get]
    rcases List.mem_cons.1 h with h1 | h1
    · cases h1; simp
    · have hk : k ≠ key := by
        rintro rfl
        exact hnd.1 (List.mem_map.2 ⟨(k, v), h1, rfl⟩)
      simp [hk, ih hnd.2 h1]

theorem ecs_map_get_none {β : Type} (m : List (Int × β)) (key : Int)
    (h : key ∉ m.map Prod.fst) : ecs_map_get m key = none := by
  induction m with
  | nil => rfl
  | cons a rest ih =>
    obtain ⟨k, x⟩ := a
    simp only [List.map_cons, List.mem_cons, not_or] at h
    simp only [ecs_map_get]
    rw [if_neg (fun hk => h.1 hk.symm)]
    exact ih h.2

theorem ecs_map_get_some_mem {β : Type} (m : List (Int × β)) (key : Int) (v : β)
    (h : ecs_map_get m key = some v) : (key, v) ∈ m := by
  induction m with
  | nil => simp [ecs_map_get] at h
  | cons a rest ih =>
    obtain ⟨k, x⟩ := a
    simp only [ecs_map_get] at h
    by_cases hk : k = key
    · simp [hk] at h; simp [hk, h]
    · simp [hk] at h; exact List.mem_cons_of_mem _ (ih h)

/-! ## Arithmetic of bit patterns -/

theorem add_eq_or_of_and_eq_zero (a b : Nat) (h : a &&& b = 0) : a + b = a ||| b := by
  induction a using Nat.binaryRec generalizing b with
  | z => simp
  | f x m ih =>
    obtain ⟨y, n, rfl⟩ : ∃ y n, b = Nat.bit y n := ⟨b.bodd, b.div2, (Nat.bit_decomp b).symm⟩
    rw [Nat.land_bit] at h
    rw [Nat.lor_bit]
    have h0 := Nat.bit_eq_zero_iff.1 h
    have := ih n h0.1
    simp only [Nat.bit_val]
    rw [← this]
    cases x <;> cases y <;> simp at h0 ⊢ <;> omega

theorem xor_and_self_of_subset (r k : Nat) (h : r &&& k = k) : (r ^^^ k) &&& k = 0 := by
  apply Nat.eq_of_testBit_eq
  intro i
  have hi := congrArg (fun x => Nat.testBit x i) h
  simp only [Nat.testBit_and] at hi
  simp only [Nat.testBit_and, Nat.testBit_xor, Nat.zero_testBit]
  cases hr : r.testBit i <;> cases hk : k.testBit i <;> simp_all

theorem xor_or_self_of_subset (r k : Nat) (h : r &&& k = k) : (r ^^^ k) ||| k = r := by
  apply Nat.eq_of_testBit_eq
  intro i
  have hi := congrArg (fun x => Nat.testBit x i) h
  simp only [Nat.testBit_and] at hi
  simp only [Nat.testBit_or, Nat.testBit_xor]
  cases hr : r.testBit i <;> cases hk : k.testBit i <;> simp_all

theorem sub_eq_xor_of_subset (r k : Nat) (h : r &&& k = k) : r - k = r ^^^ k := by
  have h1 := add_eq_or_of_and_eq_zero _ _ (xor_and_self_of_subset r k h)
  have h2 := xor_or_self_of_subset r k h
  omega

theorem le_of_subset (r k : Nat) (h : r &&& k = k) : k ≤ r := by
  rw [← h]; exact Nat.and_le_left

/-- The unsigned 32-bit subtraction `value -= (uint32_t)key` under the loop's guard: it does
not wrap. -/
theorem uint32_sub_of_subset (r k : Nat) (hr : r < 4294967296) (h : r &&& k = k) :
    (r + 4294967296 - k % 4294967296) % 4294967296 = r - k := by
  have := le_of_subset r k h
  omega

theorem testBit_sub_of_subset (r k : Nat) (h : r &&& k = k) (i : Nat) :
    (r - k).testBit i = (r.testBit i && !k.testBit i) := by
  rw [sub_eq_xor_of_subset r k h]
  have hi := congrArg (fun x => Nat.testBit x i) h
  simp only [Nat.testBit_and] at hi
  simp only [Nat.testBit_xor]
  cases hr : r.testBit i <;> cases hk : k.testBit i <;> simp_all

theorem sub_and_self_of_subset (r k : Nat) (h : r &&& k = k) : (r - k) &&& k = 0 := by
  rw [sub_eq_xor_of_subset r k h]; exact xor_and_self_of_subset r k h

theorem sub_or_self_of_subset (r k : Nat) (h : r &&& k = k) : k ||| (r - k) = r := by
  rw [sub_eq_xor_of_subset r k h, Nat.lor_comm]; exact xor_or_self_of_subset r k h

theorem subset_sub_of_subset (r k : Nat) (h : r &&& k = k) : r &&& (r - k) = r - k := by
  apply Nat.eq_of_testBit_eq
  intro i
  simp only [Nat.testBit_and, testBit_sub_of_subset r k h]
  cases r.testBit i <;> simp

theorem subset_trans (a b c : Nat) (h1 : c &&& b = b) (h2 : b &&& a = a) : c &&& a = a := by
  apply Nat.eq_of_testBit_eq
  intro i
  have e1 := congrArg (fun x => Nat.testBit x i) h1
  have e2 := congrArg (fun x => Nat.testBit x i) h2
  simp only [Nat.testBit_and] at e1 e2 ⊢
  cases ha : a.testBit i <;> cases hb : b.testBit i <;> cases hc : c.testBit i <;> simp_all

theorem disjoint_of_subset (a b k : Nat) (h1 : b &&& a = a) (h2 : b &&& k = 0) :
    k &&& a = 0 := by
  apply Nat.eq_of_testBit_eq
  intro i
  have e1 := congrArg (fun x => Nat.testBit x i) h1
  have e2 := congrArg (fun x => Nat.testBit x i) h2
  simp only [Nat.testBit_and, Nat.zero_testBit] at e1 e2 ⊢
  cases ha : a.testBit i <;> cases hb : b.testBit i <;> cases hk : k.testBit i <;> simp_all

/-! ## The flag-set loop -/

theorem json_ser_bitmask_loop_eq_steps (world : ecs_world_t)
    (it : List (Nat × ecs_bitmask_constant_t)) (value : Nat) (str : ecs_strbuf_t) :
    (json_ser_bitmask_loop world it value str).2 =
      (json_ser_bitmask_steps it value).foldl
        (fun b st => ecs_strbuf_list_appendstr b (world.ecs_get_name st.constant.constant))
        str := by
  induction it generalizing value str with
  | nil => rfl
  | cons a it ih =>
    obtain ⟨key, constant⟩ := a
    simp only [json_ser_bitmask_loop, json_ser_bitmask_steps]
    split
    · simp only [List.foldl_cons]; exact ih _ _
    · exact ih _ _

theorem json_ser_bitmask_loop_residual (world : ecs_world_t)
    (it : List (Nat × ecs_bitmask_constant_t)) (value : Nat) (str str2 : ecs_strbuf_t) :
    (json_ser_bitmask_loop world it value str).1 =
      (json_ser_bitmask_loop world it value str2).1 := by
  induction it generalizing value str str2 with
  | nil => rfl
  | cons a it ih =>
    obtain ⟨key, constant⟩ := a
    simp only [json_ser_bitmask_loop]
    split
    · exact ih _ _ _
    · exact ih _ _ _

theorem json_ser_bitmask_steps_guard (it : List (Nat × ecs_bitmask_constant_t)) (value : Nat)
    (hv : value < 4294967296) :
    ∀ st ∈ json_ser_bitmask_steps it value,
      st.residual < 4294967296 ∧ st.residual &&& st.key = st.key := by
  induction it generalizing value with
  | nil => intro st h; simp [json_ser_bitmask_steps] at h
  | cons a it ih =>
    obtain ⟨key, constant⟩ := a
    intro st h
    simp only [json_ser_bitmask_steps] at h
    split at h
    · rcases List.mem_cons.1 h with h1 | h1
      · subst h1; exact ⟨hv, by assumption⟩
      · exact ih _ (Nat.mod_lt _ (by norm_num)) st h1
    · exact ih _ hv st h

/-- Invariant of the flag-set loop started on a 32-bit residual `value`: the keys it
subtracts are pairwise disjoint, each is contained in `value`, the final residual is
contained in `value` and disjoint from every key, and keys and final residual add up
(and OR up) to `value`. -/
theorem json_ser_bitmask_loop_cover (world : ecs_world_t)
    (it : List (Nat × ecs_bitmask_constant_t)) (value : Nat) (str : ecs_strbuf_t)
    (hv : value < 4294967296) :
    let steps := json_ser_bitmask_steps it value
    let r := (json_ser_bitmask_loop world it value str).1
    steps.Pairwise (fun a b => a.key &&& b.key = 0) ∧
    (∀ st ∈ steps, value &&& st.key = st.key) ∧
    value &&& r = r ∧
    (∀ st ∈ steps, st.key &&& r = 0) ∧
    (steps.map (fun st => st.key)).sum + r = value ∧
    (steps.map (fun st => st.key)).foldr (fun a b => a ||| b) 0 ||| r = value := by
  induction it generalizing value str with
  | nil =>
    simp [json_ser_bitmask_steps, json_ser_bitmask_loop]
  | cons a it ih =>
    obtain ⟨key, constant⟩ := a
    simp only [json_ser_bitmask_steps, json_ser_bitmask_loop]
    by_cases hk : value &&& key = key
    · simp only [hk, if_true]
      rw [uint32_sub_of_subset value key hv hk]
      have hle := le_of_subset value key hk
      have hlt : value - key < 4294967296 := by omega
      obtain ⟨h1, h2, h3, h4, h5, h6⟩ :=
        ih (value - key)
          (ecs_strbuf_list_appendstr str (world.ecs_get_name constant.constant)) hlt
      have hsub := subset_sub_of_subset value key hk
      have hdis := sub_and_self_of_subset value key hk
      refine ⟨?_, ?_, ?_, ?_, ?_, ?_⟩
      · refine List.pairwise_cons.2 ⟨?_, h1⟩
        intro st hst
        exact disjoint_of_subset _ _ _ (h2 st hst) hdis
      · intro st hst
        rcases List.mem_cons.1 hst with e | e
        · subst e; exact hk
        · exact subset_trans _ _ _ hsub (h2 st e)
      · exact subset_trans _ _ _ hsub h3
      · intro st hst
        rcases List.mem_cons.1 hst with e | e
        · subst e; exact disjoint_of_subset _ _ _ h3 hdis
        · exact h4 st e
      · simp only [List.map_cons, List.sum_cons]
        omega
      · simp only [List.map_cons, List.foldr_cons]
        rw [Nat.lor_assoc, h6]
        exact sub_or_self_of_subset value key hk
    · simp only [hk, if_false]
      exact ih value str hv

/-! ## Joining list items -/

theorem intercalate_go_append (a b sep : String) (l : List String) :
    String.intercalate.go (a ++ b) sep l = a ++ String.intercalate.go b sep l := by
  induction l generalizing b with
  | nil => simp [String.intercalate.go]
  | cons x l ih =>
    simp only [String.intercalate.go]
    rw [String.append_assoc, String.append_assoc, ← String.append_assoc b, ih]

theorem append_intercalate_cons (a sep x : String) (l : List String) :
    String.intercalate.go (a ++ x) sep l = a ++ String.intercalate sep (x :: l) := by
  rw [intercalate_go_append]; rfl

theorem foldl_list_appendstr_started (names : List String) (content sep : String) (c : Nat)
    (rest : List ecs_strbuf_list_elem) :
    names.foldl ecs_strbuf_list_appendstr ⟨content, ⟨c + 1, sep⟩ :: rest⟩ =
      ⟨String.intercalate.go content sep names, ⟨c + 1 + names.length, sep⟩ :: rest⟩ := by
  induction names generalizing content c with
  | nil => simp [String.intercalate.go]
  | cons n names ih =>
    simp only [List.foldl_cons, ecs_strbuf_list_appendstr, ecs_strbuf_list_next,
      ecs_strbuf_appendstr, String.intercalate.go, List.length_cons]
    rw [if_pos (by omega), ih]
    congr 3
    omega

theorem foldl_list_appendstr_fresh (names : List String) (content sep : String)
    (rest : List ecs_strbuf_list_elem) :
    names.foldl ecs_strbuf_list_appendstr ⟨content, ⟨0, sep⟩ :: rest⟩ =
      ⟨content ++ String.intercalate sep names, ⟨names.length, sep⟩ :: rest⟩ := by
  cases names with
  | nil => simp [String.intercalate]
  | cons n names =>
    simp only [List.foldl_cons, ecs_strbuf_list_appendstr, ecs_strbuf_list_next,
      ecs_strbuf_appendstr, List.length_cons]
    rw [if_neg (by simp), foldl_list_appendstr_started, append_intercalate_cons]
    congr 3
    omega

/-! ## The flag-set loop on single-bit patterns -/

theorem and_two_pow_eq_iff (r b : Nat) : r &&& 2 ^ b = 2 ^ b ↔ r.testBit b = true := by
  constructor
  · intro h
    have hi := congrArg (fun x => Nat.testBit x b) h
    simpa [Nat.testBit_and, Nat.testBit_two_pow_self] using hi
  · intro h
    apply Nat.eq_of_testBit_eq
    intro i
    simp only [Nat.testBit_and, Nat.testBit_two_pow]
    by_cases hbi : b = i
    · subst hbi; simp [h]
    · simp [hbi]

/-- The flag-set loop on a schema of pairwise distinct single-bit patterns: it emits the
constants whose bit is set in the starting value, and leaves as residual the bits of the
value that are not patterns of the schema. -/
theorem json_ser_bitmask_loop_single_bits (world : ecs_world_t)
    (it : List (Nat × ecs_bitmask_constant_t)) (value : Nat) (str : ecs_strbuf_t)
    (hv : value < 4294967296)
    (hbits : ∀ kc ∈ it, ∃ b, kc.1 = 2 ^ b)
    (hdistinct : (it.map Prod.fst).Nodup) :
    (json_ser_bitmask_loop world it value str).2 =
      ((it.filter (fun kc => decide (value &&& kc.1 = kc.1))).map
        (fun kc => world.ecs_get_name kc.2.constant)).foldl ecs_strbuf_list_appendstr str ∧
    ∀ i, (json_ser_bitmask_loop world it value str).1.testBit i =
      (value.testBit i && !decide (2 ^ i ∈ it.map Prod.fst)) := by
  induction it generalizing value str with
  | nil => simp [json_ser_bitmask_loop]
  | cons a it ih =>
    obtain ⟨key, constant⟩ := a
    obtain ⟨b, hb⟩ := hbits (key, constant) (List.mem_cons_self _ _)
    simp only at hb
    subst hb
    simp only [List.map_cons, List.nodup_cons] at hdistinct
    have hbits2 : ∀ kc ∈ it, ∃ b, kc.1 = 2 ^ b :=
      fun kc h => hbits kc (List.mem_cons_of_mem _ h)
    simp only [json_ser_bitmask_loop]
    by_cases hk : value &&& 2 ^ b = 2 ^ b
    · rw [if_pos hk, uint32_sub_of_subset value _ hv hk]
      have hle := le_of_subset value _ hk
      have hlt : value - 2 ^ b < 4294967296 := by omega
      obtain ⟨h1, h2⟩ := ih (value - 2 ^ b)
        (ecs_strbuf_list_appendstr str (world.ecs_get_name constant.constant)) hlt hbits2
        hdistinct.2
      have hfilter : it.filter (fun kc => decide ((value - 2 ^ b) &&& kc.1 = kc.1)) =
          it.filter (fun kc => decide (value &&& kc.1 = kc.1)) := by
        apply List.filter_congr
        intro kc hkc
        obtain ⟨b2, hb2⟩ := hbits2 kc hkc
        have hne : b ≠ b2 := by
          rintro rfl
          exact hdistinct.1 (List.mem_map.2 ⟨kc, hkc, hb2⟩)
        rw [hb2]
        simp only [and_two_pow_eq_iff, testBit_sub_of_subset value _ hk,
          Nat.testBit_two_pow, hne, decide_False, Bool.not_false, Bool.and_true]
      refine ⟨?_, ?_⟩
      · rw [h1, hfilter, List.filter_cons_of_pos (by simpa using hk)]
        rfl
      · intro i
        rw [h2 i, testBit_sub_of_subset value _ hk, Nat.testBit_two_pow]
        by_cases hbi : b = i
        · subst hbi; simp
        · have hne : ¬ (2 ^ i = 2 ^ b) := fun e => hbi (Nat.pow_right_injective (le_refl 2) e).symm
          have hbeq : (2 ^ i == 2 ^ b) = false := by simpa using hne
          simp [hbi, hbeq]
    · rw [if_neg hk]
      obtain ⟨h1, h2⟩ := ih value str hv hbits2 hdistinct.2
      refine ⟨?_, ?_⟩
      · rw [h1, List.filter_cons_of_neg (by simpa using hk)]
      · intro i
        rw [h2 i]
        by_cases hbi : b = i
        · subst hbi
          have : value.testBit b = false := by
            rw [and_two_pow_eq_iff] at hk; simpa using hk
          simp [this]
        · have hne : ¬ (2 ^ i = 2 ^ b) := fun e => hbi (Nat.pow_right_injective (le_refl 2) e).symm
          have hbeq : (2 ^ i == 2 ^ b) = false := by simpa using hne
          simp [hbeq]

theorem load_uint32_lt (mem : Memory) (ptr : Int) : load_uint32 mem ptr < 4294967296 :=
  Nat.mod_lt _ (by norm_num)

/-! ## Reading the operation array -/

theorem op_at_length_append (pre : List ecs_meta_type_op_t) (x : ecs_meta_type_op_t)
    (post : List ecs_meta_type_op_t) (j : Int) (hj : j = pre.length) :
    op_at (pre ++ x :: post) j = some x := by
  subst hj
  simp only [op_at, Int.natCast_nonneg, if_true, Int.toNat_ofNat]
  rw [List.get?_eq_getElem?, List.getElem?_append_right (le_refl _)]
  simp

/-! ## Joining the elements of a sequence -/

theorem foldl_items_started (e : Nat → String) (d k : Nat) (hk : 0 < k) (content : String) :
    (List.range' k d).foldl
        (fun acc j => acc ++ (if j = 0 then "" else ", ") ++ e j) content =
      String.intercalate.go content ", " ((List.range' k d).map e) := by
  induction d generalizing k content with
  | zero => simp [String.intercalate.go]
  | succ d ih =>
    simp only [List.range'_succ, List.foldl_cons, List.map_cons, String.intercalate.go]
    rw [if_neg (by omega), ih (k + 1) (by omega)]

theorem foldl_items_fresh (e : Nat → String) (n : Nat) (content : String) :
    (List.range' 0 n).foldl
        (fun acc j => acc ++ (if j = 0 then "" else ", ") ++ e j) content =
      content ++ String.intercalate ", " ((List.range n).map e) := by
  cases n with
  | zero => simp [String.intercalate]
  | succ n =>
    rw [List.range_eq_range']
    simp only [List.range'_succ, List.foldl_cons, List.map_cons]
    rw [foldl_items_started e n (0 + 1) (by omega)]
    simp only [if_true, String.append_empty]
    exact append_intercalate_cons _ _ _ _

/-! ## The element loop -/

/-- The element loop of `json_ser_elements` from element `k` on, when the interpreter run
on each element returns 0 having appended `e k` and restored the list scopes: it appends
the remaining elements, separated, and the closing bracket. -/
theorem json_ser_elements_loop_ok (world : ecs_world_t) (mem : Memory)
    (ops : List ecs_meta_type_op_t) (start op_count : Int) (p s : Int) (n : Nat)
    (e : Nat → String) (F : Nat)
    (helem : ∀ k, k < n → ∀ w fuel, F ≤ fuel →
      json_ser_type_ops fuel world mem ops start op_count (p + k * s) w =
        .ok ⟨w.content ++ e k, w.list_stack⟩)
    (d : Nat) :
    ∀ (k : Nat), k + d = n → ∀ (content : String) (rest : List ecs_strbuf_list_elem)
      (fuel : Nat), F + d + 1 ≤ fuel →
      json_ser_elements_loop fuel world mem ops start op_count (p + k * s) n s k
          ⟨content, ⟨k, ", "⟩ :: rest⟩ =
        .ok ⟨(List.range' k d).foldl
              (fun acc j => acc ++ (if j = 0 then "" else ", ") ++ e j) content ++ "]",
            rest⟩ := by
  induction d with
  | zero =>
    intro k hk content rest fuel hfuel
    obtain ⟨f, rfl⟩ : ∃ f, fuel = f + 1 := ⟨fuel - 1, by omega⟩
    have hlt : ¬ ((k : Int) < (n : Int)) := by omega
    simp [json_ser_elements_loop, hlt, ecs_strbuf_list_pop]
  | succ d ih =>
    intro k hk content rest fuel hfuel
    obtain ⟨f, rfl⟩ : ∃ f, fuel = f + 1 := ⟨fuel - 1, by omega⟩
    have hlt : (k : Int) < (n : Int) := by omega
    have hnext : ECS_OFFSET (p + (k : Int) * s) s = p + ((k + 1 : Nat) : Int) * s := by
      simp only [ECS_OFFSET]; push_cast; ring
    have hi : (k : Int) + 1 = ((k + 1 : Nat) : Int) := by push_cast; ring
    simp only [json_ser_elements_loop, hlt, if_true]
    rw [helem k (by omega) _ f (by omega)]
    simp only [Result.andThen, hnext, hi, ecs_strbuf_list_next]
    rw [ih (k + 1) (by omega) _ rest f (by omega)]
    simp only [List.range'_succ, List.foldl_cons]
    by_cases hk0 : k = 0
    · subst hk0; simp
    · simp [hk0, String.append_assoc]

/-- `json_ser_elements` on `n` elements at `p`, `p + s`, ...: when the interpreter run on
element `k` returns 0 having appended `e k` and restored the list scopes, the call returns
0 having appended `[`, the element texts separated by `, `, and `]`. -/
theorem json_ser_elements_ok (world : ecs_world_t) (mem : Memory)
    (ops : List ecs_meta_type_op_t) (start op_count : Int) (p s : Int) (n : Nat)
    (e : Nat → String) (F : Nat)
    (helem : ∀ k, k < n → ∀ w fuel, F ≤ fuel →
      json_ser_type_ops fuel world mem ops start op_count (p + k * s) w =
        .ok ⟨w.content ++ e k, w.list_stack⟩)
    (str : ecs_strbuf_t) (fuel : Nat) (hfuel : F + n + 2 ≤ fuel) :
    json_ser_elements fuel world mem ops start op_count p n s str =
      .ok ⟨str.content ++ ("[" ++ String.intercalate ", " ((List.range n).map e) ++ "]"),
        str.list_stack⟩ := by
  obtain ⟨f, rfl⟩ : ∃ f, fuel = f + 1 := ⟨fuel - 1, by omega⟩
  have h := json_ser_elements_loop_ok world mem ops start op_count p s n e F helem n 0
    (by omega) (str.content ++ "[") str.list_stack f (by omega)
  simp only [Nat.cast_zero, zero_mul, add_zero] at h
  simp only [json_ser_elements, ecs_strbuf_list_push]
  rw [h, foldl_items_fresh]
  simp only [String.append_assoc]

/-! ## The operation loop on the members of a struct -/

/-- One iteration of the loop of `json_ser_type_ops` on a named Primitive member that is
not the first operation of the slice. -/
theorem json_ser_type_ops_loop_member_step (world : ecs_world_t) (mem : Memory)
    (ops : List ecs_meta_type_op_t) (start op_count base i : Int)
    (P : ecs_meta_type_op_t) (nt : String × String)
    (hi : i ≠ 0) (hlt : i < op_count) (hop : op_at ops (start + i) = some P)
    (hP : primitive_member mem base P nt) (str : ecs_strbuf_t) (fuel : Nat) :
    json_ser_type_ops_loop (fuel + 1 + 1) world mem ops start op_count base i str =
      json_ser_type_ops_loop (fuel + 1) world mem ops start op_count base (i + 1)
        (ecs_strbuf_appendstr
          (ecs_strbuf_append (ecs_strbuf_list_next str) "\"" nt.1 "\": ") nt.2) := by
  unfold primitive_member at hP
  split at hP
  · rename_i subkind hkind
    obtain ⟨hc, hn, ht⟩ := hP
    have hnc : ¬ (P.count > 1) := by omega
    rw [json_ser_type_ops_loop]
    simp only [hlt, if_true, hop, hi, ne_eq, not_false_eq_true, hn, hnc, and_false,
      if_false, hkind, json_ser_type_op, json_op_to_primitive_kind, ht, Result.andThen]
  · exact hP.elim

theorem json_ser_type_ops_loop_members_started (world : ecs_world_t) (mem : Memory)
    (base : Int) (Ps : List ecs_meta_type_op_t) (nts : List (String × String))
    (h : List.Forall₂ (primitive_member mem base) Ps nts) :
    ∀ (pre post : List ecs_meta_type_op_t) (start op_count i : Int), 0 < i →
      start + i = pre.length → i + Ps.length ≤ op_count →
      ∀ (content : String) (c : Nat) (rest : List ecs_strbuf_list_elem) (fuel : Nat),
      json_ser_type_ops_loop (fuel + 1 + Ps.length) world mem (pre ++ Ps ++ post) start
          op_count base i ⟨content, ⟨c + 1, ", "⟩ :: rest⟩ =
        json_ser_type_ops_loop (fuel + 1) world mem (pre ++ Ps ++ post) start op_count base
          (i + Ps.length)
          ⟨String.intercalate.go content ", " (nts.map member_text),
            ⟨c + 1 + Ps.length, ", "⟩ :: rest⟩ := by
  induction h with
  | nil =>
    intro pre post start op_count i _ _ _ content c rest fuel
    simp [String.intercalate.go]
  | @cons P nt Ps nts hP _ ih =>
    intro pre post start op_count i hi hstart hle content c rest fuel
    simp only [List.length_cons, Nat.cast_add, Nat.cast_one] at hle
    have hop : op_at (pre ++ P :: Ps ++ post) (start + i) = some P := by
      rw [List.append_assoc]
      exact op_at_length_append pre P (Ps ++ post) _ hstart
    have hstep := json_ser_type_ops_loop_member_step world mem (pre ++ P :: Ps ++ post)
      start op_count base i P nt (by omega) (by omega) hop hP
      ⟨content, ⟨c + 1, ", "⟩ :: rest⟩ (fuel + Ps.length)
    have hfuel : fuel + 1 + (P :: Ps).length = fuel + Ps.length + 1 + 1 := by
      simp only [List.length_cons]; omega
    rw [hfuel, hstep]
    have hlist : pre ++ P :: Ps ++ post = (pre ++ [P]) ++ Ps ++ post := by simp
    have hih := ih (pre ++ [P]) post start op_count (i + 1) (by omega)
      (by simp only [List.length_append, List.length_singleton]; push_cast; omega)
      (by omega) (content ++ ", " ++ member_text nt) (c + 1) rest fuel
    have hfuel2 : fuel + Ps.length + 1 = fuel + 1 + Ps.length := by omega
    rw [hlist, hfuel2]
    simp only [ecs_strbuf_list_next, ecs_strbuf_append, ecs_strbuf_appendstr, ne_eq,
      Nat.add_one_ne_zero, not_false_eq_true, if_true]
    have hc : content ++ ", " ++ ("\"" ++ nt.1 ++ "\": ") ++ nt.2 =
        content ++ ", " ++ member_text nt := by
      simp only [member_text, String.append_assoc]
    rw [hc, hih]
    simp only [List.map_cons, String.intercalate.go, List.length_cons, Nat.cast_add,
      Nat.cast_one]
    have e1 : i + 1 + (Ps.length : Int) = i + ((Ps.length : Int) + 1) := by ring
    have e2 : c + 1 + 1 + Ps.length = c + 1 + (Ps.length + 1) := by omega
    rw [e1, e2]

theorem json_ser_type_ops_loop_members (world : ecs_world_t) (mem : Memory)
    (base : Int) (Ps : List ecs_meta_type_op_t) (nts : List (String × String))
    (h : List.Forall₂ (primitive_member mem base) Ps nts)
    (pre post : List ecs_meta_type_op_t) (start op_count i : Int) (hi : 0 < i)
    (hstart : start + i = pre.length) (hle : i + Ps.length ≤ op_count)
    (content : String) (rest : List ecs_strbuf_list_elem) (fuel : Nat) :
    json_ser_type_ops_loop (fuel + 1 + Ps.length) world mem (pre ++ Ps ++ post) start
        op_count base i ⟨content, ⟨0, ", "⟩ :: rest⟩ =
      json_ser_type_ops_loop (fuel + 1) world mem (pre ++ Ps ++ post) start op_count base
        (i + Ps.length)
        ⟨content ++ String.intercalate ", " (nts.map member_text),
          ⟨Ps.length, ", "⟩ :: rest⟩ := by
  cases h with
  | nil => simp [String.intercalate]
  | @cons P nt Ps nts hP hrest =>
    simp only [List.length_cons, Nat.cast_add, Nat.cast_one] at hle
    have hop : op_at (pre ++ P :: Ps ++ post) (start + i) = some P := by
      rw [List.append_assoc]
      exact op_at_length_append pre P (Ps ++ post) _ hstart
    have hstep := json_ser_type_ops_loop_member_step world mem (pre ++ P :: Ps ++ post)
      start op_count base i P nt (by omega) (by omega) hop hP
      ⟨content, ⟨0, ", "⟩ :: rest⟩ (fuel + Ps.length)
    have hfuel : fuel + 1 + (P :: Ps).length = fuel + Ps.length + 1 + 1 := by
      simp only [List.length_cons]; omega
    rw [hfuel, hstep]
    have hlist : pre ++ P :: Ps ++ post = (pre ++ [P]) ++ Ps ++ post := by simp
    have hih := json_ser_type_ops_loop_members_started world mem base Ps nts hrest
      (pre ++ [P]) post start op_count (i + 1) (by omega)
      (by simp only [List.length_append, List.length_singleton]; push_cast; omega)
      (by omega) (content ++ member_text nt) 0 rest fuel
    have hfuel2 : fuel + Ps.length + 1 = fuel + 1 + Ps.length := by omega
    rw [hlist, hfuel2]
    simp only [ecs_strbuf_list_next, ecs_strbuf_append, ecs_strbuf_appendstr, ne_eq,
      not_true_eq_false, if_false]
    have hc : content ++ ("\"" ++ nt.1 ++ "\": ") ++ nt.2 = content ++ member_text nt := by
      simp only [member_text, String.append_assoc]
    simp only [Nat.zero_add] at hih ⊢
    rw [hc, hih, append_intercalate_cons]
    simp only [List.map_cons, List.length_cons, Nat.cast_add, Nat.cast_one]
    have e1 : i + 1 + (Ps.length : Int) = i + ((Ps.length : Int) + 1) := by ring
    have e2 : 1 + Ps.length = Ps.length + 1 := by omega
    rw [e1, e2]

/-- The interpreter on a slice `ScopeOpen, P1, ..., Pn, ScopeClose` of named Primitive
members, the closing operation carrying no field name and no repeat count above 1: from
any writer it returns 0, having appended the object with the members in program order and
restored the list scopes. -/
theorem json_ser_type_ops_struct_ok (world : ecs_world_t) (mem : Memory) (base : Int)
    (front back : List ecs_meta_type_op_t) (push pop : ecs_meta_type_op_t)
    (Ps : List ecs_meta_type_op_t) (nts : List (String × String))
    (hpush : push.kind = EcsOpPush) (hpop : pop.kind = EcsOpPop)
    (hpop_name : pop.name = none) (hpop_count : pop.count ≤ 1)
    (hPs : List.Forall₂ (primitive_member mem base) Ps nts)
    (str : ecs_strbuf_t) (fuel : Nat) (hfuel : Ps.length + 4 ≤ fuel) :
    json_ser_type_ops fuel world mem (front ++ push :: Ps ++ pop :: back) front.length
        ((Ps.length + 2 : Nat) : Int) base str =
      .ok ⟨str.content ++ ("\x7b" ++ String.intercalate ", " (nts.map member_text) ++ "\x7d"),
        str.list_stack⟩ := by
  obtain ⟨f, rfl⟩ : ∃ f, fuel = f + 1 + 1 + Ps.length + 1 + 1 :=
    ⟨fuel - Ps.length - 4, by omega⟩
  have hop0 : op_at (front ++ push :: Ps ++ pop :: back) ((front.length : Int) + 0) =
      some push := by
    have : front ++ push :: Ps ++ pop :: back = front ++ push :: (Ps ++ pop :: back) := by
      simp
    rw [this]
    exact op_at_length_append front push _ _ (by simp)
  have h0 : (0 : Int) < ((Ps.length + 2 : Nat) : Int) := by push_cast; omega
  rw [json_ser_type_ops, json_ser_type_ops_loop]
  simp only [h0, if_true, hop0, ne_eq, not_true_eq_false, if_false, false_and, hpush]
  have hlist : front ++ push :: Ps ++ pop :: back = (front ++ [push]) ++ Ps ++ pop :: back := by
    simp
  have hmem := json_ser_type_ops_loop_members world mem base Ps nts hPs (front ++ [push])
    (pop :: back) front.length ((Ps.length + 2 : Nat) : Int) (0 + 1) (by omega)
    (by simp only [List.length_append, List.length_singleton]; push_cast; omega)
    (by push_cast; omega) (str.content ++ "\x7b") str.list_stack (f + 1)
  rw [hlist]
  simp only [ecs_strbuf_list_push]
  rw [hmem]
  have hopn : op_at (front ++ [push] ++ Ps ++ pop :: back)
      ((front.length : Int) + (0 + 1 + (Ps.length : Int))) = some pop := by
    apply op_at_length_append
    simp only [List.length_append, List.length_singleton]; push_cast; ring
  have hn : (0 : Int) + 1 + (Ps.length : Int) < ((Ps.length + 2 : Nat) : Int) := by
    push_cast; omega
  have hn0 : (0 : Int) + 1 + (Ps.length : Int) ≠ 0 := by omega
  have hpc : ¬ (pop.count > 1) := by omega
  rw [json_ser_type_ops_loop]
  simp only [hn, if_true, hopn, hn0, ne_eq, not_false_eq_true, hpop_name, hpc, and_false,
    if_false, hpop]
  have hend : ¬ ((0 : Int) + 1 + (Ps.length : Int) + 1 < ((Ps.length + 2 : Nat) : Int)) := by
    push_cast; omega
  rw [json_ser_type_ops_loop]
  simp only [hend, if_false, ecs_strbuf_list_pop, List.tail_cons, String.append_assoc]

/-- The interpreter on the program of the struct `{x:int32, y:int32}` of the example
registry, for a struct at `base` whose members the scalar encoder prints as `x` and `y`. -/
theorem point_at_ok (base : Int) (x y : String)
    (hx : example_memory.primitive_to_expr 9 (ECS_OFFSET base 0) = some x)
    (hy : example_memory.primitive_to_expr 9 (ECS_OFFSET base 4) = some y)
    (w : ecs_strbuf_t) (fuel : Nat) (hfuel : 6 ≤ fuel) :
    json_ser_type_ops fuel example_world example_memory point_ops 0 point_ops.length base w =
      .ok ⟨w.content ++ ("\x7b" ++ String.intercalate ", "
        ([(("x", x) : String × String), ("y", y)].map member_text) ++ "\x7d"), w.list_stack⟩ :=
  json_ser_type_ops_struct_ok example_world example_memory base [] [] push_op pop_op
    [int32_member "x" 0, int32_member "y" 4] [("x", x), ("y", y)] rfl rfl rfl (by decide)
    (List.Forall₂.cons ⟨by decide, rfl, hx⟩
      (List.Forall₂.cons ⟨by decide, rfl, hy⟩ List.Forall₂.nil)) w fuel hfuel

/-- The interpreter on the one-operation slice of a Primitive: it appends the scalar
encoding of the value at `ptr + op.offset`, whatever the writer. -/
theorem json_ser_type_ops_single_primitive (world : ecs_world_t) (mem : Memory)
    (ops : List ecs_meta_type_op_t) (j : Int) (op : ecs_meta_type_op_t) (subkind : Nat)
    (ptr : Int) (text : String)
    (hop : op_at ops j = some op) (hkind : op.kind = EcsOpPrimitive subkind)
    (htext : mem.primitive_to_expr subkind (ECS_OFFSET ptr op.offset) = some text)
    (w : ecs_strbuf_t) (fuel : Nat) (hfuel : 3 ≤ fuel) :
    json_ser_type_ops fuel world mem ops j 1 ptr w =
      .ok ⟨w.content ++ text, w.list_stack⟩ := by
  obtain ⟨f, rfl⟩ : ∃ f, fuel = f + 1 + 1 + 1 := ⟨fuel - 3, by omega⟩
  have hop0 : op_at ops (j + 0) = some op := by simpa using hop
  rw [json_ser_type_ops, json_ser_type_ops_loop]
  simp only [zero_lt_one, if_true, hop0, ne_eq, not_true_eq_false, if_false, false_and,
    hkind, json_ser_type_op, json_op_to_primitive_kind, htext, Result.andThen]
  rw [json_ser_type_ops_loop]
  simp [ecs_strbuf_appendstr]

/-! # Claims -/

/-! ## C1 -/

/-- C1 as stated fails: the program `[ScopeOpen, ScopeClose]` with no member between the
two, whose ScopeClose carries the field name `z`, makes `json_ser_type_ops` on a fresh
writer produce `{"z": }` and not `{}`; and when the ScopeClose has an elementCount of 2
instead, it is expanded as an inline array and the output is not `{}` either. -/
theorem struct_named_close_member :
    push_op.kind = EcsOpPush ∧ named_pop_op.kind = EcsOpPop ∧
    repeated_pop_op.kind = EcsOpPop ∧
    List.Forall₂ (primitive_member example_memory 0) [] [] ∧
    json_ser_type_ops 4 example_world example_memory ([push_op] ++ [] ++ [named_pop_op]) 0 2 0
        ECS_STRBUF_INIT = .ok ⟨"\x7b\"z\": \x7d", []⟩ ∧
    json_ser_type_ops 4 example_world example_memory ([push_op] ++ [] ++ [named_pop_op]) 0 2 0
        ECS_STRBUF_INIT ≠
      .ok ⟨"\x7b" ++ String.intercalate ", " (([] : List (String × String)).map member_text)
        ++ "\x7d", []⟩ ∧
    json_ser_type_ops 9 example_world example_memory ([push_op] ++ [] ++ [repeated_pop_op])
        0 2 0 ECS_STRBUF_INIT ≠
      .ok ⟨"\x7b" ++ String.intercalate ", " (([] : List (String × String)).map member_text)
        ++ "\x7d", []⟩ :=
  ⟨rfl, rfl, rfl, List.Forall₂.nil, by decide, by decide, by decide⟩

/-- C1, amended. For every program `[ScopeOpen, P1, ..., Pn, ScopeClose]` (n ≥ 0) in which
each `Pi` is a Primitive operation with elementCount ≤ 1 and field name `ni`, and whose
ScopeClose carries no field name and has elementCount ≤ 1, and every buffer on which the
scalar encoder succeeds with text `ti` for `Pi`: `json_ser_type_ops` on a fresh writer
returns 0 and the output is exactly `{`, the members `"ni": ti` in program order separated
by `, `, and `}`; no list scope is left open. -/
theorem json_ser_type_ops_struct_fields (world : ecs_world_t) (mem : Memory) (base : Int)
    (push pop : ecs_meta_type_op_t) (Ps : List ecs_meta_type_op_t)
    (nts : List (String × String))
    (hpush : push.kind = EcsOpPush) (hpop : pop.kind = EcsOpPop)
    (hpop_name : pop.name = none) (hpop_count : pop.count ≤ 1)
    (hPs : List.Forall₂ (primitive_member mem base) Ps nts)
    (fuel : Nat) (hfuel : Ps.length + 4 ≤ fuel) :
    json_ser_type_ops fuel world mem ([push] ++ Ps ++ [pop]) 0 ((Ps.length + 2 : Nat) : Int)
        base ECS_STRBUF_INIT =
      .ok ⟨"\x7b" ++ String.intercalate ", " (nts.map member_text) ++ "\x7d", []⟩ := by
  have h := json_ser_type_ops_struct_ok world mem base [] [] push pop Ps nts hpush hpop
    hpop_name hpop_count hPs ECS_STRBUF_INIT fuel hfuel
  simpa [ECS_STRBUF_INIT] using h

/-- C1 (amended) on the struct `{x:int32, y:int32}` holding `(1, 2)`: the output is
`{"x": 1, "y": 2}`. -/
theorem json_ser_type_ops_struct_fields_witness :
    push_op.kind = EcsOpPush ∧ pop_op.kind = EcsOpPop ∧ pop_op.name = none ∧
    pop_op.count ≤ 1 ∧
    List.Forall₂ (primitive_member example_memory 0) [int32_member "x" 0, int32_member "y" 4]
      [("x", "1"), ("y", "2")] ∧
    json_ser_type_ops 6 example_world example_memory
        ([push_op] ++ [int32_member "x" 0, int32_member "y" 4] ++ [pop_op]) 0 4 0
        ECS_STRBUF_INIT = .ok ⟨"\x7b\"x\": 1, \"y\": 2\x7d", []⟩ :=
  have hPs : List.Forall₂ (primitive_member example_memory 0)
      [int32_member "x" 0, int32_member "y" 4] [("x", "1"), ("y", "2")] :=
    List.Forall₂.cons ⟨by decide, rfl, rfl⟩
      (List.Forall₂.cons ⟨by decide, rfl, rfl⟩ List.Forall₂.nil)
  ⟨rfl, rfl, rfl, by decide, hPs,
    json_ser_type_ops_struct_fields example_world example_memory 0 push_op pop_op
      [int32_member "x" 0, int32_member "y" 4] [("x", "1"), ("y", "2")] rfl rfl rfl
      (by decide) hPs 6 (by decide)⟩

/-! ## C2 -/

/-- C2. With the enum schema registered and its values unique, `json_ser_enum` returns 0
exactly when the stored integer is a key of the schema; it then appends the double-quoted
name of the constant mapped to the value and nothing else, and otherwise it returns -1
with the writer untouched. -/
theorem json_ser_enum_iff_key (world : ecs_world_t) (mem : Memory) (op : ecs_meta_type_op_t)
    (base : Int) (str : ecs_strbuf_t) (enum_type : EcsEnum)
    (hty : world.get_EcsEnum op.type = some enum_type)
    (huniq : (enum_type.constants.map Prod.fst).Nodup) :
    ((∃ s, json_ser_enum world mem op base str = .ok s) ↔
        mem.int32 base ∈ enum_type.constants.map Prod.fst) ∧
    (∀ constant, (mem.int32 base, constant) ∈ enum_type.constants →
        json_ser_enum world mem op base str =
          .ok ⟨str.content ++ ("\"" ++ world.ecs_get_name constant.constant ++ "\""),
            str.list_stack⟩) ∧
    (mem.int32 base ∉ enum_type.constants.map Prod.fst →
        json_ser_enum world mem op base str = .error str) := by
  refine ⟨⟨?_, ?_⟩, ?_, ?_⟩
  · rintro ⟨s, hs⟩
    by_contra hn
    simp [json_ser_enum, hty, ecs_map_get_none _ _ hn] at hs
  · intro hin
    obtain ⟨⟨k, c⟩, hc, hk⟩ := List.mem_map.1 hin
    simp only at hk
    subst hk
    simp [json_ser_enum, hty, ecs_map_get_of_mem _ _ c huniq hc]
  · intro c hc
    simp [json_ser_enum, hty, ecs_map_get_of_mem _ _ c huniq hc, ecs_strbuf_appendstr,
      String.append_assoc]
  · intro hn
    simp [json_ser_enum, hty, ecs_map_get_none _ _ hn]

/-- C2 at the schema `{Red:0, Green:1, Blue:2}`: the stored value 1 gives `"Green"`, the
stored value 9 fails. -/
theorem json_ser_enum_iff_key_witness :
    example_world.get_EcsEnum (example_op EcsOpEnum 1).type =
        some ⟨[(0, ⟨10⟩), (1, ⟨11⟩), (2, ⟨12⟩)]⟩ ∧
    ([(0, (⟨10⟩ : ecs_enum_constant_t)), (1, ⟨11⟩), (2, ⟨12⟩)].map Prod.fst).Nodup ∧
    json_ser_enum example_world example_memory (example_op EcsOpEnum 1) 1 ECS_STRBUF_INIT =
        .ok ⟨"\"Green\"", []⟩ ∧
    json_ser_enum example_world example_memory (example_op EcsOpEnum 1) 9 ECS_STRBUF_INIT =
        .error ECS_STRBUF_INIT :=
  ⟨rfl, by decide,
    (json_ser_enum_iff_key example_world example_memory (example_op EcsOpEnum 1) 1
      ECS_STRBUF_INIT ⟨[(0, ⟨10⟩), (1, ⟨11⟩), (2, ⟨12⟩)]⟩ rfl (by decide)).2.1 ⟨11⟩
      (by decide),
    (json_ser_enum_iff_key example_world example_memory (example_op EcsOpEnum 1) 9
      ECS_STRBUF_INIT ⟨[(0, ⟨10⟩), (1, ⟨11⟩), (2, ⟨12⟩)]⟩ rfl (by decide)).2.2
      (by decide)⟩

/-! ## C3 -/

/-- C3. For a registered flag-set schema whose patterns are pairwise distinct single bits
and a nonzero stored value `v`: `json_ser_bitmask` returns 0 exactly when every set bit of
`v` is the pattern of some constant; when every set bit is covered it appends a double
quote, the names of the constants whose pattern is contained in `v`, in schema order and
joined by `|`, and a double quote, leaving the list scopes as they were; otherwise it
returns -1. -/
theorem json_ser_bitmask_single_bits (world : ecs_world_t) (mem : Memory)
    (op : ecs_meta_type_op_t) (ptr : Int) (str : ecs_strbuf_t) (bitmask_type : EcsBitmask)
    (hty : world.get_EcsBitmask op.type = some bitmask_type)
    (hbits : ∀ kc ∈ bitmask_type.constants, ∃ b, kc.1 = 2 ^ b)
    (hdistinct : (bitmask_type.constants.map Prod.fst).Nodup)
    (hv : load_uint32 mem ptr ≠ 0) :
    ((∃ s, json_ser_bitmask world mem op ptr str = .ok s) ↔
        ∀ b, (load_uint32 mem ptr).testBit b = true →
          2 ^ b ∈ bitmask_type.constants.map Prod.fst) ∧
    ((∀ b, (load_uint32 mem ptr).testBit b = true →
          2 ^ b ∈ bitmask_type.constants.map Prod.fst) →
        json_ser_bitmask world mem op ptr str =
          .ok ⟨str.content ++ ("\"" ++ String.intercalate "|"
              ((bitmask_type.constants.filter
                  (fun kc => decide (load_uint32 mem ptr &&& kc.1 = kc.1))).map
                (fun kc => world.ecs_get_name kc.2.constant)) ++ "\""),
            str.list_stack⟩) ∧
    ((∃ b, (load_uint32 mem ptr).testBit b = true ∧
          2 ^ b ∉ bitmask_type.constants.map Prod.fst) →
        ∃ s, json_ser_bitmask world mem op ptr str = .error s) := by
  obtain ⟨h1, h2⟩ := json_ser_bitmask_loop_single_bits world bitmask_type.constants
    (load_uint32 mem ptr) (ecs_strbuf_list_push str "\"" "|") (load_uint32_lt mem ptr)
    hbits hdistinct
  have hzero : (json_ser_bitmask_loop world bitmask_type.constants (load_uint32 mem ptr)
      (ecs_strbuf_list_push str "\"" "|")).1 = 0 ↔
      ∀ b, (load_uint32 mem ptr).testBit b = true →
        2 ^ b ∈ bitmask_type.constants.map Prod.fst := by
    constructor
    · intro h0 b hb
      have := h2 b
      rw [h0, hb] at this
      simpa using this
    · intro hall
      apply Nat.eq_of_testBit_eq
      intro i
      rw [h2 i]
      cases hb : (load_uint32 mem ptr).testBit i
      · simp
      · simpa using hall i hb
  have hok : (∀ b, (load_uint32 mem ptr).testBit b = true →
        2 ^ b ∈ bitmask_type.constants.map Prod.fst) →
      json_ser_bitmask world mem op ptr str =
        .ok ⟨str.content ++ ("\"" ++ String.intercalate "|"
            ((bitmask_type.constants.filter
                (fun kc => decide (load_uint32 mem ptr &&& kc.1 = kc.1))).map
              (fun kc => world.ecs_get_name kc.2.constant)) ++ "\""),
          str.list_stack⟩ := by
    intro hall
    have h0 := hzero.2 hall
    simp only [json_ser_bitmask, hty, hv, if_false, h0, ne_eq, not_true_eq_false]
    rw [h1]
    simp only [ecs_strbuf_list_push, foldl_list_appendstr_fresh, ecs_strbuf_list_pop,
      List.tail_cons, String.append_assoc]
  have herr : ¬ (∀ b, (load_uint32 mem ptr).testBit b = true →
        2 ^ b ∈ bitmask_type.constants.map Prod.fst) →
      ∃ s, json_ser_bitmask world mem op ptr str = .error s := by
    intro hn
    have h0 := mt hzero.1 hn
    refine ⟨(json_ser_bitmask_loop world bitmask_type.constants (load_uint32 mem ptr)
      (ecs_strbuf_list_push str "\"" "|")).2, ?_⟩
    simp only [json_ser_bitmask, hty, hv, if_false, ne_eq, h0, not_false_eq_true, if_true]
  refine ⟨⟨?_, fun hall => ⟨_, hok hall⟩⟩, hok, ?_⟩
  · rintro ⟨s, hs⟩
    by_contra hn
    obtain ⟨s2, hs2⟩ := herr hn
    rw [hs2] at hs
    cases hs
  · rintro ⟨b, hb, hnb⟩
    exact herr (fun hall => hnb (hall b hb))

/-- C3 at the schema `{A:1, B:2, C:4}`: the stored value 3 gives `"A|B"`, the stored value
5 gives `"A|C"` and the stored value 8 fails. -/
theorem json_ser_bitmask_single_bits_witness :
    example_world.get_EcsBitmask (example_op EcsOpBitmask 2).type =
        some ⟨[(1, ⟨20⟩), (2, ⟨21⟩), (4, ⟨22⟩)]⟩ ∧
    ([(1, (⟨20⟩ : ecs_bitmask_constant_t)), (2, ⟨21⟩), (4, ⟨22⟩)].map Prod.fst).Nodup ∧
    load_uint32 example_memory 3 ≠ 0 ∧
    json_ser_bitmask example_world example_memory (example_op EcsOpBitmask 2) 3
        ECS_STRBUF_INIT = .ok ⟨"\"A|B\"", []⟩ ∧
    json_ser_bitmask example_world example_memory (example_op EcsOpBitmask 2) 5
        ECS_STRBUF_INIT = .ok ⟨"\"A|C\"", []⟩ ∧
    (∃ s, json_ser_bitmask example_world example_memory (example_op EcsOpBitmask 2) 8
        ECS_STRBUF_INIT = .error s) := by
  have hbits : ∀ kc ∈ [(1, (⟨20⟩ : ecs_bitmask_constant_t)), (2, ⟨21⟩), (4, ⟨22⟩)],
      ∃ b, kc.1 = 2 ^ b := by
    intro kc h
    simp only [List.mem_cons, List.mem_singleton, List.not_mem_nil, or_false] at h
    rcases h with rfl | rfl | rfl
    · exact ⟨0, rfl⟩
    · exact ⟨1, rfl⟩
    · exact ⟨2, rfl⟩
  have hsmall : ∀ v b : Nat, v < 8 → v.testBit b = true →
      2 ^ b ∈ [(1, (⟨20⟩ : ecs_bitmask_constant_t)), (2, ⟨21⟩), (4, ⟨22⟩)].map Prod.fst := by
    intro v b hv hb
    rcases b with _ | _ | _ | b
    · decide
    · decide
    · decide
    · have h8 : v < 2 ^ (b + 1 + 1 + 1) :=
        lt_of_lt_of_le hv (Nat.pow_le_pow_right (by norm_num) (by omega) : 2 ^ 3 ≤ _)
      rw [Nat.testBit_lt_two_pow h8] at hb
      cases hb
  refine ⟨rfl, by decide, by decide, ?_, ?_, ?_⟩
  · exact (json_ser_bitmask_single_bits example_world example_memory
      (example_op EcsOpBitmask 2) 3 ECS_STRBUF_INIT ⟨[(1, ⟨20⟩), (2, ⟨21⟩), (4, ⟨22⟩)]⟩ rfl
      hbits (by decide) (by decide)).2.1 (fun b hb => hsmall 3 b (by decide) hb)
  · exact (json_ser_bitmask_single_bits example_world example_memory
      (example_op EcsOpBitmask 2) 5 ECS_STRBUF_INIT ⟨[(1, ⟨20⟩), (2, ⟨21⟩), (4, ⟨22⟩)]⟩ rfl
      hbits (by decide) (by decide)).2.1 (fun b hb => hsmall 5 b (by decide) hb)
  · exact (json_ser_bitmask_single_bits example_world example_memory
      (example_op EcsOpBitmask 2) 8 ECS_STRBUF_INIT ⟨[(1, ⟨20⟩), (2, ⟨21⟩), (4, ⟨22⟩)]⟩ rfl
      hbits (by decide) (by decide)).2.2 ⟨3, by decide, by decide⟩

/-! ## C4 -/

/-- C4. With any flag-set schema registered (an empty one included), a stored value of 0
makes `json_ser_bitmask` return 0 after appending the single character `0`: no quote is
emitted and the stack of list scopes is left as it was. -/
theorem json_ser_bitmask_zero (world : ecs_world_t) (mem : Memory) (op : ecs_meta_type_op_t)
    (ptr : Int) (str : ecs_strbuf_t) (bitmask_type : EcsBitmask)
    (hty : world.get_EcsBitmask op.type = some bitmask_type)
    (hv : load_uint32 mem ptr = 0) :
    json_ser_bitmask world mem op ptr str = .ok ⟨str.content ++ "0", str.list_stack⟩ := by
  simp [json_ser_bitmask, hty, hv, ecs_strbuf_appendstr]

/-- C4 at the schema `{A:1, B:2, C:4}` with the stored value 0. -/
theorem json_ser_bitmask_zero_witness :
    example_world.get_EcsBitmask (example_op EcsOpBitmask 2).type =
        some ⟨[(1, ⟨20⟩), (2, ⟨21⟩), (4, ⟨22⟩)]⟩ ∧
    load_uint32 example_memory 0 = 0 ∧
    json_ser_bitmask example_world example_memory (example_op EcsOpBitmask 2) 0
        ECS_STRBUF_INIT = .ok ⟨"0", []⟩ :=
  ⟨rfl, by decide,
    json_ser_bitmask_zero example_world example_memory (example_op EcsOpBitmask 2) 0
      ECS_STRBUF_INIT ⟨[(1, ⟨20⟩), (2, ⟨21⟩), (4, ⟨22⟩)]⟩ rfl (by decide)⟩

/-! ## C5 -/

/-- C5. For any registered flag-set schema (patterns may overlap or be multi-bit groups)
and a nonzero stored value `v`, with `steps` the subtractions the loop performs: every
subtraction is made on a residual that contains all bits of the key, so the key is at most
the residual, the unsigned 32-bit subtraction does not wrap, and its result is the residual
with the bits of the key cleared; and whenever `json_ser_bitmask` returns 0, the names it
emitted are those of `steps`, the keys of `steps` are pairwise bit-disjoint, and both their
bitwise OR and their sum equal `v`. -/
theorem json_ser_bitmask_exact_cover (world : ecs_world_t) (mem : Memory)
    (op : ecs_meta_type_op_t) (ptr : Int) (str : ecs_strbuf_t) (bitmask_type : EcsBitmask)
    (hty : world.get_EcsBitmask op.type = some bitmask_type)
    (hv : load_uint32 mem ptr ≠ 0) :
    (∀ st ∈ json_ser_bitmask_steps bitmask_type.constants (load_uint32 mem ptr),
        st.residual &&& st.key = st.key ∧ st.key ≤ st.residual ∧
        (st.residual + 4294967296 - st.key % 4294967296) % 4294967296 =
          st.residual - st.key ∧
        ∀ i, (st.residual - st.key).testBit i =
          (st.residual.testBit i && !st.key.testBit i)) ∧
    (∀ s, json_ser_bitmask world mem op ptr str = .ok s →
        s = ecs_strbuf_list_pop
            ((json_ser_bitmask_steps bitmask_type.constants (load_uint32 mem ptr)).foldl
              (fun b st =>
                ecs_strbuf_list_appendstr b (world.ecs_get_name st.constant.constant))
              (ecs_strbuf_list_push str "\"" "|")) "\"" ∧
        (json_ser_bitmask_steps bitmask_type.constants (load_uint32 mem ptr)).Pairwise
          (fun a b => a.key &&& b.key = 0) ∧
        ((json_ser_bitmask_steps bitmask_type.constants (load_uint32 mem ptr)).map
          (fun st => st.key)).foldr (fun a b => a ||| b) 0 = load_uint32 mem ptr ∧
        ((json_ser_bitmask_steps bitmask_type.constants (load_uint32 mem ptr)).map
          (fun st => st.key)).sum = load_uint32 mem ptr) := by
  refine ⟨?_, ?_⟩
  · intro st hst
    obtain ⟨hlt, hsub⟩ := json_ser_bitmask_steps_guard bitmask_type.constants
      (load_uint32 mem ptr) (load_uint32_lt mem ptr) st hst
    exact ⟨hsub, le_of_subset _ _ hsub, uint32_sub_of_subset _ _ hlt hsub,
      testBit_sub_of_subset _ _ hsub⟩
  · intro s hs
    obtain ⟨h1, _, _, _, h5, h6⟩ := json_ser_bitmask_loop_cover world bitmask_type.constants
      (load_uint32 mem ptr) (ecs_strbuf_list_push str "\"" "|") (load_uint32_lt mem ptr)
    simp only [json_ser_bitmask, hty, hv, if_false] at hs
    split at hs
    · cases hs
    · rename_i h0
      simp only [ne_eq, not_not] at h0
      rw [h0] at h5 h6
      rw [json_ser_bitmask_loop_eq_steps] at hs
      injection hs with hs
      refine ⟨hs.symm, h1, ?_, ?_⟩
      · simpa using h6
      · simpa using h5

/-- C5 at the schema `{AB:3, A:1}` with the stored value 3: the loop subtracts the group
`AB` from the residual 3 and nothing else, and emits `"AB"`. -/
theorem json_ser_bitmask_exact_cover_witness :
    example_world.get_EcsBitmask (example_op EcsOpBitmask 6).type =
        some ⟨[(3, ⟨23⟩), (1, ⟨20⟩)]⟩ ∧
    load_uint32 example_memory 3 ≠ 0 ∧
    json_ser_bitmask_steps [(3, ⟨23⟩), (1, ⟨20⟩)] (load_uint32 example_memory 3) =
        [⟨3, 3, ⟨23⟩⟩] ∧
    json_ser_bitmask example_world example_memory (example_op EcsOpBitmask 6) 3
        ECS_STRBUF_INIT = .ok ⟨"\"AB\"", []⟩ ∧
    (([⟨3, 3, ⟨23⟩⟩] : List bitmask_step).map (fun st => st.key)).sum =
        load_uint32 example_memory 3 :=
  ⟨rfl, by decide, by decide, by decide,
    ((json_ser_bitmask_exact_cover example_world example_memory (example_op EcsOpBitmask 6) 3
      ECS_STRBUF_INIT ⟨[(3, ⟨23⟩), (1, ⟨20⟩)]⟩ rfl (by decide)).2 ⟨"\"AB\"", []⟩
      (by decide)).2.2.2⟩

/-! ## C6 -/

/-- C6. `json_ser_vector` on the handle stored at `base + op.offset`: a null handle makes
it return 0 after appending exactly `null`; a non-null handle with runtime count 0, whose
vector schema, element component and element program are registered, makes it return 0
after appending exactly `[]`.  Both leave the list scopes as they were, and the two
resulting texts differ, whatever the element schema. -/
theorem json_ser_vector_null_or_empty (world : ecs_world_t) (mem : Memory)
    (op : ecs_meta_type_op_t) (base : Int) (str : ecs_strbuf_t) (fuel : Nat) :
    (mem.vector (ECS_OFFSET base op.offset) = none →
      json_ser_vector (fuel + 1) world mem op (ECS_OFFSET base op.offset) str =
        .ok ⟨str.content ++ "null", str.list_stack⟩) ∧
    (∀ value v comp ser,
      mem.vector (ECS_OFFSET base op.offset) = some value → value.count = 0 →
      world.get_EcsVector op.type = some v →
      world.get_EcsComponent v.type = some comp →
      world.get_EcsMetaTypeSerialized v.type = some ser →
      json_ser_vector (fuel + 4) world mem op (ECS_OFFSET base op.offset) str =
        .ok ⟨str.content ++ "[]", str.list_stack⟩) ∧
    str.content ++ "null" ≠ str.content ++ "[]" := by
  refine ⟨?_, ?_, ?_⟩
  · intro h
    simp [json_ser_vector, h, ecs_strbuf_appendstr]
  · intro value v comp ser h hc hv hcomp hser
    simp [json_ser_vector, json_ser_type_elements, json_ser_elements,
      json_ser_elements_loop, h, hc, hv, hcomp, hser, ecs_strbuf_list_push,
      ecs_strbuf_list_pop, String.append_assoc]
  · intro h
    have := congrArg String.data h
    simp at this

/-- C6 on the example buffer: the handle at address 0 is null and gives `null`, the handle
at address 16 is an empty vector of structs and gives `[]`. -/
theorem json_ser_vector_null_or_empty_witness :
    example_memory.vector (ECS_OFFSET 0 (example_op EcsOpVector 4).offset) = none ∧
    json_ser_vector 1 example_world example_memory (example_op EcsOpVector 4)
        (ECS_OFFSET 0 (example_op EcsOpVector 4).offset) ECS_STRBUF_INIT =
      .ok ⟨"null", []⟩ ∧
    json_ser_vector 4 example_world example_memory (example_op EcsOpVector 4)
        (ECS_OFFSET 16 (example_op EcsOpVector 4).offset) ECS_STRBUF_INIT =
      .ok ⟨"[]", []⟩ :=
  ⟨rfl,
    (json_ser_vector_null_or_empty example_world example_memory (example_op EcsOpVector 4) 0
      ECS_STRBUF_INIT 0).1 rfl,
    (json_ser_vector_null_or_empty example_world example_memory (example_op EcsOpVector 4) 16
      ECS_STRBUF_INIT 0).2.1 ⟨0, fun _ _ => 64⟩ ⟨3⟩ ⟨8, 4⟩ _ rfl rfl rfl rfl rfl⟩

/-! ## C8 -/

/-- C8 as stated fails for a subProgramLength above 1: in the program
`[ScopeOpen, a, b, ScopeClose]` whose member `a` is a Primitive with elementCount 2 and
subProgramLength 2, the scalar encodings of the two values of `a` are `1` and `2`, but the
array emitted for `a` is `[1, "b": 1, 2, "b": 2]` and not `[1, 2]`: the loop iteration at
index 1 does not lead to what the loop would do from index 3 after `"a": [1, 2]`. -/
theorem inline_array_long_subprogram :
    op_at long_array_ops (0 + 1) = some (int32_array_member "a" 32 2 2) ∧
    (int32_array_member "a" 32 2 2).op_count ≥ 1 ∧
    example_memory.primitive_to_expr 9 (0 + 32 + (0 : Nat) * 4) = some "1" ∧
    example_memory.primitive_to_expr 9 (0 + 32 + (1 : Nat) * 4) = some "2" ∧
    json_ser_type_ops 12 example_world example_memory long_array_ops 0 4 0 ECS_STRBUF_INIT =
      .ok ⟨"\x7b\"a\": [1, \"b\": 1, 2, \"b\": 2]\x7d", []⟩ ∧
    json_ser_type_ops_loop 11 example_world example_memory long_array_ops 0 4 0 1
        ⟨"\x7b", [⟨0, ", "⟩]⟩ ≠
      json_ser_type_ops_loop 10 example_world example_memory long_array_ops 0 4 0 (1 + 2)
        ⟨"\x7b" ++ ("\"" ++ "a" ++ "\": ") ++
          ("[" ++ String.intercalate ", " ((List.range 2).map
            (fun k => if k = 0 then "1" else "2")) ++ "]"), [⟨1, ", "⟩]⟩ := by
  decide

/-- C8, amended. For a slice of a program and an operation at index `i > 0` of the slice
that is a Primitive with field name `f` and elementCount `n > 1`: (1) when its
subProgramLength is 1 and the scalar encoder gives `t k` for the value at
`base + op.offset + k * op.size`, one iteration of the loop of `json_ser_type_ops` starts a
list item, emits the member name `f` once, then `[`, `t 0`, ..., `t (n-1)` separated by
`, `, then `]`, and continues at index `i + 1`; (2) for any subProgramLength `L`, when the
nested `json_ser_elements` call on the slice of `L` operations returns 0, the loop
continues at index `i + L` with the writer that call left. -/
theorem json_ser_type_ops_loop_inline_array (world : ecs_world_t) (mem : Memory)
    (ops : List ecs_meta_type_op_t) (start op_count base i : Int)
    (op : ecs_meta_type_op_t) (subkind : Nat) (f : String) (n : Nat)
    (hi : 0 < i) (hlt : i < op_count) (hop : op_at ops (start + i) = some op)
    (hkind : op.kind = EcsOpPrimitive subkind) (hname : op.name = some f)
    (hcount : op.count = n) (hn : 1 < n) :
    (∀ (t : Nat → String), op.op_count = 1 →
      (∀ k, k < n →
        mem.primitive_to_expr subkind (base + op.offset + k * op.size) = some (t k)) →
      ∀ (w : ecs_strbuf_t) (fuel : Nat), n + 5 ≤ fuel →
      json_ser_type_ops_loop (fuel + 1) world mem ops start op_count base i w =
        json_ser_type_ops_loop fuel world mem ops start op_count base (i + 1)
          ⟨(ecs_strbuf_list_next w).content ++ ("\"" ++ f ++ "\": ") ++
              ("[" ++ String.intercalate ", " ((List.range n).map t) ++ "]"),
            (ecs_strbuf_list_next w).list_stack⟩) ∧
    (∀ (w s : ecs_strbuf_t) (fuel : Nat),
      json_ser_elements fuel world mem ops (start + i) op.op_count base op.count op.size
          (ecs_strbuf_append (ecs_strbuf_list_next w) "\"" f "\": ") = .ok s →
      json_ser_type_ops_loop (fuel + 1) world mem ops start op_count base i w =
        json_ser_type_ops_loop fuel world mem ops start op_count base (i + op.op_count) s) := by
  have hi0 : i ≠ 0 := by omega
  have hc : op.count > 1 := by rw [hcount]; exact_mod_cast hn
  have hstep : ∀ (w : ecs_strbuf_t) (fuel : Nat),
      json_ser_type_ops_loop (fuel + 1) world mem ops start op_count base i w =
        (json_ser_elements fuel world mem ops (start + i) op.op_count base op.count op.size
          (ecs_strbuf_append (ecs_strbuf_list_next w) "\"" f "\": ")).andThen fun str =>
            json_ser_type_ops_loop fuel world mem ops start op_count base
              (i + (op.op_count - 1) + 1) str := by
    intro w fuel
    rw [json_ser_type_ops_loop]
    simp only [hlt, if_true, hop, hi0, ne_eq, not_false_eq_true, hname, hc, and_self]
  refine ⟨?_, ?_⟩
  · intro t hL ht w fuel hfuel
    have helem : ∀ k, k < n → ∀ w2 fuel2, 3 ≤ fuel2 →
        json_ser_type_ops fuel2 world mem ops (start + i) 1 (base + k * op.size) w2 =
          .ok ⟨w2.content ++ t k, w2.list_stack⟩ := by
      intro k hk w2 fuel2 hfuel2
      apply json_ser_type_ops_single_primitive world mem ops (start + i) op subkind _ (t k)
        hop hkind _ w2 fuel2 hfuel2
      rw [← ht k hk]
      simp only [ECS_OFFSET]
      congr 1
      ring
    have hel := json_ser_elements_ok world mem ops (start + i) 1 base op.size n t 3 helem
      (ecs_strbuf_append (ecs_strbuf_list_next w) "\"" f "\": ") fuel (by omega)
    rw [hstep, hL, hcount, hel]
    simp only [Result.andThen, ecs_strbuf_append, sub_self, add_zero]
  · intro w s fuel hs
    rw [hstep, hs]
    simp only [Result.andThen]
    congr 1
    ring

/-- C8 (amended) on a struct whose member `a` is an inline array of three `int32` holding
1, 2, 3: from the writer holding `{`, the iteration at index 1 emits `"a": [1, 2, 3]` and
the walk resumes at index 2, the next sibling; the whole struct gives
`{"a": [1, 2, 3], "y": 2}`. -/
theorem json_ser_type_ops_loop_inline_array_witness :
    op_at array_struct_ops (0 + 1) = some (int32_array_member "a" 32 3 1) ∧
    (int32_array_member "a" 32 3 1).count = (3 : Nat) ∧
    json_ser_type_ops_loop (8 + 1) example_world example_memory array_struct_ops 0 4 0 1
        ⟨"\x7b", [⟨0, ", "⟩]⟩ =
      json_ser_type_ops_loop 8 example_world example_memory array_struct_ops 0 4 0 (1 + 1)
        ⟨"\x7b\"a\": [1, 2, 3]", [⟨1, ", "⟩]⟩ ∧
    json_ser_type_ops 10 example_world example_memory array_struct_ops 0 4 0
        ECS_STRBUF_INIT = .ok ⟨"\x7b\"a\": [1, 2, 3], \"y\": 2\x7d", []⟩ :=
  ⟨rfl, rfl,
    (json_ser_type_ops_loop_inline_array example_world example_memory array_struct_ops 0 4 0
      1 (int32_array_member "a" 32 3 1) 9 "a" 3 (by decide) (by decide) rfl rfl rfl rfl
      (by decide)).1 (fun k => if k = 0 then "1" else if k = 1 then "2" else "3") rfl
      (fun k hk => by
        have hk3 : k = 0 ∨ k = 1 ∨ k = 2 := by omega
        rcases hk3 with rfl | rfl | rfl <;> rfl)
      ⟨"\x7b", [⟨0, ", "⟩]⟩ 8 (by decide),
    by decide⟩

/-! ## C9 -/

/-- C9. `json_ser_type_op` on a Reference operation returns 0 in both cases: when the
handle it reads is zero it appends the single character `0`; when the handle is nonzero
and the resolver returns the path `p` it appends a double quote, `p` verbatim and a double
quote (in particular for every `p` without a character that needs escaping). -/
theorem json_ser_type_op_entity (world : ecs_world_t) (mem : Memory)
    (op : ecs_meta_type_op_t) (ptr : Int) (str : ecs_strbuf_t) (fuel : Nat)
    (hkind : op.kind = EcsOpEntity) :
    (mem.entity ptr = 0 →
      json_ser_type_op (fuel + 1) world mem op ptr str =
        .ok ⟨str.content ++ "0", str.list_stack⟩) ∧
    (∀ p, mem.entity ptr ≠ 0 → world.ecs_get_fullpath (mem.entity ptr) = some p →
      json_ser_type_op (fuel + 1) world mem op ptr str =
        .ok ⟨str.content ++ ("\"" ++ p ++ "\""), str.list_stack⟩) := by
  refine ⟨?_, ?_⟩
  · intro h
    simp [json_ser_type_op, hkind, h, ecs_strbuf_appendstr]
  · intro p h hp
    simp [json_ser_type_op, hkind, h, hp, ecs_strbuf_append]

/-- C9 on the example buffer: the handle at address 0 is zero and gives `0`; the handle at
address 8 resolves to `Foo.Bar` and gives `"Foo.Bar"`. -/
theorem json_ser_type_op_entity_witness :
    (example_op EcsOpEntity 0).kind = EcsOpEntity ∧
    json_ser_type_op 1 example_world example_memory (example_op EcsOpEntity 0) 0
        ECS_STRBUF_INIT = .ok ⟨"0", []⟩ ∧
    json_ser_type_op 1 example_world example_memory (example_op EcsOpEntity 0) 8
        ECS_STRBUF_INIT = .ok ⟨"\"Foo.Bar\"", []⟩ :=
  ⟨rfl,
    (json_ser_type_op_entity example_world example_memory (example_op EcsOpEntity 0) 0
      ECS_STRBUF_INIT 0 rfl).1 rfl,
    (json_ser_type_op_entity example_world example_memory (example_op EcsOpEntity 0) 8
      ECS_STRBUF_INIT 0 rfl).2 "Foo.Bar" (by decide) rfl⟩

/-! ## C10 -/

/-- C10, the code at a struct with two Reference members stored at address 48: member `b`
sits at offset 8, where entity 100 (`Foo.Bar`) is stored, but `json_ser_type_op` reads the
handle at the base address (entity 101, `Foo.Baz`) for both members; for a Reference
operation the result never depends on the operation's offset. -/
theorem reference_handle_read_at_base :
    example_memory.entity (ECS_OFFSET 48 (entity_member "b" 8).offset) = 100 ∧
    example_world.ecs_get_fullpath 100 = some "Foo.Bar" ∧
    json_ser_type_ops 6 example_world example_memory reference_struct_ops 0 4 48
        ECS_STRBUF_INIT = .ok ⟨"\x7b\"a\": \"Foo.Baz\", \"b\": \"Foo.Baz\"\x7d", []⟩ ∧
    (∀ (world : ecs_world_t) (mem : Memory) (op : ecs_meta_type_op_t) (offset ptr : Int)
        (str : ecs_strbuf_t) (fuel : Nat), op.kind = EcsOpEntity →
      json_ser_type_op fuel world mem { op with offset := offset } ptr str =
        json_ser_type_op fuel world mem op ptr str) := by
  refine ⟨by decide, by decide, by decide, ?_⟩
  intro world mem op offset ptr str fuel hkind
  cases fuel with
  | zero => simp [json_ser_type_op]
  | succ fuel => simp [json_ser_type_op, hkind]

/-! ## C13 -/

/-- C14 as stated fails: entity 100, stored at address 8, resolves to a path that holds a
double quote and a backslash, and the text emitted for the Reference operation is that
path, raw, between two double quotes. -/
theorem reference_path_not_escaped :
    example_memory.entity 8 ≠ 0 ∧
    quoted_path_world.ecs_get_fullpath (example_memory.entity 8) = some "a\"b\\c" ∧
    (Char.ofNat 34 ∈ "a\"b\\c".data ∧ Char.ofNat 92 ∈ "a\"b\\c".data) ∧
    json_ser_type_op 1 quoted_path_world example_memory (example_op EcsOpEntity 0) 8
        ECS_STRBUF_INIT = .ok ⟨"\"" ++ "a\"b\\c" ++ "\"", []⟩ := by
  decide

/-- C14, amended. For every nonzero reference handle with resolved path `p`, whether or
not `p` holds a character that JSON requires to be escaped, the text emitted for the
Reference operation is `p` itself between two double quotes: no escaping is applied, the
emitted text is exactly two characters longer than `p`. -/
theorem json_ser_type_op_entity_raw_path (world : ecs_world_t) (mem : Memory)
    (op : ecs_meta_type_op_t) (ptr : Int) (str : ecs_strbuf_t) (fuel : Nat) (p : String)
    (hkind : op.kind = EcsOpEntity) (hnz : mem.entity ptr ≠ 0)
    (hp : world.ecs_get_fullpath (mem.entity ptr) = some p) :
    ∃ s, json_ser_type_op (fuel + 1) world mem op ptr str = .ok s ∧
      s.content = str.content ++ ("\"" ++ p ++ "\"") ∧
      s.content.length = str.content.length + (p.length + 2) ∧
      s.list_stack = str.list_stack := by
  refine ⟨⟨str.content ++ ("\"" ++ p ++ "\""), str.list_stack⟩, ?_, rfl, ?_, rfl⟩
  · simp [json_ser_type_op, hkind, hnz, hp, ecs_strbuf_append]
  · simp only [String.length_append]
    have h1 : "\"".length = 1 := by decide
    omega

/-- C14 (amended) on the path `a"b\c`: the emitted text is `"a"b\c"`. -/
theorem json_ser_type_op_entity_raw_path_witness :
    (example_op EcsOpEntity 0).kind = EcsOpEntity ∧ example_memory.entity 8 ≠ 0 ∧
    quoted_path_world.ecs_get_fullpath (example_memory.entity 8) = some "a\"b\\c" ∧
    ∃ s, json_ser_type_op 1 quoted_path_world example_memory (example_op EcsOpEntity 0) 8
        ECS_STRBUF_INIT = .ok s ∧
      s.content = ECS_STRBUF_INIT.content ++ ("\"" ++ "a\"b\\c" ++ "\"") ∧
      s.content.length = ECS_STRBUF_INIT.content.length + ("a\"b\\c".length + 2) ∧
      s.list_stack = ECS_STRBUF_INIT.list_stack :=
  ⟨rfl, by decide, rfl,
    json_ser_type_op_entity_raw_path quoted_path_world example_memory
      (example_op EcsOpEntity 0) 8 ECS_STRBUF_INIT 0 "a\"b\\c" rfl (by decide) rfl⟩

/-! ## C16 -/

/-- C16. The result of `json_ser_bitmask` depends on the order of the constants when
patterns overlap: for the stored value 3, the schema `[(1, A), (3, AB)]` fails with bits
left over (after emitting `A`), while the schema `[(3, AB), (1, A)]`, a permutation of it,
succeeds with `"AB"`; the first schema fails although its constant `AB` alone covers the
value exactly. -/
theorem json_ser_bitmask_order_dependent :
    ∃ (world : ecs_world_t) (mem : Memory) (op1 op2 : ecs_meta_type_op_t) (ptr : Int)
      (s1 s2 : EcsBitmask),
      world.get_EcsBitmask op1.type = some s1 ∧ world.get_EcsBitmask op2.type = some s2 ∧
      s1.constants = [(1, ⟨20⟩), (3, ⟨23⟩)] ∧
      s1.constants.Perm s2.constants ∧
      world.ecs_get_name 20 = "A" ∧ world.ecs_get_name 23 = "AB" ∧
      load_uint32 mem ptr = 3 ∧
      json_ser_bitmask world mem op1 ptr ECS_STRBUF_INIT =
        .error ⟨"\"A", [⟨1, "|"⟩]⟩ ∧
      (json_ser_bitmask_loop world s1.constants 3
        (ecs_strbuf_list_push ECS_STRBUF_INIT "\"" "|")).1 = 2 ∧
      json_ser_bitmask world mem op2 ptr ECS_STRBUF_INIT = .ok ⟨"\"AB\"", []⟩ ∧
      (∃ sub : List (Nat × ecs_bitmask_constant_t), sub.Sublist s1.constants ∧
        (sub.map Prod.fst).foldr (fun a b => a ||| b) 0 = 3) :=
  ⟨example_world, example_memory, example_op EcsOpBitmask 5, example_op EcsOpBitmask 6, 3,
    ⟨[(1, ⟨20⟩), (3, ⟨23⟩)]⟩, ⟨[(3, ⟨23⟩), (1, ⟨20⟩)]⟩, rfl, rfl, rfl,
    List.Perm.swap _ _ _, rfl, rfl, by decide, by decide, by decide, by decide,
    ⟨[(3, ⟨23⟩)], List.Sublist.cons _ (List.Sublist.refl _), by decide⟩⟩

/-! ## C15 -/

/-- C15. The first operation of any slice handed to `json_ser_type_ops` is processed without
a list separator, without a field name and without inline-array expansion, whatever its
`name` and `count`: the call opens or closes an object scope, or dispatches the operation
through `json_ser_type_op`, on the writer exactly as it was given, and goes on at index 1.
Each element of `json_ser_elements` is encoded by such a call on the element slice.  Hence
for an inline array headed by a Primitive with field name `f`, elementCount `n > 1` and
subProgramLength 1, each per-element call appends the scalar text alone and the array is
`[t 0, ..., t (n-1)]`: the name is not repeated per element. -/
theorem json_ser_type_ops_first_op (world : ecs_world_t) (mem : Memory)
    (ops : List ecs_meta_type_op_t) (start op_count base : Int)
    (op : ecs_meta_type_op_t)
    (hlen : 0 < op_count) (hop : op_at ops start = some op) :
    (∀ (str : ecs_strbuf_t) (fuel : Nat),
      json_ser_type_ops (fuel + 2) world mem ops start op_count base str =
        match op.kind with
        | EcsOpPush =>
          json_ser_type_ops_loop fuel world mem ops start op_count base 1
            (ecs_strbuf_list_push str "\x7b" ", ")
        | EcsOpPop =>
          json_ser_type_ops_loop fuel world mem ops start op_count base 1
            (ecs_strbuf_list_pop str "\x7d")
        | _ =>
          (json_ser_type_op fuel world mem op base str).andThen fun s =>
            json_ser_type_ops_loop fuel world mem ops start op_count base 1 s) ∧
    (∀ (ptr elem_count elem_size i : Int) (str : ecs_strbuf_t) (fuel : Nat),
      i < elem_count →
      json_ser_elements_loop (fuel + 1) world mem ops start op_count ptr elem_count elem_size
          i str =
        (json_ser_type_ops fuel world mem ops start op_count ptr
            (ecs_strbuf_list_next str)).andThen fun s =>
          json_ser_elements_loop fuel world mem ops start op_count (ECS_OFFSET ptr elem_size)
            elem_count elem_size (i + 1) s) ∧
    (∀ (subkind : Nat) (f : String) (n : Nat) (t : Nat → String),
      op.kind = EcsOpPrimitive subkind → op.name = some f → op.count = n → 1 < n →
      (∀ k, k < n →
        mem.primitive_to_expr subkind (base + op.offset + k * op.size) = some (t k)) →
      (∀ k, k < n → ∀ (w : ecs_strbuf_t) (fuel : Nat), 3 ≤ fuel →
        json_ser_type_ops fuel world mem ops start 1 (base + k * op.size) w =
          .ok ⟨w.content ++ t k, w.list_stack⟩) ∧
      (∀ (w : ecs_strbuf_t) (fuel : Nat), n + 5 ≤ fuel →
        json_ser_elements fuel world mem ops start 1 base n op.size w =
          .ok ⟨w.content ++ ("[" ++ String.intercalate ", " ((List.range n).map t) ++ "]"),
            w.list_stack⟩)) := by
  have hop0 : op_at ops (start + 0) = some op := by simpa using hop
  refine ⟨?_, ?_, ?_⟩
  · intro str fuel
    rw [json_ser_type_ops, json_ser_type_ops_loop]
    simp only [hlen, if_true, hop0, ne_eq, not_true_eq_false, if_false, false_and, zero_add]
  · intro ptr elem_count elem_size i str fuel hi
    rw [json_ser_elements_loop]
    simp only [hi, if_true]
  · intro subkind f n t hkind _ _ _ ht
    have helem : ∀ k, k < n → ∀ (w : ecs_strbuf_t) (fuel : Nat), 3 ≤ fuel →
        json_ser_type_ops fuel world mem ops start 1 (base + k * op.size) w =
          .ok ⟨w.content ++ t k, w.list_stack⟩ := by
      intro k hk w fuel hfuel
      apply json_ser_type_ops_single_primitive world mem ops start op subkind _ (t k)
        hop hkind _ w fuel hfuel
      rw [← ht k hk]
      simp only [ECS_OFFSET]
      congr 1
      ring
    refine ⟨helem, ?_⟩
    intro w fuel hfuel
    exact json_ser_elements_ok world mem ops start 1 base op.size n t 3 helem w fuel
      (by omega)

/-- C15 on the struct whose member `a` is an inline array of three `int32` holding 1, 2, 3:
the per-element call on the slice headed by the named operation appends `2` alone for the
second element, and the array is `[1, 2, 3]`. -/
theorem json_ser_type_ops_first_op_witness :
    op_at array_struct_ops 1 = some (int32_array_member "a" 32 3 1) ∧
    (int32_array_member "a" 32 3 1).name = some "a" ∧
    (int32_array_member "a" 32 3 1).count = (3 : Nat) ∧
    json_ser_type_ops 3 example_world example_memory array_struct_ops 1 1
        (0 + (1 : Nat) * (int32_array_member "a" 32 3 1).size) ⟨"[1, ", [⟨2, ", "⟩]⟩ =
      .ok ⟨"[1, 2", [⟨2, ", "⟩]⟩ ∧
    json_ser_elements 8 example_world example_memory array_struct_ops 1 1 0 (3 : Nat)
        (int32_array_member "a" 32 3 1).size ⟨"\x7b\"a\": ", [⟨1, ", "⟩]⟩ =
      .ok ⟨"\x7b\"a\": [1, 2, 3]", [⟨1, ", "⟩]⟩ :=
  have h := (json_ser_type_ops_first_op example_world example_memory array_struct_ops 1 1 0
    (int32_array_member "a" 32 3 1) (by decide) rfl).2.2 9 "a" 3
    (fun k => if k = 0 then "1" else if k = 1 then "2" else "3") rfl rfl rfl (by decide)
    (fun k hk => by
      have hk3 : k = 0 ∨ k = 1 ∨ k = 2 := by omega
      rcases hk3 with rfl | rfl | rfl <;> rfl)
  ⟨rfl, rfl, rfl, h.1 1 (by decide) ⟨"[1, ", [⟨2, ", "⟩]⟩ 3 (by decide),
    h.2 ⟨"\x7b\"a\": ", [⟨1, ", "⟩]⟩ 8 (by decide)⟩

/-! ## The scope trap -/

theorem andThen_ne_abort (r : Result) (k : ecs_strbuf_t → Result) (code : ecs_error_code)
    (hr : r ≠ .abort code) (hk : ∀ s, k s ≠ .abort code) : r.andThen k ≠ .abort code := by
  cases r with
  | ok s => exact hk s
  | error s => simp [Result.andThen]
  | abort c => simpa [Result.andThen] using hr
  | assert_failed c => simp [Result.andThen]
  | undefined => simp [Result.andThen]
  | timeout => simp [Result.andThen]

theorem json_ser_enum_ne_abort (world : ecs_world_t) (mem : Memory)
    (op : ecs_meta_type_op_t) (base : Int) (str : ecs_strbuf_t) (code : ecs_error_code) :
    json_ser_enum world mem op base str ≠ .abort code := by
  unfold json_ser_enum
  split
  · simp
  · dsimp only
    split <;> simp

theorem json_ser_bitmask_ne_abort (world : ecs_world_t) (mem : Memory)
    (op : ecs_meta_type_op_t) (ptr : Int) (str : ecs_strbuf_t) (code : ecs_error_code) :
    json_ser_bitmask world mem op ptr str ≠ .abort code := by
  unfold json_ser_bitmask
  split
  · simp
  · dsimp only
    split
    · simp
    · split <;> simp

/-- No function of the interpreter ends in the trap `ecs_abort(ECS_INVALID_PARAMETER)`,
except `json_ser_type_op` called on a ScopeOpen or ScopeClose operation. -/
theorem no_scope_trap (world : ecs_world_t) (mem : Memory) (fuel : Nat) :
    (∀ ops start op_count ptr elem_count elem_size i str,
      json_ser_elements_loop fuel world mem ops start op_count ptr elem_count elem_size i str
        ≠ .abort ECS_INVALID_PARAMETER) ∧
    (∀ ops start op_count base elem_count elem_size str,
      json_ser_elements fuel world mem ops start op_count base elem_count elem_size str
        ≠ .abort ECS_INVALID_PARAMETER) ∧
    (∀ type base elem_count str,
      json_ser_type_elements fuel world mem type base elem_count str
        ≠ .abort ECS_INVALID_PARAMETER) ∧
    (∀ op ptr str,
      json_ser_array fuel world mem op ptr str ≠ .abort ECS_INVALID_PARAMETER) ∧
    (∀ op base str,
      json_ser_vector fuel world mem op base str ≠ .abort ECS_INVALID_PARAMETER) ∧
    (∀ op ptr str,
      json_ser_type_op fuel world mem op ptr str = .abort ECS_INVALID_PARAMETER →
        op.kind = EcsOpPush ∨ op.kind = EcsOpPop) ∧
    (∀ ops start op_count base i str,
      json_ser_type_ops_loop fuel world mem ops start op_count base i str
        ≠ .abort ECS_INVALID_PARAMETER) ∧
    (∀ ops start op_count base str,
      json_ser_type_ops fuel world mem ops start op_count base str
        ≠ .abort ECS_INVALID_PARAMETER) := by
  induction fuel with
  | zero =>
    refine ⟨?_, ?_, ?_, ?_, ?_, ?_, ?_, ?_⟩ <;> intros <;>
      simp_all [json_ser_elements_loop, json_ser_elements, json_ser_type_elements,
        json_ser_array, json_ser_vector, json_ser_type_op, json_ser_type_ops_loop,
        json_ser_type_ops]
  | succ fuel ih =>
    obtain ⟨ih_eloop, ih_elems, ih_telems, ih_array, ih_vector, ih_op, ih_loop, ih_ops⟩ := ih
    refine ⟨?_, ?_, ?_, ?_, ?_, ?_, ?_, ?_⟩
    · intro ops start op_count ptr elem_count elem_size i str
      rw [json_ser_elements_loop]
      split
      · exact andThen_ne_abort _ _ _ (ih_ops _ _ _ _ _) (fun s => ih_eloop _ _ _ _ _ _ _ s)
      · simp
    · intro ops start op_count base elem_count elem_size str
      rw [json_ser_elements]
      exact ih_eloop _ _ _ _ _ _ _ _
    · intro type base elem_count str
      rw [json_ser_type_elements]
      split
      · simp
      · split
        · simp
        · exact ih_elems _ _ _ _ _ _ _
    · intro op ptr str
      rw [json_ser_array]
      split
      · simp
      · exact ih_telems _ _ _ _
    · intro op base str
      rw [json_ser_vector]
      split
      · simp
      · split
        · simp
        · split
          · simp
          · exact ih_telems _ _ _ _
    · intro op ptr str h
      rw [json_ser_type_op] at h
      split at h
      · exact Or.inl (by assumption)
      · exact Or.inr (by assumption)
      · exact absurd h (andThen_ne_abort _ _ _ (json_ser_enum_ne_abort _ _ _ _ _ _)
          (fun s => by simp))
      · exact absurd h (andThen_ne_abort _ _ _ (json_ser_bitmask_ne_abort _ _ _ _ _ _)
          (fun s => by simp))
      · exact absurd h (andThen_ne_abort _ _ _ (ih_array _ _ _) (fun s => by simp))
      · exact absurd h (andThen_ne_abort _ _ _ (ih_vector _ _ _) (fun s => by simp))
      · simp only at h
        split at h
        · simp at h
        · split at h <;> simp at h
      · split at h <;> simp at h
    · intro ops start op_count base i str
      rw [json_ser_type_ops_loop]
      split
      · split
        · simp
        · rename_i op hop
          simp only
          split
          · exact andThen_ne_abort _ _ _ (ih_elems _ _ _ _ _ _ _)
              (fun s => ih_loop _ _ _ _ _ s)
          · split
            · exact ih_loop _ _ _ _ _ _
            · exact ih_loop _ _ _ _ _ _
            · rename_i hpush hpop
              refine andThen_ne_abort _ _ _ ?_ (fun s => ih_loop _ _ _ _ _ s)
              intro h
              rcases ih_op _ _ _ h with h1 | h1
              · exact hpush h1
              · exact hpop h1
      · simp
    · intro ops start op_count base str
      rw [json_ser_type_ops]
      exact ih_loop _ _ _ _ _ _

/-! ## C18 -/

/-- C18. `json_ser_type_op` ends in the trap `ecs_abort(ECS_INVALID_PARAMETER)` exactly on
a ScopeOpen or ScopeClose operation, and for every program (well-formed or not), every
buffer, every writer and every fuel, none of `json_ser_type_ops`, `json_ser_elements`,
`json_ser_type_elements`, `json_ser_array`, `json_ser_vector` and `ecs_ptr_to_json_buf`
ends in that trap: they never call `json_ser_type_op` on such an operation.  The loop of
`json_ser_type_ops` handles the two kinds itself, as an object open or close on the
writer, and goes on with the next operation. -/
theorem scope_trap_unreachable (world : ecs_world_t) (mem : Memory) (fuel : Nat) :
    (∀ op ptr str,
      json_ser_type_op fuel world mem op ptr str = .abort ECS_INVALID_PARAMETER ↔
        (0 < fuel ∧ (op.kind = EcsOpPush ∨ op.kind = EcsOpPop))) ∧
    (∀ ops start op_count base str,
      json_ser_type_ops fuel world mem ops start op_count base str
        ≠ .abort ECS_INVALID_PARAMETER) ∧
    (∀ ops start op_count base elem_count elem_size str,
      json_ser_elements fuel world mem ops start op_count base elem_count elem_size str
        ≠ .abort ECS_INVALID_PARAMETER) ∧
    (∀ type base elem_count str,
      json_ser_type_elements fuel world mem type base elem_count str
        ≠ .abort ECS_INVALID_PARAMETER) ∧
    (∀ op ptr str,
      json_ser_array fuel world mem op ptr str ≠ .abort ECS_INVALID_PARAMETER) ∧
    (∀ op base str,
      json_ser_vector fuel world mem op base str ≠ .abort ECS_INVALID_PARAMETER) ∧
    (∀ type ptr buf_out,
      ecs_ptr_to_json_buf fuel world mem type ptr buf_out ≠ .abort ECS_INVALID_PARAMETER) ∧
    (∀ ops start op_count base i str op, i < op_count → op_at ops (start + i) = some op →
      ¬ (i ≠ 0 ∧ op.count > 1) → (i ≠ 0 → op.name = none) →
      (op.kind = EcsOpPush →
        json_ser_type_ops_loop (fuel + 1) world mem ops start op_count base i str =
          json_ser_type_ops_loop fuel world mem ops start op_count base (i + 1)
            (ecs_strbuf_list_push str "\x7b" ", ")) ∧
      (op.kind = EcsOpPop →
        json_ser_type_ops_loop (fuel + 1) world mem ops start op_count base i str =
          json_ser_type_ops_loop fuel world mem ops start op_count base (i + 1)
            (ecs_strbuf_list_pop str "\x7d"))) := by
  obtain ⟨_, h_elems, h_telems, h_array, h_vector, h_op, _, h_ops⟩ :=
    no_scope_trap world mem fuel
  refine ⟨?_, h_ops, h_elems, h_telems, h_array, h_vector, ?_, ?_⟩
  · intro op ptr str
    constructor
    · intro h
      refine ⟨?_, h_op op ptr str h⟩
      cases fuel with
      | zero => simp [json_ser_type_op] at h
      | succ n => omega
    · rintro ⟨hf, hk⟩
      obtain ⟨n, rfl⟩ : ∃ n, fuel = n + 1 := ⟨fuel - 1, by omega⟩
      rcases hk with hk | hk <;> simp [json_ser_type_op, hk]
  · intro type ptr buf_out
    unfold ecs_ptr_to_json_buf
    split
    · simp
    · exact andThen_ne_abort _ _ _ (h_ops _ _ _ _ _) (fun s => by simp)
  · intro ops start op_count base i str op hlt hop hinl hname
    have hstr : (if i ≠ 0 then
        match op.name with
        | some name => ecs_strbuf_append (ecs_strbuf_list_next str) "\"" name "\": "
        | none => str
      else str) = str := by
      by_cases hi : i = 0
      · simp [hi]
      · simp [hi, hname hi]
    constructor
    · intro hk
      rw [json_ser_type_ops_loop]
      simp only [hlt, if_true, hop, hinl, if_false, hk, hstr]
    · intro hk
      rw [json_ser_type_ops_loop]
      simp only [hlt, if_true, hop, hinl, if_false, hk, hstr]

/-! ## Depth of the list scopes -/

theorem andThen_eq_ok (r : Result) (k : ecs_strbuf_t → Result) (s : ecs_strbuf_t)
    (h : r.andThen k = .ok s) : ∃ s1, r = .ok s1 ∧ k s1 = .ok s := by
  cases r with
  | ok s1 => exact ⟨s1, rfl, h⟩
  | error s1 => simp [Result.andThen] at h
  | abort c => simp [Result.andThen] at h
  | assert_failed c => simp [Result.andThen] at h
  | undefined => simp [Result.andThen] at h
  | timeout => simp [Result.andThen] at h

theorem list_next_length (s : ecs_strbuf_t) :
    (ecs_strbuf_list_next s).list_stack.length = s.list_stack.length := by
  unfold ecs_strbuf_list_next
  split <;> simp_all

theorem named_writer_length (op : ecs_meta_type_op_t) (s : ecs_strbuf_t) :
    (named_writer op s).list_stack.length = s.list_stack.length := by
  unfold named_writer
  split
  · simp [ecs_strbuf_append, list_next_length]
  · rfl

theorem json_ser_bitmask_loop_length (world : ecs_world_t)
    (it : List (Nat × ecs_bitmask_constant_t)) (value : Nat) (s : ecs_strbuf_t) :
    (json_ser_bitmask_loop world it value s).2.list_stack.length = s.list_stack.length := by
  induction it generalizing value s with
  | nil => rfl
  | cons a it ih =>
    obtain ⟨key, constant⟩ := a
    simp only [json_ser_bitmask_loop]
    split
    · rw [ih]
      simp [ecs_strbuf_list_appendstr, ecs_strbuf_appendstr, list_next_length]
    · exact ih _ _

theorem json_ser_enum_ok_length (world : ecs_world_t) (mem : Memory)
    (op : ecs_meta_type_op_t) (base : Int) (s s1 : ecs_strbuf_t)
    (h : json_ser_enum world mem op base s = .ok s1) :
    s1.list_stack.length = s.list_stack.length := by
  unfold json_ser_enum at h
  split at h
  · simp at h
  · dsimp only at h
    split at h
    · simp at h
    · injection h with h
      subst h
      simp [ecs_strbuf_appendstr]

theorem json_ser_bitmask_ok_length (world : ecs_world_t) (mem : Memory)
    (op : ecs_meta_type_op_t) (ptr : Int) (s s1 : ecs_strbuf_t)
    (h : json_ser_bitmask world mem op ptr s = .ok s1) :
    s1.list_stack.length = s.list_stack.length := by
  unfold json_ser_bitmask at h
  split at h
  · simp at h
  · dsimp only at h
    split at h
    · injection h with h
      subst h
      simp [ecs_strbuf_appendstr]
    · split at h
      · simp at h
      · injection h with h
        subst h
        simp [ecs_strbuf_list_pop, json_ser_bitmask_loop_length, ecs_strbuf_list_push]

theorem json_ser_type_ops_loop_step (fuel : Nat) (world : ecs_world_t) (mem : Memory)
    (ops : List ecs_meta_type_op_t) (start op_count base i : Int) (str : ecs_strbuf_t) :
    json_ser_type_ops_loop (fuel + 1) world mem ops start op_count base i str =
      if i < op_count then
        match op_at ops (start + i) with
        | none => .undefined
        | some op =>
          if i ≠ 0 ∧ op.count > 1 then
            (json_ser_elements fuel world mem ops (start + i) op.op_count base op.count
                op.size (if i ≠ 0 then named_writer op str else str)).andThen fun s =>
              json_ser_type_ops_loop fuel world mem ops start op_count base
                (i + (op.op_count - 1) + 1) s
          else
            match op.kind with
            | EcsOpPush =>
              json_ser_type_ops_loop fuel world mem ops start op_count base (i + 1)
                (ecs_strbuf_list_push (if i ≠ 0 then named_writer op str else str)
                  "\x7b" ", ")
            | EcsOpPop =>
              json_ser_type_ops_loop fuel world mem ops start op_count base (i + 1)
                (ecs_strbuf_list_pop (if i ≠ 0 then named_writer op str else str) "\x7d")
            | _ =>
              (json_ser_type_op fuel world mem op base
                  (if i ≠ 0 then named_writer op str else str)).andThen fun s =>
                json_ser_type_ops_loop fuel world mem ops start op_count base (i + 1) s
      else .ok str := by
  rw [json_ser_type_ops_loop]
  rfl

theorem named_if_length (i : Int) (op : ecs_meta_type_op_t) (s : ecs_strbuf_t) :
    (if i ≠ 0 then named_writer op s else s).list_stack.length = s.list_stack.length := by
  split
  · exact named_writer_length op s
  · rfl

/-- Depth balance of the interpreter on programs with properly nested scopes: a successful
call leaves as many list scopes open as it found (the loops: as many as it found, less the
scopes open at the cursor). -/
theorem scopes_depth (world : ecs_world_t) (hw : registry_scoped world) (mem : Memory)
    (fuel : Nat) :
    (∀ ops start op_count ptr elem_count elem_size i s s1 cf,
      scope_check false cf ops start op_count 0 0 = true → 1 ≤ s.list_stack.length →
      json_ser_elements_loop fuel world mem ops start op_count ptr elem_count elem_size i s
        = .ok s1 → s1.list_stack.length + 1 = s.list_stack.length) ∧
    (∀ ops start op_count base elem_count elem_size s s1 cf,
      scope_check false cf ops start op_count 0 0 = true →
      json_ser_elements fuel world mem ops start op_count base elem_count elem_size s
        = .ok s1 → s1.list_stack.length = s.list_stack.length) ∧
    (∀ type base elem_count s s1,
      json_ser_type_elements fuel world mem type base elem_count s = .ok s1 →
        s1.list_stack.length = s.list_stack.length) ∧
    (∀ op ptr s s1, json_ser_array fuel world mem op ptr s = .ok s1 →
        s1.list_stack.length = s.list_stack.length) ∧
    (∀ op base s s1, json_ser_vector fuel world mem op base s = .ok s1 →
        s1.list_stack.length = s.list_stack.length) ∧
    (∀ op ptr s s1, json_ser_type_op fuel world mem op ptr s = .ok s1 →
        s1.list_stack.length = s.list_stack.length) ∧
    (∀ strict ops start op_count base i d s s1 cf,
      scope_check strict cf ops start op_count i d = true → d ≤ s.list_stack.length →
      json_ser_type_ops_loop fuel world mem ops start op_count base i s = .ok s1 →
        s1.list_stack.length + d = s.list_stack.length) ∧
    (∀ strict ops start op_count base s s1 cf,
      scope_check strict cf ops start op_count 0 0 = true →
      json_ser_type_ops fuel world mem ops start op_count base s = .ok s1 →
        s1.list_stack.length = s.list_stack.length) := by
  induction fuel with
  | zero =>
    refine ⟨?_, ?_, ?_, ?_, ?_, ?_, ?_, ?_⟩ <;> intros <;>
      simp_all [json_ser_elements_loop, json_ser_elements, json_ser_type_elements,
        json_ser_array, json_ser_vector, json_ser_type_op, json_ser_type_ops_loop,
        json_ser_type_ops]
  | succ fuel ih =>
    obtain ⟨ih_eloop, ih_elems, ih_telems, ih_array, ih_vector, ih_op, ih_loop, ih_ops⟩ := ih
    refine ⟨?_, ?_, ?_, ?_, ?_, ?_, ?_, ?_⟩
    · intro ops start op_count ptr elem_count elem_size i s s1 cf hc hlen h
      rw [json_ser_elements_loop] at h
      split at h
      · obtain ⟨s2, h2, h3⟩ := andThen_eq_ok _ _ _ h
        have e2 := ih_ops _ _ _ _ _ _ _ cf hc h2
        rw [list_next_length] at e2
        have e3 := ih_eloop _ _ _ _ _ _ _ _ _ cf hc (by omega) h3
        omega
      · injection h with h
        subst h
        simp only [ecs_strbuf_list_pop, List.length_tail]
        omega
    · intro ops start op_count base elem_count elem_size s s1 cf hc h
      rw [json_ser_elements] at h
      have e := ih_eloop _ _ _ _ _ _ _ _ _ cf hc (by simp [ecs_strbuf_list_push]) h
      simp only [ecs_strbuf_list_push, List.length_cons] at e
      omega
    · intro type base elem_count s s1 h
      rw [json_ser_type_elements] at h
      split at h
      · simp at h
      · rename_i ser hser
        split at h
        · simp at h
        · obtain ⟨cf, hc⟩ := hw _ _ hser
          exact ih_elems _ _ _ _ _ _ _ _ cf hc h
    · intro op ptr s s1 h
      rw [json_ser_array] at h
      split at h
      · simp at h
      · exact ih_telems _ _ _ _ _ h
    · intro op base s s1 h
      rw [json_ser_vector] at h
      split at h
      · injection h with h
        subst h
        simp [ecs_strbuf_appendstr]
      · split at h
        · simp at h
        · split at h
          · simp at h
          · exact ih_telems _ _ _ _ _ h
    · intro op ptr s s1 h
      rw [json_ser_type_op] at h
      split at h
      · simp at h
      · simp at h
      · obtain ⟨s2, h2, h3⟩ := andThen_eq_ok _ _ _ h
        injection h3 with h3
        subst h3
        exact json_ser_enum_ok_length _ _ _ _ _ _ h2
      · obtain ⟨s2, h2, h3⟩ := andThen_eq_ok _ _ _ h
        injection h3 with h3
        subst h3
        exact json_ser_bitmask_ok_length _ _ _ _ _ _ h2
      · obtain ⟨s2, h2, h3⟩ := andThen_eq_ok _ _ _ h
        injection h3 with h3
        subst h3
        exact ih_array _ _ _ _ h2
      · obtain ⟨s2, h2, h3⟩ := andThen_eq_ok _ _ _ h
        injection h3 with h3
        subst h3
        exact ih_vector _ _ _ _ h2
      · dsimp only at h
        split at h
        · injection h with h
          subst h
          simp [ecs_strbuf_appendstr]
        · split at h
          · simp at h
          · injection h with h
            subst h
            simp [ecs_strbuf_append]
      · split at h
        · injection h with h
          subst h
          simp [ecs_strbuf_appendstr]
        · simp at h
    · intro strict ops start op_count base i d s s1 cf hc hlen h
      rw [json_ser_type_ops_loop_step] at h
      cases cf with
      | zero => simp [scope_check] at hc
      | succ cf =>
        simp only [scope_check] at hc
        split at h
        · rename_i hlt
          simp only [hlt, if_true] at hc
          split at h
          · simp at h
          · rename_i op hop
            simp only [hop] at hc
            split at hc
            · simp at hc
            · split at h
              · rename_i hinl
                rw [if_pos hinl] at hc
                simp only [Bool.and_eq_true] at hc
                obtain ⟨s2, h2, h3⟩ := andThen_eq_ok _ _ _ h
                have e2 := ih_elems _ _ _ _ _ _ _ _ cf hc.1 h2
                rw [named_if_length] at e2
                have e3 := ih_loop _ _ _ _ _ _ _ _ _ cf hc.2 (by omega) h3
                omega
              · rename_i hinl
                rw [if_neg hinl] at hc
                split at h
                · rename_i hk
                  simp only [hk] at hc
                  have e3 := ih_loop _ _ _ _ _ _ _ _ _ cf hc
                    (by simp only [ecs_strbuf_list_push, List.length_cons, named_if_length]
                        omega) h
                  simp only [ecs_strbuf_list_push, List.length_cons, named_if_length] at e3
                  omega
                · rename_i hk
                  simp only [hk] at hc
                  cases d with
                  | zero => simp at hc
                  | succ d =>
                    simp only at hc
                    have e3 := ih_loop _ _ _ _ _ _ _ _ _ cf hc
                      (by simp only [ecs_strbuf_list_pop, List.length_tail, named_if_length]
                          omega) h
                    simp only [ecs_strbuf_list_pop, List.length_tail, named_if_length] at e3
                    omega
                · rename_i hpush hpop
                  obtain ⟨s2, h2, h3⟩ := andThen_eq_ok _ _ _ h
                  have e2 := ih_op _ _ _ _ h2
                  rw [named_if_length] at e2
                  have hc2 : scope_check strict cf ops start op_count (i + 1) d = true := by
                    cases hkind : op.kind <;> simp_all
                  have e3 := ih_loop _ _ _ _ _ _ _ _ _ cf hc2 (by omega) h3
                  omega
        · rename_i hlt
          simp only [hlt, if_false, decide_eq_true_eq] at hc
          injection h with h
          subst h
          omega
    · intro strict ops start op_count base s s1 cf hc h
      rw [json_ser_type_ops] at h
      have e := ih_loop _ _ _ _ _ _ _ _ _ cf hc (by omega) h
      omega

/-! ## Brackets of the appended text -/

theorem bracket_scan_append (a b opened : List Char) :
    bracket_scan (a ++ b) opened = (bracket_scan a opened).bind (bracket_scan b) := by
  induction a generalizing opened with
  | nil => simp [bracket_scan]
  | cons c cs ih =>
    simp only [List.cons_append, bracket_scan]
    split
    · exact ih _
    · split
      · split
        · split
          · exact ih _
          · simp
        · simp
      · split
        · split
          · split
            · exact ih _
            · simp
          · simp
        · exact ih _

theorem bracket_scan_no_brackets (text : String) (h : no_brackets text) (opened : List Char) :
    bracket_scan text.data opened = some opened := by
  unfold no_brackets at h
  generalize text.data = l at h
  induction l with
  | nil => simp [bracket_scan]
  | cons c cs ih =>
    have hc := h c (List.mem_cons_self _ _)
    simp only [bracket_scan, hc.1, hc.2.2.1, or_self, if_false, hc.2.1, hc.2.2.2]
    exact ih (fun x hx => h x (List.mem_cons_of_mem _ hx))

theorem no_brackets_append (a b : String) (ha : no_brackets a) (hb : no_brackets b) :
    no_brackets (a ++ b) := by
  intro c hc
  simp only [String.data_append, List.mem_append] at hc
  rcases hc with h | h
  · exact ha c h
  · exact hb c h

theorem appends_closing_refl (s : ecs_strbuf_t) : appends_closing [] s s :=
  ⟨"", by simp, fun rest => by simp [bracket_scan]⟩

theorem appends_closing_trans (opened : List Char) (s s2 s1 : ecs_strbuf_t)
    (h1 : appends_closing [] s s2) (h2 : appends_closing opened s2 s1) :
    appends_closing opened s s1 := by
  obtain ⟨t1, e1, b1⟩ := h1
  obtain ⟨t2, e2, b2⟩ := h2
  refine ⟨t1 ++ t2, by rw [e2, e1, String.append_assoc], fun rest => ?_⟩
  have := b1 (opened ++ rest)
  simp only [List.nil_append] at this
  simp [String.data_append, bracket_scan_append, this, b2 rest]

theorem appends_closing_text (s s2 : ecs_strbuf_t) (text : String)
    (hc : s2.content = s.content ++ text) (hn : no_brackets text) :
    appends_closing [] s s2 :=
  ⟨text, hc, fun rest => by simpa using bracket_scan_no_brackets text hn rest⟩

theorem no_brackets_quote : no_brackets "\"" := by
  intro c hc
  simp only [String.data, List.mem_singleton] at hc
  subst hc
  decide

theorem no_brackets_colon : no_brackets "\": " := by
  intro c hc
  have : c = Char.ofNat 34 ∨ c = Char.ofNat 58 ∨ c = Char.ofNat 32 := by
    simpa [String.data] using hc
  rcases this with rfl | rfl | rfl <;> decide

theorem no_brackets_comma : no_brackets ", " := by
  intro c hc
  have : c = Char.ofNat 44 ∨ c = Char.ofNat 32 := by simpa [String.data] using hc
  rcases this with rfl | rfl <;> decide

theorem no_brackets_bar : no_brackets "|" := by
  intro c hc
  simp only [String.data, List.mem_singleton] at hc
  subst hc
  decide

theorem no_brackets_zero : no_brackets "0" := by
  intro c hc
  simp only [String.data, List.mem_singleton] at hc
  subst hc
  decide

theorem no_brackets_null : no_brackets "null" := by
  intro c hc
  have : c = Char.ofNat 110 ∨ c = Char.ofNat 117 ∨ c = Char.ofNat 108 := by
    simpa [String.data] using hc
  rcases this with rfl | rfl | rfl <;> decide

theorem appends_closing_open_brace (opened : List Char) (s s2 s1 : ecs_strbuf_t)
    (hc : s2.content = s.content ++ "\x7b")
    (h : appends_closing (Char.ofNat 123 :: opened) s2 s1) : appends_closing opened s s1 := by
  obtain ⟨t, e, b⟩ := h
  refine ⟨"\x7b" ++ t, by rw [e, hc, String.append_assoc], fun rest => ?_⟩
  have := b rest
  simp only [List.cons_append] at this
  simp only [String.data_append, bracket_scan_append]
  have h1 : bracket_scan ("\x7b" : String).data (opened ++ rest) =
      some (Char.ofNat 123 :: (opened ++ rest)) := by
    simp [String.data, bracket_scan]
  rw [h1]
  exact this

theorem appends_closing_open_bracket (s s2 s1 : ecs_strbuf_t)
    (hc : s2.content = s.content ++ "[")
    (h : appends_closing [Char.ofNat 91] s2 s1) : appends_closing [] s s1 := by
  obtain ⟨t, e, b⟩ := h
  refine ⟨"[" ++ t, by rw [e, hc, String.append_assoc], fun rest => ?_⟩
  have := b rest
  simp only [String.data_append, bracket_scan_append]
  have h1 : bracket_scan ("[" : String).data ([] ++ rest) = some (Char.ofNat 91 :: rest) := by
    simp [String.data, bracket_scan]
  rw [h1]
  exact this

theorem appends_closing_close_brace (opened : List Char) (s s2 s1 : ecs_strbuf_t)
    (hc : s2.content = s.content ++ "\x7d")
    (h : appends_closing opened s2 s1) : appends_closing (Char.ofNat 123 :: opened) s s1 := by
  obtain ⟨t, e, b⟩ := h
  refine ⟨"\x7d" ++ t, by rw [e, hc, String.append_assoc], fun rest => ?_⟩
  simp only [String.data_append, bracket_scan_append]
  have h1 : bracket_scan ("\x7d" : String).data (Char.ofNat 123 :: opened ++ rest) =
      some (opened ++ rest) := by
    simp [String.data, bracket_scan]
  rw [h1]
  exact b rest

theorem appends_closing_close_bracket (s s1 : ecs_strbuf_t)
    (hc : s1.content = s.content ++ "]") : appends_closing [Char.ofNat 91] s s1 := by
  refine ⟨"]", hc, fun rest => ?_⟩
  simp [String.data, bracket_scan]

theorem list_next_brackets (s : ecs_strbuf_t) (hs : separators_bracket_free s) :
    separators_bracket_free (ecs_strbuf_list_next s) ∧
      appends_closing [] s (ecs_strbuf_list_next s) := by
  unfold ecs_strbuf_list_next
  split
  · exact ⟨hs, appends_closing_refl s⟩
  · rename_i el rest hst
    have hel : no_brackets el.separator := hs el (by rw [hst]; exact List.mem_cons_self _ _)
    refine ⟨?_, ?_⟩
    · intro x hx
      simp only [List.mem_cons] at hx
      rcases hx with rfl | hx
      · exact hel
      · exact hs x (by rw [hst]; exact List.mem_cons_of_mem _ hx)
    · by_cases hc : el.count ≠ 0
      · exact appends_closing_text _ _ el.separator (by simp [hc]) hel
      · refine ⟨"", by simp [hc], fun rest => by simp [bracket_scan]⟩

theorem named_if_brackets (i : Int) (op : ecs_meta_type_op_t) (s : ecs_strbuf_t)
    (hname : ∀ name, op.name = some name → no_brackets name)
    (hs : separators_bracket_free s) :
    separators_bracket_free (if i ≠ 0 then named_writer op s else s) ∧
      appends_closing [] s (if i ≠ 0 then named_writer op s else s) := by
  split
  · unfold named_writer
    split
    · rename_i name hn
      obtain ⟨h1, h2⟩ := list_next_brackets s hs
      refine ⟨h1, appends_closing_trans _ _ _ _ h2 ?_⟩
      exact appends_closing_text _ _ ("\"" ++ name ++ "\": ") rfl
        (no_brackets_append _ _ (no_brackets_append _ _ no_brackets_quote (hname name hn))
          no_brackets_colon)
    · exact ⟨hs, appends_closing_refl s⟩
  · exact ⟨hs, appends_closing_refl s⟩

theorem json_ser_bitmask_loop_brackets (world : ecs_world_t)
    (hnames : ∀ e, no_brackets (world.ecs_get_name e))
    (it : List (Nat × ecs_bitmask_constant_t)) (value : Nat) (s : ecs_strbuf_t)
    (hs : separators_bracket_free s) :
    separators_bracket_free (json_ser_bitmask_loop world it value s).2 ∧
      appends_closing [] s (json_ser_bitmask_loop world it value s).2 := by
  induction it generalizing value s with
  | nil => exact ⟨hs, appends_closing_refl s⟩
  | cons a it ih =>
    obtain ⟨key, constant⟩ := a
    simp only [json_ser_bitmask_loop]
    split
    · obtain ⟨h1, h2⟩ := list_next_brackets s hs
      have h3 : separators_bracket_free
          (ecs_strbuf_list_appendstr s (world.ecs_get_name constant.constant)) := h1
      obtain ⟨h4, h5⟩ := ih _ _ h3
      refine ⟨h4, appends_closing_trans _ _ _ _ h2 (appends_closing_trans _ _ _ _ ?_ h5)⟩
      exact appends_closing_text _ _ (world.ecs_get_name constant.constant) rfl (hnames _)
    · exact ih _ _ hs

theorem json_ser_enum_ok_brackets (world : ecs_world_t) (mem : Memory)
    (hnames : ∀ e, no_brackets (world.ecs_get_name e))
    (op : ecs_meta_type_op_t) (base : Int) (s s1 : ecs_strbuf_t)
    (hs : separators_bracket_free s)
    (h : json_ser_enum world mem op base s = .ok s1) :
    separators_bracket_free s1 ∧ appends_closing [] s s1 := by
  unfold json_ser_enum at h
  split at h
  · simp at h
  · dsimp only at h
    split at h
    · simp at h
    · rename_i constant _
      injection h with h
      subst h
      refine ⟨hs, ?_⟩
      exact appends_closing_text _ _ ("\"" ++ world.ecs_get_name constant.constant ++ "\"")
        (by simp [ecs_strbuf_appendstr, String.append_assoc])
        (no_brackets_append _ _ (no_brackets_append _ _ no_brackets_quote (hnames _))
          no_brackets_quote)

theorem json_ser_bitmask_ok_brackets (world : ecs_world_t) (mem : Memory)
    (hnames : ∀ e, no_brackets (world.ecs_get_name e))
    (op : ecs_meta_type_op_t) (ptr : Int) (s s1 : ecs_strbuf_t)
    (hs : separators_bracket_free s)
    (h : json_ser_bitmask world mem op ptr s = .ok s1) :
    separators_bracket_free s1 ∧ appends_closing [] s s1 := by
  unfold json_ser_bitmask at h
  split at h
  · simp at h
  · dsimp only at h
    split at h
    · injection h with h
      subst h
      exact ⟨hs, appends_closing_text _ _ "0" rfl no_brackets_zero⟩
    · split at h
      · simp at h
      · injection h with h
        subst h
        have hpush : separators_bracket_free (ecs_strbuf_list_push s "\"" "|") := by
          intro x hx
          simp only [ecs_strbuf_list_push, List.mem_cons] at hx
          rcases hx with rfl | hx
          · exact no_brackets_bar
          · exact hs x hx
        obtain ⟨h1, h2⟩ := json_ser_bitmask_loop_brackets world hnames _ _ _ hpush
        refine ⟨?_, ?_⟩
        · intro x hx
          exact h1 x (List.mem_of_mem_tail hx)
        · refine appends_closing_trans _ _ _ _
            (appends_closing_text _ _ "\"" rfl no_brackets_quote)
            (appends_closing_trans _ _ _ _ h2
              (appends_closing_text _ _ "\"" rfl no_brackets_quote))

theorem op_at_mem (ops : List ecs_meta_type_op_t) (j : Int) (op : ecs_meta_type_op_t)
    (h : op_at ops j = some op) : op ∈ ops := by
  unfold op_at at h
  split at h
  · exact List.get?_mem h
  · simp at h

theorem replicate_succ_brace (d : Nat) :
    List.replicate (d + 1) (Char.ofNat 123) = Char.ofNat 123 :: List.replicate d (Char.ofNat 123) :=
  rfl

set_option maxHeartbeats 1000000 in
/-- Brackets emitted by the interpreter on programs with properly nested scopes, when the
collaborators emit none: a successful call appends a text whose brackets are balanced (the
loops: a text that closes the scopes open at the cursor and is otherwise balanced). -/
theorem scopes_brackets (world : ecs_world_t) (hw : registry_scoped world) (mem : Memory)
    (hcol : collaborators_bracket_free world mem) (fuel : Nat) :
    (∀ ops start op_count ptr elem_count elem_size i s s1 cf,
      scope_check false cf ops start op_count 0 0 = true → names_bracket_free ops →
      separators_bracket_free s →
      json_ser_elements_loop fuel world mem ops start op_count ptr elem_count elem_size i s
        = .ok s1 →
      separators_bracket_free s1 ∧ appends_closing [Char.ofNat 91] s s1) ∧
    (∀ ops start op_count base elem_count elem_size s s1 cf,
      scope_check false cf ops start op_count 0 0 = true → names_bracket_free ops →
      separators_bracket_free s →
      json_ser_elements fuel world mem ops start op_count base elem_count elem_size s
        = .ok s1 →
      separators_bracket_free s1 ∧ appends_closing [] s s1) ∧
    (∀ type base elem_count s s1, separators_bracket_free s →
      json_ser_type_elements fuel world mem type base elem_count s = .ok s1 →
      separators_bracket_free s1 ∧ appends_closing [] s s1) ∧
    (∀ op ptr s s1, separators_bracket_free s →
      json_ser_array fuel world mem op ptr s = .ok s1 →
      separators_bracket_free s1 ∧ appends_closing [] s s1) ∧
    (∀ op base s s1, separators_bracket_free s →
      json_ser_vector fuel world mem op base s = .ok s1 →
      separators_bracket_free s1 ∧ appends_closing [] s s1) ∧
    (∀ op ptr s s1, separators_bracket_free s →
      json_ser_type_op fuel world mem op ptr s = .ok s1 →
      separators_bracket_free s1 ∧ appends_closing [] s s1) ∧
    (∀ strict ops start op_count base i d s s1 cf,
      scope_check strict cf ops start op_count i d = true → names_bracket_free ops →
      separators_bracket_free s →
      json_ser_type_ops_loop fuel world mem ops start op_count base i s = .ok s1 →
      separators_bracket_free s1 ∧
        appends_closing (List.replicate d (Char.ofNat 123)) s s1) ∧
    (∀ strict ops start op_count base s s1 cf,
      scope_check strict cf ops start op_count 0 0 = true → names_bracket_free ops →
      separators_bracket_free s →
      json_ser_type_ops fuel world mem ops start op_count base s = .ok s1 →
      separators_bracket_free s1 ∧ appends_closing [] s s1) := by
  obtain ⟨hprim, hnames, hpaths, hreg⟩ := hcol
  induction fuel with
  | zero =>
    refine ⟨?_, ?_, ?_, ?_, ?_, ?_, ?_, ?_⟩ <;> intros <;>
      simp_all [json_ser_elements_loop, json_ser_elements, json_ser_type_elements,
        json_ser_array, json_ser_vector, json_ser_type_op, json_ser_type_ops_loop,
        json_ser_type_ops]
  | succ fuel ih =>
    obtain ⟨ih_eloop, ih_elems, ih_telems, ih_array, ih_vector, ih_op, ih_loop, ih_ops⟩ := ih
    refine ⟨?_, ?_, ?_, ?_, ?_, ?_, ?_, ?_⟩
    · intro ops start op_count ptr elem_count elem_size i s s1 cf hc hn hs h
      rw [json_ser_elements_loop] at h
      split at h
      · obtain ⟨s2, h2, h3⟩ := andThen_eq_ok _ _ _ h
        obtain ⟨a1, a2⟩ := list_next_brackets s hs
        obtain ⟨b1, b2⟩ := ih_ops _ _ _ _ _ _ _ cf hc hn a1 h2
        obtain ⟨c1, c2⟩ := ih_eloop _ _ _ _ _ _ _ _ _ cf hc hn b1 h3
        exact ⟨c1, appends_closing_trans _ _ _ _ a2 (appends_closing_trans _ _ _ _ b2 c2)⟩
      · injection h with h
        subst h
        exact ⟨fun x hx => hs x (List.mem_of_mem_tail hx),
          appends_closing_close_bracket _ _ rfl⟩
    · intro ops start op_count base elem_count elem_size s s1 cf hc hn hs h
      rw [json_ser_elements] at h
      have hpush : separators_bracket_free (ecs_strbuf_list_push s "[" ", ") := by
        intro x hx
        simp only [ecs_strbuf_list_push, List.mem_cons] at hx
        rcases hx with rfl | hx
        · exact no_brackets_comma
        · exact hs x hx
      obtain ⟨c1, c2⟩ := ih_eloop _ _ _ _ _ _ _ _ _ cf hc hn hpush h
      exact ⟨c1, appends_closing_open_bracket _ _ _ rfl c2⟩
    · intro type base elem_count s s1 hs h
      rw [json_ser_type_elements] at h
      split at h
      · simp at h
      · rename_i ser hser
        split at h
        · simp at h
        · obtain ⟨cf, hc⟩ := hw _ _ hser
          exact ih_elems _ _ _ _ _ _ _ _ cf hc (hreg _ _ hser) hs h
    · intro op ptr s s1 hs h
      rw [json_ser_array] at h
      split at h
      · simp at h
      · exact ih_telems _ _ _ _ _ hs h
    · intro op base s s1 hs h
      rw [json_ser_vector] at h
      split at h
      · injection h with h
        subst h
        exact ⟨hs, appends_closing_text _ _ "null" rfl no_brackets_null⟩
      · split at h
        · simp at h
        · split at h
          · simp at h
          · exact ih_telems _ _ _ _ _ hs h
    · intro op ptr s s1 hs h
      rw [json_ser_type_op] at h
      split at h
      · simp at h
      · simp at h
      · obtain ⟨s2, h2, h3⟩ := andThen_eq_ok _ _ _ h
        injection h3 with h3
        subst h3
        exact json_ser_enum_ok_brackets _ _ hnames _ _ _ _ hs h2
      · obtain ⟨s2, h2, h3⟩ := andThen_eq_ok _ _ _ h
        injection h3 with h3
        subst h3
        exact json_ser_bitmask_ok_brackets _ _ hnames _ _ _ _ hs h2
      · obtain ⟨s2, h2, h3⟩ := andThen_eq_ok _ _ _ h
        injection h3 with h3
        subst h3
        exact ih_array _ _ _ _ hs h2
      · obtain ⟨s2, h2, h3⟩ := andThen_eq_ok _ _ _ h
        injection h3 with h3
        subst h3
        exact ih_vector _ _ _ _ hs h2
      · dsimp only at h
        split at h
        · injection h with h
          subst h
          exact ⟨hs, appends_closing_text _ _ "0" rfl no_brackets_zero⟩
        · split at h
          · simp at h
          · rename_i path hpath
            injection h with h
            subst h
            exact ⟨hs, appends_closing_text _ _ ("\"" ++ path ++ "\"") rfl
              (no_brackets_append _ _ (no_brackets_append _ _ no_brackets_quote
                (hpaths _ _ hpath)) no_brackets_quote)⟩
      · split at h
        · rename_i text htext
          injection h with h
          subst h
          exact ⟨hs, appends_closing_text _ _ text rfl (hprim _ _ _ htext)⟩
        · simp at h
    · intro strict ops start op_count base i d s s1 cf hc hn hs h
      rw [json_ser_type_ops_loop_step] at h
      cases cf with
      | zero => simp [scope_check] at hc
      | succ cf =>
        simp only [scope_check] at hc
        split at h
        · rename_i hlt
          simp only [hlt, if_true] at hc
          split at h
          · simp at h
          · rename_i op hop
            simp only [hop] at hc
            obtain ⟨n1, n2⟩ := named_if_brackets i op s (hn op (op_at_mem _ _ _ hop)) hs
            split at hc
            · simp at hc
            · split at h
              · rename_i hinl
                rw [if_pos hinl] at hc
                simp only [Bool.and_eq_true] at hc
                obtain ⟨s2, h2, h3⟩ := andThen_eq_ok _ _ _ h
                obtain ⟨b1, b2⟩ := ih_elems _ _ _ _ _ _ _ _ cf hc.1 hn n1 h2
                obtain ⟨c1, c2⟩ := ih_loop _ _ _ _ _ _ _ _ _ cf hc.2 hn b1 h3
                exact ⟨c1, appends_closing_trans _ _ _ _ n2
                  (appends_closing_trans _ _ _ _ b2 c2)⟩
              · rename_i hinl
                rw [if_neg hinl] at hc
                split at h
                · rename_i hk
                  simp only [hk] at hc
                  have hpush : separators_bracket_free (ecs_strbuf_list_push
                      (if i ≠ 0 then named_writer op s else s) "\x7b" ", ") := by
                    intro x hx
                    simp only [ecs_strbuf_list_push, List.mem_cons] at hx
                    rcases hx with rfl | hx
                    · exact no_brackets_comma
                    · exact n1 x hx
                  obtain ⟨c1, c2⟩ := ih_loop _ _ _ _ _ _ _ _ _ cf hc hn hpush h
                  rw [replicate_succ_brace] at c2
                  exact ⟨c1, appends_closing_trans _ _ _ _ n2
                    (appends_closing_open_brace _ _ _ _ rfl c2)⟩
                · rename_i hk
                  simp only [hk] at hc
                  cases d with
                  | zero => simp at hc
                  | succ d =>
                    simp only at hc
                    have hpop : separators_bracket_free (ecs_strbuf_list_pop
                        (if i ≠ 0 then named_writer op s else s) "\x7d") :=
                      fun x hx => n1 x (List.mem_of_mem_tail hx)
                    obtain ⟨c1, c2⟩ := ih_loop _ _ _ _ _ _ _ _ _ cf hc hn hpop h
                    rw [replicate_succ_brace]
                    exact ⟨c1, appends_closing_trans _ _ _ _ n2
                      (appends_closing_close_brace _ _ _ _ rfl c2)⟩
                · rename_i hpush hpop
                  obtain ⟨s2, h2, h3⟩ := andThen_eq_ok _ _ _ h
                  obtain ⟨b1, b2⟩ := ih_op _ _ _ _ n1 h2
                  have hc2 : scope_check strict cf ops start op_count (i + 1) d = true := by
                    cases hkind : op.kind <;> rw [hkind] at hc <;>
                      first
                      | exact absurd hkind (hpush _)
                      | exact absurd hkind (hpop _)
                      | exact absurd hkind hpush
                      | exact absurd hkind hpop
                      | exact hc
                  obtain ⟨c1, c2⟩ := ih_loop _ _ _ _ _ _ _ _ _ cf hc2 hn b1 h3
                  exact ⟨c1, appends_closing_trans _ _ _ _ n2
                    (appends_closing_trans _ _ _ _ b2 c2)⟩
        · rename_i hlt
          simp only [hlt, if_false, decide_eq_true_eq] at hc
          injection h with h
          subst h
          subst hc
          exact ⟨hs, appends_closing_refl _⟩
    · intro strict ops start op_count base s s1 cf hc hn hs h
      rw [json_ser_type_ops] at h
      exact ih_loop _ _ _ _ _ _ _ _ _ cf hc hn hs h

/-! ## C19 -/

/-- C19. Scope balance. When every program of the registry has properly nested scopes, for
every slice whose scopes are properly nested (within the slice and within each
inline-array sub-program slice): a successful call of `json_ser_type_ops` leaves the
writer with as many open list scopes as at entry, and so do successful calls of
`json_ser_elements`, `json_ser_vector`, `json_ser_array` and `json_ser_bitmask`.
Consequently, when the collaborators emit no bracket (scalar texts, constant names, paths,
field names and the separators of the caller's open scopes hold none), the text appended
by a successful call of `json_ser_type_ops`, `json_ser_elements`, `json_ser_vector` or
`json_ser_array` has its brackets `{`, `[`, `}`, `]` equal in number and properly
nested. -/
theorem scope_balance (world : ecs_world_t) (hw : registry_scoped world) (mem : Memory)
    (fuel : Nat) :
    (∀ ops start op_count base s s1 cf,
      scope_check false cf ops start op_count 0 0 = true →
      json_ser_type_ops fuel world mem ops start op_count base s = .ok s1 →
      s1.list_stack.length = s.list_stack.length) ∧
    (∀ ops start op_count base elem_count elem_size s s1 cf,
      scope_check false cf ops start op_count 0 0 = true →
      json_ser_elements fuel world mem ops start op_count base elem_count elem_size s
        = .ok s1 →
      s1.list_stack.length = s.list_stack.length) ∧
    (∀ op base s s1, json_ser_vector fuel world mem op base s = .ok s1 →
      s1.list_stack.length = s.list_stack.length) ∧
    (∀ op ptr s s1, json_ser_array fuel world mem op ptr s = .ok s1 →
      s1.list_stack.length = s.list_stack.length) ∧
    (∀ op ptr s s1, json_ser_bitmask world mem op ptr s = .ok s1 →
      s1.list_stack.length = s.list_stack.length) ∧
    (collaborators_bracket_free world mem →
      (∀ ops start op_count base s s1 cf,
        scope_check false cf ops start op_count 0 0 = true → names_bracket_free ops →
        separators_bracket_free s →
        json_ser_type_ops fuel world mem ops start op_count base s = .ok s1 →
        ∃ text, s1.content = s.content ++ text ∧ brackets_balanced text) ∧
      (∀ ops start op_count base elem_count elem_size s s1 cf,
        scope_check false cf ops start op_count 0 0 = true → names_bracket_free ops →
        separators_bracket_free s →
        json_ser_elements fuel world mem ops start op_count base elem_count elem_size s
          = .ok s1 →
        ∃ text, s1.content = s.content ++ text ∧ brackets_balanced text) ∧
      (∀ op base s s1, separators_bracket_free s →
        json_ser_vector fuel world mem op base s = .ok s1 →
        ∃ text, s1.content = s.content ++ text ∧ brackets_balanced text) ∧
      (∀ op ptr s s1, separators_bracket_free s →
        json_ser_array fuel world mem op ptr s = .ok s1 →
        ∃ text, s1.content = s.content ++ text ∧ brackets_balanced text)) := by
  obtain ⟨_, d_elems, _, d_array, d_vector, _, _, d_ops⟩ := scopes_depth world hw mem fuel
  have hbal : ∀ s s1 : ecs_strbuf_t, appends_closing [] s s1 →
      ∃ text, s1.content = s.content ++ text ∧ brackets_balanced text := by
    rintro s s1 ⟨text, e, b⟩
    exact ⟨text, e, by simpa [brackets_balanced] using b []⟩
  refine ⟨fun ops start op_count base s s1 cf hc h => d_ops false _ _ _ _ _ _ cf hc h,
    d_elems, d_vector, d_array, json_ser_bitmask_ok_length world mem, ?_⟩
  intro hcol
  obtain ⟨_, b_elems, _, b_array, b_vector, _, _, b_ops⟩ :=
    scopes_brackets world hw mem hcol fuel
  refine ⟨?_, ?_, ?_, ?_⟩
  · intro ops start op_count base s s1 cf hc hn hs h
    exact hbal _ _ (b_ops false _ _ _ _ _ _ cf hc hn hs h).2
  · intro ops start op_count base elem_count elem_size s s1 cf hc hn hs h
    exact hbal _ _ (b_elems _ _ _ _ _ _ _ _ cf hc hn hs h).2
  · intro op base s s1 hs h
    exact hbal _ _ (b_vector _ _ _ _ hs h).2
  · intro op ptr s s1 hs h
    exact hbal _ _ (b_array _ _ _ _ hs h).2

/-- The programs of the example registry have properly nested scopes. -/
theorem example_registry_scoped : registry_scoped example_registry := by
  intro t ser h
  simp only [example_registry] at h
  split_ifs at h <;> injection h with h <;> subst h <;> exact ⟨10, by decide⟩

/-- The collaborators of the example registry and buffer emit no bracket. -/
theorem example_collaborators_bracket_free :
    collaborators_bracket_free example_registry example_memory := by
  refine ⟨?_, ?_, ?_, ?_⟩
  · intro k p text h
    simp only [example_memory] at h
    split_ifs at h <;> injection h with h <;> subst h <;> unfold no_brackets <;> decide
  · intro e
    simp only [example_registry, example_world]
    split_ifs <;> unfold no_brackets <;> decide
  · intro e path h
    simp only [example_registry, example_world] at h
    split_ifs at h <;> injection h with h <;> subst h <;> unfold no_brackets <;> decide
  · intro t ser h
    simp only [example_registry] at h
    split_ifs at h <;> injection h with h <;> subst h <;> unfold names_bracket_free <;>
      unfold no_brackets <;> decide

/-- C19 on the example vector of the structs `(1, 2)` and `(3, 4)`, encoded inside an open
list scope: the call leaves one list scope open, as it found, and the appended text
`[{"x": 1, "y": 2}, {"x": 3, "y": 4}]` has balanced brackets. -/
theorem scope_balance_witness :
    registry_scoped example_registry ∧
    json_ser_vector 12 example_registry example_memory (example_op EcsOpVector 4) 24
        ⟨"v: ", [⟨1, ", "⟩]⟩ =
      .ok ⟨"v: [\x7b\"x\": 1, \"y\": 2\x7d, \x7b\"x\": 3, \"y\": 4\x7d]", [⟨1, ", "⟩]⟩ ∧
    (⟨"v: [\x7b\"x\": 1, \"y\": 2\x7d, \x7b\"x\": 3, \"y\": 4\x7d]", [⟨1, ", "⟩]⟩ :
        ecs_strbuf_t).list_stack.length = (⟨"v: ", [⟨1, ", "⟩]⟩ : ecs_strbuf_t).list_stack.length ∧
    (∃ text, (⟨"v: [\x7b\"x\": 1, \"y\": 2\x7d, \x7b\"x\": 3, \"y\": 4\x7d]", [⟨1, ", "⟩]⟩ :
        ecs_strbuf_t).content = (⟨"v: ", [⟨1, ", "⟩]⟩ : ecs_strbuf_t).content ++ text ∧
      brackets_balanced text) :=
  ⟨example_registry_scoped, by decide,
    (scope_balance example_registry example_registry_scoped example_memory 12).2.2.1
      (example_op EcsOpVector 4) 24 ⟨"v: ", [⟨1, ", "⟩]⟩ _ (by decide),
    ((scope_balance example_registry example_registry_scoped example_memory 12).2.2.2.2.2
      example_collaborators_bracket_free).2.2.1
      (example_op EcsOpVector 4) 24 ⟨"v: ", [⟨1, ", "⟩]⟩ _
      (by intro el hel
          simp only [List.mem_singleton] at hel
          subst hel
          exact no_brackets_comma)
      (by decide)⟩

/-! ## Independence from the caller's writer -/

theorem framed_appendstr (P : String) (sc : List ecs_strbuf_list_elem) (s : ecs_strbuf_t)
    (t : String) :
    ecs_strbuf_appendstr (framed_writer P sc s) t =
      framed_writer P sc (ecs_strbuf_appendstr s t) := by
  simp [ecs_strbuf_appendstr, framed_writer, String.append_assoc]

theorem framed_append (P : String) (sc : List ecs_strbuf_list_elem) (s : ecs_strbuf_t)
    (a b c : String) :
    ecs_strbuf_append (framed_writer P sc s) a b c =
      framed_writer P sc (ecs_strbuf_append s a b c) := by
  simp [ecs_strbuf_append, framed_writer, String.append_assoc]

theorem framed_list_push (P : String) (sc : List ecs_strbuf_list_elem) (s : ecs_strbuf_t)
    (a b : String) :
    ecs_strbuf_list_push (framed_writer P sc s) a b =
      framed_writer P sc (ecs_strbuf_list_push s a b) := by
  simp [ecs_strbuf_list_push, framed_writer, String.append_assoc]

theorem framed_list_pop (P : String) (sc : List ecs_strbuf_list_elem) (s : ecs_strbuf_t)
    (a : String) (h : 1 ≤ s.list_stack.length) :
    ecs_strbuf_list_pop (framed_writer P sc s) a =
      framed_writer P sc (ecs_strbuf_list_pop s a) := by
  obtain ⟨c, st⟩ := s
  cases st with
  | nil => simp at h
  | cons e rest => simp [ecs_strbuf_list_pop, framed_writer, String.append_assoc]

theorem framed_list_next (P : String) (sc : List ecs_strbuf_list_elem) (s : ecs_strbuf_t)
    (h : 1 ≤ s.list_stack.length) :
    ecs_strbuf_list_next (framed_writer P sc s) =
      framed_writer P sc (ecs_strbuf_list_next s) := by
  obtain ⟨c, st⟩ := s
  cases st with
  | nil => simp at h
  | cons e rest =>
    by_cases hc : e.count = 0 <;>
      simp [ecs_strbuf_list_next, framed_writer, String.append_assoc, hc]

theorem framed_named_if (P : String) (sc : List ecs_strbuf_list_elem) (s : ecs_strbuf_t)
    (i : Int) (op : ecs_meta_type_op_t)
    (h : i ≠ 0 → op.name ≠ none → 1 ≤ s.list_stack.length) :
    (if i ≠ 0 then named_writer op (framed_writer P sc s) else framed_writer P sc s) =
      framed_writer P sc (if i ≠ 0 then named_writer op s else s) := by
  by_cases hi : i = 0
  · simp [hi]
  · simp only [ne_eq, hi, not_false_eq_true, if_true]
    unfold named_writer
    cases hn : op.name with
    | none => rfl
    | some name =>
      simp only
      rw [framed_list_next _ _ _ (h hi (by simp [hn])), framed_append]

theorem framed_andThen (P : String) (sc : List ecs_strbuf_list_elem) (r : Result)
    (k : ecs_strbuf_t → Result)
    (h : ∀ s1, r = .ok s1 → k (framed_writer P sc s1) = framed_result P sc (k s1)) :
    (framed_result P sc r).andThen k = framed_result P sc (r.andThen k) := by
  cases r with
  | ok s1 => simpa [framed_result, Result.andThen] using h s1 rfl
  | error s1 => rfl
  | abort c => rfl
  | assert_failed c => rfl
  | undefined => rfl
  | timeout => rfl

theorem framed_andThen_ok (P : String) (sc : List ecs_strbuf_list_elem) (r : Result) :
    (framed_result P sc r).andThen .ok = framed_result P sc (r.andThen .ok) :=
  framed_andThen P sc r .ok (fun _ _ => rfl)

theorem framed_json_ser_enum (P : String) (sc : List ecs_strbuf_list_elem)
    (world : ecs_world_t) (mem : Memory) (op : ecs_meta_type_op_t) (base : Int)
    (s : ecs_strbuf_t) :
    json_ser_enum world mem op base (framed_writer P sc s) =
      framed_result P sc (json_ser_enum world mem op base s) := by
  unfold json_ser_enum
  cases world.get_EcsEnum op.type with
  | none => rfl
  | some enum_type =>
    dsimp only
    cases ecs_map_get enum_type.constants (mem.int32 base) with
    | none => rfl
    | some constant =>
      simp only [framed_appendstr, framed_result]

theorem framed_json_ser_bitmask_loop (P : String) (sc : List ecs_strbuf_list_elem)
    (world : ecs_world_t) (it : List (Nat × ecs_bitmask_constant_t)) (value : Nat)
    (s : ecs_strbuf_t) (h : 1 ≤ s.list_stack.length) :
    json_ser_bitmask_loop world it value (framed_writer P sc s) =
      ((json_ser_bitmask_loop world it value s).1,
        framed_writer P sc (json_ser_bitmask_loop world it value s).2) := by
  induction it generalizing value s with
  | nil => rfl
  | cons a it ih =>
    obtain ⟨key, constant⟩ := a
    simp only [json_ser_bitmask_loop]
    split
    · simp only [ecs_strbuf_list_appendstr]
      rw [framed_list_next _ _ _ h, framed_appendstr]
      exact ih _ _ (by simp [ecs_strbuf_appendstr, list_next_length]; omega)
    · exact ih _ _ h

theorem framed_json_ser_bitmask (P : String) (sc : List ecs_strbuf_list_elem)
    (world : ecs_world_t) (mem : Memory) (op : ecs_meta_type_op_t) (ptr : Int)
    (s : ecs_strbuf_t) :
    json_ser_bitmask world mem op ptr (framed_writer P sc s) =
      framed_result P sc (json_ser_bitmask world mem op ptr s) := by
  unfold json_ser_bitmask
  cases world.get_EcsBitmask op.type with
  | none => rfl
  | some bitmask_type =>
    dsimp only
    by_cases hv : load_uint32 mem ptr = 0
    · simp only [hv, if_true, framed_appendstr, framed_result]
    · simp only [hv, if_false]
      rw [framed_list_push, framed_json_ser_bitmask_loop _ _ _ _ _ _
        (by simp [ecs_strbuf_list_push])]
      dsimp only
      split
      · rfl
      · rw [framed_list_pop _ _ _ _
          (by rw [json_ser_bitmask_loop_length]; simp [ecs_strbuf_list_push])]
        rfl

/-- Frame property of the interpreter on programs with properly nested scopes: a run on a
writer that already holds the text `P` and the open list scopes `sc` below the scopes the
run relies on is the run on the writer without them, with `P` and `sc` put back. -/
theorem framed_run (world : ecs_world_t) (hw : registry_scoped world) (mem : Memory)
    (P : String) (sc : List ecs_strbuf_list_elem) (fuel : Nat) :
    (∀ ops start op_count ptr elem_count elem_size i s cf,
      scope_check false cf ops start op_count 0 0 = true → 1 ≤ s.list_stack.length →
      json_ser_elements_loop fuel world mem ops start op_count ptr elem_count elem_size i
          (framed_writer P sc s) =
        framed_result P sc (json_ser_elements_loop fuel world mem ops start op_count ptr
          elem_count elem_size i s)) ∧
    (∀ ops start op_count base elem_count elem_size s cf,
      scope_check false cf ops start op_count 0 0 = true →
      json_ser_elements fuel world mem ops start op_count base elem_count elem_size
          (framed_writer P sc s) =
        framed_result P sc (json_ser_elements fuel world mem ops start op_count base
          elem_count elem_size s)) ∧
    (∀ type base elem_count s,
      json_ser_type_elements fuel world mem type base elem_count (framed_writer P sc s) =
        framed_result P sc (json_ser_type_elements fuel world mem type base elem_count s)) ∧
    (∀ op ptr s, json_ser_array fuel world mem op ptr (framed_writer P sc s) =
        framed_result P sc (json_ser_array fuel world mem op ptr s)) ∧
    (∀ op base s, json_ser_vector fuel world mem op base (framed_writer P sc s) =
        framed_result P sc (json_ser_vector fuel world mem op base s)) ∧
    (∀ op ptr s, json_ser_type_op fuel world mem op ptr (framed_writer P sc s) =
        framed_result P sc (json_ser_type_op fuel world mem op ptr s)) ∧
    (∀ strict ops start op_count base i d s cf,
      scope_check strict cf ops start op_count i d = true →
      d + (if strict = true then 0 else 1) ≤ s.list_stack.length →
      json_ser_type_ops_loop fuel world mem ops start op_count base i
          (framed_writer P sc s) =
        framed_result P sc
          (json_ser_type_ops_loop fuel world mem ops start op_count base i s)) ∧
    (∀ strict ops start op_count base s cf,
      scope_check strict cf ops start op_count 0 0 = true →
      (if strict = true then 0 else 1) ≤ s.list_stack.length →
      json_ser_type_ops fuel world mem ops start op_count base (framed_writer P sc s) =
        framed_result P sc
          (json_ser_type_ops fuel world mem ops start op_count base s)) := by
  induction fuel with
  | zero =>
    refine ⟨?_, ?_, ?_, ?_, ?_, ?_, ?_, ?_⟩ <;> intros <;>
      simp [json_ser_elements_loop, json_ser_elements, json_ser_type_elements,
        json_ser_array, json_ser_vector, json_ser_type_op, json_ser_type_ops_loop,
        json_ser_type_ops, framed_result]
  | succ fuel ih =>
    obtain ⟨ih_eloop, ih_elems, ih_telems, ih_array, ih_vector, ih_op, ih_loop, ih_ops⟩ := ih
    obtain ⟨-, dp_elems, -, -, -, dp_op, -, dp_ops⟩ := scopes_depth world hw mem fuel
    refine ⟨?_, ?_, ?_, ?_, ?_, ?_, ?_, ?_⟩
    · intro ops start op_count ptr elem_count elem_size i s cf hc hlen
      rw [json_ser_elements_loop, json_ser_elements_loop]
      by_cases hlt : i < elem_count
      · rw [if_pos hlt, if_pos hlt]
        dsimp only
        rw [framed_list_next _ _ _ hlen,
          ih_ops false _ _ _ _ _ cf hc (by simp [list_next_length, hlen])]
        apply framed_andThen
        intro s2 h2
        have e2 := dp_ops false _ _ _ _ _ _ cf hc h2
        rw [list_next_length] at e2
        exact ih_eloop _ _ _ _ _ _ _ _ cf hc (by omega)
      · rw [if_neg hlt, if_neg hlt, framed_list_pop _ _ _ _ hlen]
        rfl
    · intro ops start op_count base elem_count elem_size s cf hc
      rw [json_ser_elements, json_ser_elements]
      rw [framed_list_push]
      exact ih_eloop _ _ _ _ _ _ _ _ cf hc (by simp [ecs_strbuf_list_push])
    · intro type base elem_count s
      rw [json_ser_type_elements, json_ser_type_elements]
      cases hser : world.get_EcsMetaTypeSerialized type with
      | none => rfl
      | some ser =>
        cases hcomp : world.get_EcsComponent type with
        | none => rfl
        | some comp =>
          obtain ⟨cf, hc⟩ := hw _ _ hser
          exact ih_elems _ _ _ _ _ _ _ cf hc
    · intro op ptr s
      rw [json_ser_array, json_ser_array]
      cases ha : world.get_EcsArray op.type with
      | none => rfl
      | some a => exact ih_telems _ _ _ _
    · intro op base s
      rw [json_ser_vector, json_ser_vector]
      cases hv : mem.vector base with
      | none =>
        simp only [framed_appendstr, framed_result]
      | some value =>
        cases hvt : world.get_EcsVector op.type with
        | none => rfl
        | some v =>
          dsimp only
          cases hcomp : world.get_EcsComponent v.type with
          | none => rfl
          | some comp => exact ih_telems _ _ _ _
    · intro op ptr s
      rw [json_ser_type_op, json_ser_type_op]
      cases hk : op.kind with
      | EcsOpPush => rfl
      | EcsOpPop => rfl
      | EcsOpEnum =>
        simp only [framed_json_ser_enum, framed_andThen_ok]
      | EcsOpBitmask =>
        simp only [framed_json_ser_bitmask, framed_andThen_ok]
      | EcsOpArray =>
        simp only [ih_array, framed_andThen_ok]
      | EcsOpVector =>
        simp only [ih_vector, framed_andThen_ok]
      | EcsOpEntity =>
        dsimp only
        by_cases he : mem.entity ptr = 0
        · simp only [he, if_true, framed_appendstr, framed_result]
        · simp only [he, if_false]
          cases hp : world.ecs_get_fullpath (mem.entity ptr) with
          | none => rfl
          | some path => simp only [framed_append, framed_result]
      | EcsOpPrimitive subkind =>
        dsimp only
        cases ht : mem.primitive_to_expr
            (json_op_to_primitive_kind (EcsOpPrimitive subkind))
            (ECS_OFFSET ptr op.offset) with
        | none => rfl
        | some text => simp only [framed_appendstr, framed_result]
    · intro strict ops start op_count base i d s cf hc hlen
      rw [json_ser_type_ops_loop_step, json_ser_type_ops_loop_step]
      cases cf with
      | zero => simp [scope_check] at hc
      | succ cf =>
        simp only [scope_check] at hc
        by_cases hlt : i < op_count
        · simp only [hlt, if_true] at hc
          rw [if_pos hlt, if_pos hlt]
          cases hop : op_at ops (start + i) with
          | none => rfl
          | some op =>
            simp only [hop] at hc
            dsimp only
            split at hc
            · simp at hc
            · rename_i hstrict
              have hnamed : i ≠ 0 → op.name ≠ none → 1 ≤ s.list_stack.length := by
                intro hi hn
                cases strict with
                | false =>
                  simp only [Bool.false_eq_true, if_false] at hlen
                  omega
                | true =>
                  have hd : d ≠ 0 := fun hd => hstrict ⟨rfl, hi, hn, hd⟩
                  simp only [if_true] at hlen
                  omega
              rw [framed_named_if _ _ _ _ _ hnamed]
              have hnl := named_if_length i op s
              by_cases hinl : i ≠ 0 ∧ op.count > 1
              · rw [if_pos hinl] at hc
                rw [if_pos hinl, if_pos hinl]
                simp only [Bool.and_eq_true] at hc
                rw [ih_elems _ _ _ _ _ _ _ cf hc.1]
                apply framed_andThen
                intro s2 h2
                have e2 := dp_elems _ _ _ _ _ _ _ _ cf hc.1 h2
                rw [hnl] at e2
                exact ih_loop strict _ _ _ _ _ d _ cf hc.2 (by omega)
              · rw [if_neg hinl] at hc
                rw [if_neg hinl, if_neg hinl]
                cases hk : op.kind with
                | EcsOpPush =>
                  simp only [hk] at hc
                  dsimp only
                  rw [framed_list_push]
                  exact ih_loop strict _ _ _ _ _ (d + 1) _ cf hc
                    (by simp only [ecs_strbuf_list_push, List.length_cons]; omega)
                | EcsOpPop =>
                  simp only [hk] at hc
                  dsimp only
                  cases d with
                  | zero => simp at hc
                  | succ d =>
                    simp only at hc
                    rw [framed_list_pop _ _ _ _ (by omega)]
                    exact ih_loop strict _ _ _ _ _ d _ cf hc
                      (by simp only [ecs_strbuf_list_pop, List.length_tail]; omega)
                | EcsOpEnum =>
                  simp only [hk] at hc
                  dsimp only
                  rw [ih_op]
                  apply framed_andThen
                  intro s2 h2
                  have e2 := dp_op _ _ _ _ h2
                  rw [hnl] at e2
                  exact ih_loop strict _ _ _ _ _ d _ cf hc (by omega)
                | EcsOpBitmask =>
                  simp only [hk] at hc
                  dsimp only
                  rw [ih_op]
                  apply framed_andThen
                  intro s2 h2
                  have e2 := dp_op _ _ _ _ h2
                  rw [hnl] at e2
                  exact ih_loop strict _ _ _ _ _ d _ cf hc (by omega)
                | EcsOpArray =>
                  simp only [hk] at hc
                  dsimp only
                  rw [ih_op]
                  apply framed_andThen
                  intro s2 h2
                  have e2 := dp_op _ _ _ _ h2
                  rw [hnl] at e2
                  exact ih_loop strict _ _ _ _ _ d _ cf hc (by omega)
                | EcsOpVector =>
                  simp only [hk] at hc
                  dsimp only
                  rw [ih_op]
                  apply framed_andThen
                  intro s2 h2
                  have e2 := dp_op _ _ _ _ h2
                  rw [hnl] at e2
                  exact ih_loop strict _ _ _ _ _ d _ cf hc (by omega)
                | EcsOpEntity =>
                  simp only [hk] at hc
                  dsimp only
                  rw [ih_op]
                  apply framed_andThen
                  intro s2 h2
                  have e2 := dp_op _ _ _ _ h2
                  rw [hnl] at e2
                  exact ih_loop strict _ _ _ _ _ d _ cf hc (by omega)
                | EcsOpPrimitive subkind =>
                  simp only [hk] at hc
                  dsimp only
                  rw [ih_op]
                  apply framed_andThen
                  intro s2 h2
                  have e2 := dp_op _ _ _ _ h2
                  rw [hnl] at e2
                  exact ih_loop strict _ _ _ _ _ d _ cf hc (by omega)
        · rw [if_neg hlt, if_neg hlt]
          rfl
    · intro strict ops start op_count base s cf hc hlen
      rw [json_ser_type_ops, json_ser_type_ops]
      exact ih_loop strict _ _ _ _ _ 0 _ cf hc (by omega)

/-! ## C12 -/

/-- C12, as stated, fails when the element type of a vector has a program whose scopes
are not nested.  The program of type 9 is a single DynamicVector operation; its element
program closes the element list and then names the member `x`, so that the separator in
front of the name is the one of the caller's list scope: `ecs_ptr_to_json` returns
`[}"x": 1{]`, while `ecs_ptr_to_json_buf` on a writer holding `P` inside a list scope
with one item appends `[}, "x": 1{]`. -/
theorem entry_points_differ_unscoped_element :
    ecs_ptr_to_json 12 unscoped_element_registry single_element_memory 9 0 =
        some (some "[\x7d\"x\": 1\x7b]") ∧
      ecs_ptr_to_json_buf 12 unscoped_element_registry single_element_memory 9 0
          ⟨"P", [⟨1, ", "⟩]⟩ = .ok ⟨"P[\x7d, \"x\": 1\x7b]", [⟨2, ", "⟩]⟩ ∧
      "P[\x7d, \"x\": 1\x7b]" ≠ "P" ++ "[\x7d\"x\": 1\x7b]" := by
  refine ⟨by rfl, by rfl, by decide⟩

/-- C12 (amended): in a registry whose type programs all have properly nested scopes, for
a type whose root program has properly nested scopes and names no operation outside a
scope, every value and every caller-supplied writer holding the text `P` with the list
scopes `scopes` open: `ecs_ptr_to_json_buf` is the run on a fresh writer with `P` and
`scopes` put back; it fails exactly when `ecs_ptr_to_json` returns NULL; and when
`ecs_ptr_to_json` returns the text `T` it succeeds and leaves the writer holding exactly
`P ++ T` with the scopes `scopes`. -/
theorem ecs_ptr_to_json_buf_appends (world : ecs_world_t) (hw : registry_scoped world)
    (mem : Memory) (type : Nat) (ser : EcsMetaTypeSerialized)
    (hser : world.get_EcsMetaTypeSerialized type = some ser) (cf : Nat)
    (hroot : scope_check true cf ser.ops 0 ser.ops.length 0 0 = true)
    (ptr : Int) (P : String) (scopes : List ecs_strbuf_list_elem) (fuel : Nat) :
    ecs_ptr_to_json_buf fuel world mem type ptr ⟨P, scopes⟩ =
        framed_result P scopes
          (ecs_ptr_to_json_buf fuel world mem type ptr ECS_STRBUF_INIT) ∧
      ((∃ s, ecs_ptr_to_json_buf fuel world mem type ptr ⟨P, scopes⟩ = .error s) ↔
        ecs_ptr_to_json fuel world mem type ptr = some none) ∧
      (∀ T, ecs_ptr_to_json fuel world mem type ptr = some (some T) →
        ecs_ptr_to_json_buf fuel world mem type ptr ⟨P, scopes⟩ =
          .ok ⟨P ++ T, scopes⟩) := by
  have hrun := (framed_run world hw mem P scopes fuel).2.2.2.2.2.2.2 true ser.ops 0
    ser.ops.length ptr ECS_STRBUF_INIT cf hroot (by simp)
  have hdepth := fun s1 => (scopes_depth world hw mem fuel).2.2.2.2.2.2.2 true ser.ops 0
    ser.ops.length ptr ECS_STRBUF_INIT s1 cf hroot
  have hinit : framed_writer P scopes ECS_STRBUF_INIT = ⟨P, scopes⟩ := by
    simp [framed_writer, ECS_STRBUF_INIT]
  rw [hinit] at hrun
  have hbuf : ecs_ptr_to_json_buf fuel world mem type ptr ⟨P, scopes⟩ =
      framed_result P scopes
        (ecs_ptr_to_json_buf fuel world mem type ptr ECS_STRBUF_INIT) := by
    simp only [ecs_ptr_to_json_buf, hser, json_ser_type, hrun, framed_andThen_ok]
  refine ⟨hbuf, ?_, ?_⟩
  · rw [hbuf]
    unfold ecs_ptr_to_json
    cases ecs_ptr_to_json_buf fuel world mem type ptr ECS_STRBUF_INIT <;>
      simp [framed_result]
  · intro T hT
    rw [hbuf]
    unfold ecs_ptr_to_json at hT
    cases hr : ecs_ptr_to_json_buf fuel world mem type ptr ECS_STRBUF_INIT with
    | ok s1 =>
      rw [hr] at hT
      simp only [Option.some.injEq, ecs_strbuf_get] at hT
      simp only [ecs_ptr_to_json_buf, hser, json_ser_type] at hr
      obtain ⟨s2, h2, h3⟩ := andThen_eq_ok _ _ _ hr
      injection h3 with h3
      subst h3
      have hlen := hdepth _ h2
      simp only [ECS_STRBUF_INIT, List.length_nil, List.length_eq_zero] at hlen
      simp only [framed_result, framed_writer, hlen, hT, List.nil_append]
    | error s1 => rw [hr] at hT; simp at hT
    | abort c => rw [hr] at hT; simp at hT
    | assert_failed c => rw [hr] at hT; simp at hT
    | undefined => rw [hr] at hT; simp at hT
    | timeout => rw [hr] at hT; simp at hT

/-- C12 at the struct `(1, 2)` of the example registry, appended to a writer that holds
`pos: ` inside a list scope. -/
theorem ecs_ptr_to_json_buf_appends_witness :
    ecs_ptr_to_json 12 example_registry example_memory 3 0 =
        some (some "\x7b\"x\": 1, \"y\": 2\x7d") ∧
      ecs_ptr_to_json_buf 12 example_registry example_memory 3 0
          ⟨"pos: ", [⟨1, ", "⟩]⟩ =
        .ok ⟨"pos: " ++ "\x7b\"x\": 1, \"y\": 2\x7d", [⟨1, ", "⟩]⟩ :=
  ⟨by rfl,
    (ecs_ptr_to_json_buf_appends example_registry example_registry_scoped example_memory 3
      ⟨point_ops⟩ (by rfl) 10 (by decide) 0 "pos: " [⟨1, ", "⟩] 12).2.2 _ (by rfl)⟩

/-! ## Termination of the program walk -/

theorem halts_andThen (r : Result) (k : ecs_strbuf_t → Result) (hr : r.halts = true)
    (hk : ∀ s, r = .ok s → (k s).halts = true) : (r.andThen k).halts = true := by
  cases r with
  | ok s => exact hk s rfl
  | error s => rfl
  | abort c => rfl
  | assert_failed c => rfl
  | undefined => simp [Result.halts] at hr
  | timeout => simp [Result.halts] at hr

theorem json_ser_enum_halts (world : ecs_world_t) (mem : Memory) (op : ecs_meta_type_op_t)
    (base : Int) (str : ecs_strbuf_t) : (json_ser_enum world mem op base str).halts = true := by
  unfold json_ser_enum
  split
  · rfl
  · dsimp only
    split <;> rfl

theorem json_ser_bitmask_halts (world : ecs_world_t) (mem : Memory)
    (op : ecs_meta_type_op_t) (ptr : Int) (str : ecs_strbuf_t) :
    (json_ser_bitmask world mem op ptr str).halts = true := by
  unfold json_ser_bitmask
  split
  · rfl
  · dsimp only
    split
    · rfl
    · split <;> rfl

theorem json_ser_type_op_halts (fuel : Nat) (world : ecs_world_t) (mem : Memory)
    (op : ecs_meta_type_op_t) (ptr : Int) (str : ecs_strbuf_t)
    (ha : op.kind ≠ EcsOpArray) (hv : op.kind ≠ EcsOpVector) :
    (json_ser_type_op (fuel + 1) world mem op ptr str).halts = true := by
  rw [json_ser_type_op]
  cases hk : op.kind with
  | EcsOpPush => rfl
  | EcsOpPop => rfl
  | EcsOpEnum => exact halts_andThen _ _ (json_ser_enum_halts _ _ _ _ _) (fun _ _ => rfl)
  | EcsOpBitmask =>
    exact halts_andThen _ _ (json_ser_bitmask_halts _ _ _ _ _) (fun _ _ => rfl)
  | EcsOpArray => exact absurd hk ha
  | EcsOpVector => exact absurd hk hv
  | EcsOpEntity =>
    dsimp only
    split
    · rfl
    · split <;> rfl
  | EcsOpPrimitive subkind =>
    dsimp only
    split <;> rfl

theorem json_ser_elements_loop_halts (world : ecs_world_t) (mem : Memory)
    (ops : List ecs_meta_type_op_t) (start op_count elem_count elem_size : Int) (M : Nat)
    (hops : ∀ fuel, M ≤ fuel → ∀ base str,
      (json_ser_type_ops fuel world mem ops start op_count base str).halts = true)
    (k : Nat) :
    ∀ fuel, M + k + 1 ≤ fuel → ∀ i ptr str, elem_count - i ≤ k →
      (json_ser_elements_loop fuel world mem ops start op_count ptr elem_count elem_size
        i str).halts = true := by
  induction k with
  | zero =>
    intro fuel hf i ptr str hi
    obtain ⟨f, rfl⟩ : ∃ f, fuel = f + 1 := ⟨fuel - 1, by omega⟩
    rw [json_ser_elements_loop, if_neg (by omega)]
    rfl
  | succ k ih =>
    intro fuel hf i ptr str hi
    obtain ⟨f, rfl⟩ : ∃ f, fuel = f + 1 := ⟨fuel - 1, by omega⟩
    rw [json_ser_elements_loop]
    split
    · exact halts_andThen _ _ (hops f (by omega) _ _)
        (fun s _ => ih f (by omega) _ _ _ (by push_cast at hi; omega))
    · rfl

theorem json_ser_elements_halts (world : ecs_world_t) (mem : Memory)
    (ops : List ecs_meta_type_op_t) (start op_count elem_count elem_size : Int) (M : Nat)
    (hops : ∀ fuel, M ≤ fuel → ∀ base str,
      (json_ser_type_ops fuel world mem ops start op_count base str).halts = true)
    (fuel : Nat) (hf : M + elem_count.toNat + 2 ≤ fuel) (base : Int) (str : ecs_strbuf_t) :
    (json_ser_elements fuel world mem ops start op_count base elem_count elem_size
      str).halts = true := by
  obtain ⟨f, rfl⟩ : ∃ f, fuel = f + 1 := ⟨fuel - 1, by omega⟩
  rw [json_ser_elements]
  exact json_ser_elements_loop_halts world mem ops start op_count elem_count elem_size M
    hops elem_count.toNat f (by omega) 0 _ _ (by omega)

theorem op_at_inside (ops : List ecs_meta_type_op_t) (j : Int) (h0 : 0 ≤ j)
    (h1 : j < ops.length) : ∃ op, op_at ops j = some op := by
  unfold op_at
  rw [if_pos h0]
  have hlt : j.toNat < ops.length := by omega
  exact ⟨ops.get ⟨j.toNat, hlt⟩, List.get?_eq_get hlt⟩

theorem walk_slice_inside (ops : List ecs_meta_type_op_t) (h : inline_arrays_bounded ops)
    (start len : Int) (hs : walk_slice ops start len) :
    0 ≤ start ∧ 0 ≤ len ∧ start + len ≤ ops.length := by
  induction hs with
  | root => simp
  | nested start len i op hs hi hlt hop hcount ih =>
    have hb := h.2 start len hs i op hi hlt hop hcount
    omega

/-- One iteration of the walk comes to an end when the element runs of an inline array at
the cursor do and the walk from every later cursor position does. -/
theorem json_ser_type_ops_loop_halts_step (fuel : Nat) (world : ecs_world_t) (mem : Memory)
    (ops : List ecs_meta_type_op_t) (start op_count base i : Int) (str : ecs_strbuf_t)
    (op : ecs_meta_type_op_t) (hop : op_at ops (start + i) = some op)
    (ha : op.kind ≠ EcsOpArray) (hv : op.kind ≠ EcsOpVector) (hfuel : 1 ≤ fuel)
    (helem : i ≠ 0 ∧ op.count > 1 → 1 ≤ op.op_count ∧ ∀ s,
      (json_ser_elements fuel world mem ops (start + i) op.op_count base op.count op.size
        s).halts = true)
    (hnext : ∀ j s, i < j →
      (json_ser_type_ops_loop fuel world mem ops start op_count base j s).halts = true) :
    (json_ser_type_ops_loop (fuel + 1) world mem ops start op_count base i str).halts
      = true := by
  rw [json_ser_type_ops_loop_step]
  split
  · rw [hop]
    dsimp only
    by_cases hinl : i ≠ 0 ∧ op.count > 1
    · rw [if_pos hinl]
      exact halts_andThen _ _ ((helem hinl).2 _)
        (fun s _ => hnext _ s (by have := (helem hinl).1; omega))
    · rw [if_neg hinl]
      obtain ⟨f, rfl⟩ : ∃ f, fuel = f + 1 := ⟨fuel - 1, by omega⟩
      cases hk : op.kind with
      | EcsOpPush => exact hnext _ _ (by omega)
      | EcsOpPop => exact hnext _ _ (by omega)
      | EcsOpEnum =>
        exact halts_andThen _ _ (json_ser_type_op_halts f world mem op base _ ha hv)
          (fun s _ => hnext _ s (by omega))
      | EcsOpBitmask =>
        exact halts_andThen _ _ (json_ser_type_op_halts f world mem op base _ ha hv)
          (fun s _ => hnext _ s (by omega))
      | EcsOpArray => exact absurd hk ha
      | EcsOpVector => exact absurd hk hv
      | EcsOpEntity =>
        exact halts_andThen _ _ (json_ser_type_op_halts f world mem op base _ ha hv)
          (fun s _ => hnext _ s (by omega))
      | EcsOpPrimitive subkind =>
        exact halts_andThen _ _ (json_ser_type_op_halts f world mem op base _ ha hv)
          (fun s _ => hnext _ s (by omega))
  · rfl

/-- The walk of a slice of a program with bounded inline arrays comes to an end from every
cursor position, given enough fuel; the fuel needed depends on the program alone. -/
theorem json_ser_type_ops_loop_halts (ops : List ecs_meta_type_op_t)
    (h : inline_arrays_bounded ops) (n : Nat) :
    ∀ start len, walk_slice ops start len → len ≤ n →
      ∃ N, ∀ fuel, N ≤ fuel → ∀ world mem base i str, 0 ≤ i →
        (json_ser_type_ops_loop fuel world mem ops start len base i str).halts = true := by
  induction n with
  | zero =>
    intro start len hs hlen
    refine ⟨1, ?_⟩
    intro fuel hf world mem base i str hi
    obtain ⟨f, rfl⟩ : ∃ f, fuel = f + 1 := ⟨fuel - 1, by omega⟩
    rw [json_ser_type_ops_loop_step, if_neg (by push_cast at hlen; omega)]
    rfl
  | succ n ih =>
    intro start len hs hlen
    have hin := walk_slice_inside ops h start len hs
    have inner : ∀ r : Nat, ∃ N, 1 ≤ N ∧ ∀ fuel, N ≤ fuel → ∀ world mem base i str,
        0 ≤ i → len - i ≤ r →
        (json_ser_type_ops_loop fuel world mem ops start len base i str).halts = true := by
      intro r
      induction r with
      | zero =>
        refine ⟨1, le_refl _, ?_⟩
        intro fuel hf world mem base i str hi hr
        obtain ⟨f, rfl⟩ : ∃ f, fuel = f + 1 := ⟨fuel - 1, by omega⟩
        rw [json_ser_type_ops_loop_step, if_neg (by push_cast at hr; omega)]
        rfl
      | succ r ihr =>
        obtain ⟨Nr, hNr1, hNr⟩ := ihr
        by_cases hi0 : 0 ≤ len - (r + 1 : Nat)
        · obtain ⟨op, hop⟩ := op_at_inside ops (start + (len - (r + 1 : Nat)))
            (by omega) (by push_cast at hi0 ⊢; omega)
          have hkind := h.1 op (op_at_mem _ _ _ hop)
          by_cases hinl : len - (r + 1 : Nat) ≠ 0 ∧ op.count > 1
          · have hb := h.2 start len hs _ op (by omega) (by push_cast; omega) hop hinl.2
            obtain ⟨M, hM⟩ := ih (start + (len - (r + 1 : Nat))) op.op_count
              (walk_slice.nested start len _ op hs (by omega) (by push_cast; omega) hop
                hinl.2)
              (by push_cast at hlen hi0 hb ⊢; omega)
            refine ⟨max (M + 1 + op.count.toNat + 2) Nr + 1, by omega, ?_⟩
            intro fuel hf world mem base i str hi hr
            by_cases hlast : len - i ≤ r
            · exact hNr fuel (by omega) world mem base i str hi hlast
            · have hi_eq : i = len - (r + 1 : Nat) := by push_cast at hr ⊢; omega
              subst hi_eq
              obtain ⟨f, rfl⟩ : ∃ f, fuel = f + 1 := ⟨fuel - 1, by omega⟩
              refine json_ser_type_ops_loop_halts_step f world mem ops start len base _ str
                op hop hkind.1 hkind.2 (by omega) ?_ ?_
              · intro _
                refine ⟨hb.1, fun s => ?_⟩
                refine json_ser_elements_halts world mem ops _ _ _ _ (M + 1) ?_ f
                  (by omega) base s
                intro g hg b s2
                obtain ⟨g1, rfl⟩ : ∃ g1, g = g1 + 1 := ⟨g - 1, by omega⟩
                rw [json_ser_type_ops]
                exact hM g1 (by omega) world mem b 0 s2 (le_refl _)
              · intro j s hj
                exact hNr f (by omega) world mem base j s (by omega)
                  (by push_cast at hj ⊢; omega)
          · refine ⟨Nr + 2, by omega, ?_⟩
            intro fuel hf world mem base i str hi hr
            by_cases hlast : len - i ≤ r
            · exact hNr fuel (by omega) world mem base i str hi hlast
            · have hi_eq : i = len - (r + 1 : Nat) := by push_cast at hr ⊢; omega
              subst hi_eq
              obtain ⟨f, rfl⟩ : ∃ f, fuel = f + 1 := ⟨fuel - 1, by omega⟩
              refine json_ser_type_ops_loop_halts_step f world mem ops start len base _ str
                op hop hkind.1 hkind.2 (by omega) (fun hc => absurd hc hinl) ?_
              intro j s hj
              exact hNr f (by omega) world mem base j s (by omega)
                (by push_cast at hj ⊢; omega)
        · refine ⟨Nr, hNr1, ?_⟩
          intro fuel hf world mem base i str hi hr
          exact hNr fuel hf world mem base i str hi (by push_cast at hi0 hr ⊢; omega)
    obtain ⟨N, -, hN⟩ := inner len.toNat
    exact ⟨N, fun fuel hf world mem base i str hi =>
      hN fuel hf world mem base i str hi (by omega)⟩

/-- The element loop on an empty sub-program returns successfully or runs out of fuel. -/
theorem json_ser_elements_loop_empty_slice (fuel : Nat) (world : ecs_world_t) (mem : Memory)
    (ops : List ecs_meta_type_op_t) (start ptr elem_count elem_size i : Int)
    (str : ecs_strbuf_t) :
    (∃ s, json_ser_elements_loop fuel world mem ops start 0 ptr elem_count elem_size i str
        = .ok s) ∨
      json_ser_elements_loop fuel world mem ops start 0 ptr elem_count elem_size i str
        = .timeout := by
  induction fuel generalizing ptr i str with
  | zero => right; rfl
  | succ fuel ih =>
    rw [json_ser_elements_loop]
    split
    · dsimp only
      cases fuel with
      | zero => right; rfl
      | succ g =>
        rw [json_ser_type_ops]
        cases g with
        | zero => right; rfl
        | succ g2 =>
          rw [json_ser_type_ops_loop_step, if_neg (by omega)]
          exact ih _ _ _
    · left; exact ⟨_, rfl⟩

/-- An inline array whose sub-program length is 0 stalls the walk: from its cursor
position the walk runs out of fuel, whatever the fuel. -/
theorem json_ser_type_ops_loop_stalled (world : ecs_world_t) (mem : Memory)
    (ops : List ecs_meta_type_op_t) (start op_count base i : Int)
    (op : ecs_meta_type_op_t) (hop : op_at ops (start + i) = some op) (hlt : i < op_count)
    (hi : i ≠ 0) (hcount : op.count > 1) (hoc : op.op_count = 0) (fuel : Nat) :
    ∀ str, json_ser_type_ops_loop fuel world mem ops start op_count base i str
      = .timeout := by
  induction fuel with
  | zero => intro str; rfl
  | succ fuel ih =>
    intro str
    rw [json_ser_type_ops_loop_step, if_pos hlt, hop]
    dsimp only
    rw [if_pos ⟨hi, hcount⟩]
    have hcur : i + (op.op_count - 1) + 1 = i := by omega
    rw [hcur, hoc]
    cases fuel with
    | zero => rfl
    | succ g =>
      rw [json_ser_elements]
      rcases json_ser_elements_loop_empty_slice g world mem ops (start + i) base op.count
        op.size 0 (ecs_strbuf_list_push (if i ≠ 0 then named_writer op str else str)
          "[" ", ") with ⟨s, hs⟩ | hs
      · rw [hs]
        exact ih s
      · rw [hs]
        rfl

/-- The slices of the struct with an inline array member: the program itself and the
one-operation sub-program of the member `a`. -/
theorem walk_slice_array_struct_ops (start len : Int)
    (hs : walk_slice array_struct_ops start len) :
    (start = 0 ∧ len = 4) ∨ (start = 1 ∧ len = 1) := by
  induction hs with
  | root => left; exact ⟨rfl, rfl⟩
  | nested start len i op hs hi hlt hop hcount ih =>
    rcases ih with ⟨rfl, rfl⟩ | ⟨rfl, rfl⟩
    · have h3 : i = 1 ∨ i = 2 ∨ i = 3 := by omega
      rcases h3 with rfl | rfl | rfl
      · have e : op = int32_array_member "a" 32 3 1 := by
          have : op_at array_struct_ops (0 + 1) = some (int32_array_member "a" 32 3 1) := rfl
          rw [this] at hop
          exact (Option.some.inj hop).symm
        subst e
        right
        exact ⟨rfl, rfl⟩
      · have e : op = int32_member "y" 4 := by
          have : op_at array_struct_ops (0 + 2) = some (int32_member "y" 4) := rfl
          rw [this] at hop
          exact (Option.some.inj hop).symm
        subst e
        exact absurd hcount (by decide)
      · have e : op = pop_op := by
          have : op_at array_struct_ops (0 + 3) = some pop_op := rfl
          rw [this] at hop
          exact (Option.some.inj hop).symm
        subst e
        exact absurd hcount (by decide)
    · omega

/-- The struct with an inline array member has bounded inline arrays. -/
theorem array_struct_ops_bounded : inline_arrays_bounded array_struct_ops := by
  refine ⟨by decide, ?_⟩
  intro start len hs i op hi hlt hop hcount
  rcases walk_slice_array_struct_ops start len hs with ⟨rfl, rfl⟩ | ⟨rfl, rfl⟩
  · have h3 : i = 1 ∨ i = 2 ∨ i = 3 := by omega
    rcases h3 with rfl | rfl | rfl
    · have : op_at array_struct_ops (0 + 1) = some (int32_array_member "a" 32 3 1) := rfl
      rw [this] at hop
      obtain rfl := Option.some.inj hop
      decide
    · have : op_at array_struct_ops (0 + 2) = some (int32_member "y" 4) := rfl
      rw [this] at hop
      obtain rfl := Option.some.inj hop
      exact absurd hcount (by decide)
    · have : op_at array_struct_ops (0 + 3) = some pop_op := rfl
      rw [this] at hop
      obtain rfl := Option.some.inj hop
      exact absurd hcount (by decide)
  · omega

/-! ## C20 -/

/-- C20: termination of the program walk.  For a program without FixedArray/DynamicVector
operations in which every operation at an index `i ≥ 1` of its slice with
elementCount > 1 has `1 ≤ subProgramLength` and `i + subProgramLength ≤` the slice
length: (1) `json_ser_type_ops` is total: with enough fuel (a bound that depends on the
program alone) it comes to an end for every registry, buffer, base address and writer,
without reading outside the operation array; (2) every slice walked lies inside the
program, every index of it reads an operation, an inline array moves the cursor from `i`
to `i + subProgramLength > i` and runs its elements on a strictly shorter slice, and any
other operation moves the cursor to `i + 1`; (3) in any program, an operation at an index
`i ≥ 1` with elementCount > 1 and subProgramLength 0 leaves the cursor at `i`, and the
walk from there never comes to an end. -/
theorem json_ser_type_ops_terminates (ops : List ecs_meta_type_op_t)
    (h : inline_arrays_bounded ops) :
    (∃ N, ∀ fuel, N ≤ fuel → ∀ world mem base str,
      (json_ser_type_ops fuel world mem ops 0 ops.length base str).halts = true) ∧
    (∀ start len, walk_slice ops start len →
      0 ≤ start ∧ start + len ≤ ops.length ∧
      ∀ i, 0 ≤ i → i < len → ∃ op, op_at ops (start + i) = some op ∧
        (i ≠ 0 ∧ op.count > 1 →
          i < i + op.op_count ∧ i + op.op_count ≤ len ∧ op.op_count < len ∧
          walk_slice ops (start + i) op.op_count ∧
          ∀ fuel world mem base str,
            json_ser_type_ops_loop (fuel + 1) world mem ops start len base i str =
              (json_ser_elements fuel world mem ops (start + i) op.op_count base op.count
                op.size (if i ≠ 0 then named_writer op str else str)).andThen fun s =>
                  json_ser_type_ops_loop fuel world mem ops start len base
                    (i + op.op_count) s) ∧
        (¬(i ≠ 0 ∧ op.count > 1) →
          ∀ fuel world mem base str,
            json_ser_type_ops_loop (fuel + 1) world mem ops start len base i str =
              (match op.kind with
                | EcsOpPush =>
                  Result.ok (ecs_strbuf_list_push (if i ≠ 0 then named_writer op str else str)
                    "\x7b" ", ")
                | EcsOpPop =>
                  Result.ok (ecs_strbuf_list_pop (if i ≠ 0 then named_writer op str else str)
                    "\x7d")
                | _ =>
                  json_ser_type_op fuel world mem op base
                    (if i ≠ 0 then named_writer op str else str)).andThen fun s =>
                json_ser_type_ops_loop fuel world mem ops start len base (i + 1) s)) ∧
    (∀ (prog : List ecs_meta_type_op_t) (start len i : Int) (op : ecs_meta_type_op_t),
      op_at prog (start + i) = some op → i < len → i ≠ 0 → op.count > 1 →
      op.op_count = 0 →
      ∀ fuel world mem base str,
        json_ser_type_ops_loop (fuel + 1) world mem prog start len base i str =
          ((json_ser_elements fuel world mem prog (start + i) 0 base op.count op.size
            (if i ≠ 0 then named_writer op str else str)).andThen fun s =>
              json_ser_type_ops_loop fuel world mem prog start len base i s) ∧
        json_ser_type_ops_loop fuel world mem prog start len base i str = .timeout) := by
  refine ⟨?_, ?_, ?_⟩
  · obtain ⟨N, hN⟩ := json_ser_type_ops_loop_halts ops h ops.length 0 ops.length
      walk_slice.root (le_refl _)
    refine ⟨N + 1, ?_⟩
    intro fuel hf world mem base str
    obtain ⟨f, rfl⟩ : ∃ f, fuel = f + 1 := ⟨fuel - 1, by omega⟩
    rw [json_ser_type_ops]
    exact hN f (by omega) world mem base 0 str (le_refl _)
  · intro start len hs
    have hin := walk_slice_inside ops h start len hs
    refine ⟨hin.1, hin.2.2, ?_⟩
    intro i hi hlt
    obtain ⟨op, hop⟩ := op_at_inside ops (start + i) (by omega) (by omega)
    refine ⟨op, hop, ?_, ?_⟩
    · intro hinl
      have hb := h.2 start len hs i op (by omega) hlt hop hinl.2
      refine ⟨by omega, hb.2, by omega,
        walk_slice.nested start len i op hs (by omega) hlt hop hinl.2, ?_⟩
      intro fuel world mem base str
      rw [json_ser_type_ops_loop_step, if_pos hlt, hop]
      dsimp only
      rw [if_pos hinl]
      have hcur : i + (op.op_count - 1) + 1 = i + op.op_count := by omega
      rw [hcur]
    · intro hinl fuel world mem base str
      rw [json_ser_type_ops_loop_step, if_pos hlt, hop]
      dsimp only
      rw [if_neg hinl]
      cases hk : op.kind <;> rfl
  · intro prog start len i op hop hlt hi hcount hoc fuel world mem base str
    refine ⟨?_, json_ser_type_ops_loop_stalled world mem prog start len base i op hop hlt
      hi hcount hoc fuel str⟩
    rw [json_ser_type_ops_loop_step, if_pos hlt, hop]
    dsimp only
    rw [if_pos ⟨hi, hcount⟩]
    have hcur : i + (op.op_count - 1) + 1 = i := by omega
    rw [hcur, hoc]

/-- C20 at the struct with an inline array member: its walk is total; and at the struct
whose inline array has a sub-program length of 0: the walk from the array's cursor
position runs out of any fuel. -/
theorem json_ser_type_ops_terminates_witness :
    inline_arrays_bounded array_struct_ops ∧
      (∃ N, ∀ fuel, N ≤ fuel → ∀ world mem base str,
        (json_ser_type_ops fuel world mem array_struct_ops 0 array_struct_ops.length base
          str).halts = true) ∧
      ∀ fuel, json_ser_type_ops_loop fuel example_world example_memory stalled_array_ops
        0 3 0 1 ECS_STRBUF_INIT = .timeout :=
  ⟨array_struct_ops_bounded,
    (json_ser_type_ops_terminates array_struct_ops array_struct_ops_bounded).1,
    fun fuel =>
      ((json_ser_type_ops_terminates array_struct_ops array_struct_ops_bounded).2.2
        stalled_array_ops 0 3 1 (int32_array_member "a" 32 3 0) (by rfl) (by decide)
        (by decide) (by decide) (by rfl) fuel example_world example_memory 0
        ECS_STRBUF_INIT).2⟩

/-! ## Fuel -/

theorem andThen_fuel (r r1 : Result) (k k1 : ecs_strbuf_t → Result)
    (h : r.andThen k ≠ .timeout) (hr : r ≠ .timeout → r1 = r)
    (hk : ∀ s, r = .ok s → k s ≠ .timeout → k1 s = k s) :
    r1.andThen k1 = r.andThen k := by
  cases r with
  | ok s =>
    rw [hr (by simp)]
    exact hk s rfl h
  | error s => rw [hr (by simp)]; rfl
  | abort c => rw [hr (by simp)]; rfl
  | assert_failed c => rw [hr (by simp)]; rfl
  | undefined => rw [hr (by simp)]; rfl
  | timeout => exact absurd rfl h

/-- More fuel does not change the outcome of a call that did not run out of fuel. -/
theorem fuel_succ (world : ecs_world_t) (mem : Memory) (fuel : Nat) :
    (∀ ops start op_count ptr elem_count elem_size i s,
      json_ser_elements_loop fuel world mem ops start op_count ptr elem_count elem_size i s
        ≠ .timeout →
      json_ser_elements_loop (fuel + 1) world mem ops start op_count ptr elem_count
          elem_size i s =
        json_ser_elements_loop fuel world mem ops start op_count ptr elem_count elem_size
          i s) ∧
    (∀ ops start op_count base elem_count elem_size s,
      json_ser_elements fuel world mem ops start op_count base elem_count elem_size s
        ≠ .timeout →
      json_ser_elements (fuel + 1) world mem ops start op_count base elem_count elem_size s =
        json_ser_elements fuel world mem ops start op_count base elem_count elem_size s) ∧
    (∀ type base elem_count s,
      json_ser_type_elements fuel world mem type base elem_count s ≠ .timeout →
      json_ser_type_elements (fuel + 1) world mem type base elem_count s =
        json_ser_type_elements fuel world mem type base elem_count s) ∧
    (∀ op ptr s, json_ser_array fuel world mem op ptr s ≠ .timeout →
      json_ser_array (fuel + 1) world mem op ptr s = json_ser_array fuel world mem op ptr s) ∧
    (∀ op base s, json_ser_vector fuel world mem op base s ≠ .timeout →
      json_ser_vector (fuel + 1) world mem op base s =
        json_ser_vector fuel world mem op base s) ∧
    (∀ op ptr s, json_ser_type_op fuel world mem op ptr s ≠ .timeout →
      json_ser_type_op (fuel + 1) world mem op ptr s =
        json_ser_type_op fuel world mem op ptr s) ∧
    (∀ ops start op_count base i s,
      json_ser_type_ops_loop fuel world mem ops start op_count base i s ≠ .timeout →
      json_ser_type_ops_loop (fuel + 1) world mem ops start op_count base i s =
        json_ser_type_ops_loop fuel world mem ops start op_count base i s) ∧
    (∀ ops start op_count base s,
      json_ser_type_ops fuel world mem ops start op_count base s ≠ .timeout →
      json_ser_type_ops (fuel + 1) world mem ops start op_count base s =
        json_ser_type_ops fuel world mem ops start op_count base s) := by
  induction fuel with
  | zero =>
    refine ⟨?_, ?_, ?_, ?_, ?_, ?_, ?_, ?_⟩ <;> intros <;>
      simp_all [json_ser_elements_loop, json_ser_elements, json_ser_type_elements,
        json_ser_array, json_ser_vector, json_ser_type_op, json_ser_type_ops_loop,
        json_ser_type_ops]
  | succ fuel ih =>
    obtain ⟨ih_eloop, ih_elems, ih_telems, ih_array, ih_vector, ih_op, ih_loop, ih_ops⟩ := ih
    refine ⟨?_, ?_, ?_, ?_, ?_, ?_, ?_, ?_⟩
    · intro ops start op_count ptr elem_count elem_size i s h
      rw [json_ser_elements_loop] at h
      rw [json_ser_elements_loop, json_ser_elements_loop]
      by_cases hlt : i < elem_count
      · rw [if_pos hlt] at h
        rw [if_pos hlt, if_pos hlt]
        exact andThen_fuel _ _ _ _ h (ih_ops _ _ _ _ _) (fun s2 _ h2 => ih_eloop _ _ _ _ _ _ _ _ h2)
      · rw [if_neg hlt, if_neg hlt]
    · intro ops start op_count base elem_count elem_size s h
      rw [json_ser_elements] at h
      rw [json_ser_elements, json_ser_elements]
      exact ih_eloop _ _ _ _ _ _ _ _ h
    · intro type base elem_count s h
      rw [json_ser_type_elements] at h
      rw [json_ser_type_elements, json_ser_type_elements]
      cases hser : world.get_EcsMetaTypeSerialized type with
      | none => rfl
      | some ser =>
        cases hcomp : world.get_EcsComponent type with
        | none => rfl
        | some comp =>
          rw [hser, hcomp] at h
          exact ih_elems _ _ _ _ _ _ _ h
    · intro op ptr s h
      rw [json_ser_array] at h
      rw [json_ser_array, json_ser_array]
      cases ha : world.get_EcsArray op.type with
      | none => rfl
      | some a =>
        rw [ha] at h
        exact ih_telems _ _ _ _ h
    · intro op base s h
      rw [json_ser_vector] at h
      rw [json_ser_vector, json_ser_vector]
      cases hv : mem.vector base with
      | none => rfl
      | some value =>
        rw [hv] at h
        cases hvt : world.get_EcsVector op.type with
        | none => rfl
        | some v =>
          rw [hvt] at h
          dsimp only at h ⊢
          cases hcomp : world.get_EcsComponent v.type with
          | none => rfl
          | some comp =>
            rw [hcomp] at h
            exact ih_telems _ _ _ _ h
    · intro op ptr s h
      rw [json_ser_type_op] at h
      rw [json_ser_type_op, json_ser_type_op]
      cases hk : op.kind with
      | EcsOpPush => rfl
      | EcsOpPop => rfl
      | EcsOpEnum => rfl
      | EcsOpBitmask => rfl
      | EcsOpArray =>
        rw [hk] at h
        exact andThen_fuel _ _ _ _ h (ih_array _ _ _) (fun _ _ _ => rfl)
      | EcsOpVector =>
        rw [hk] at h
        exact andThen_fuel _ _ _ _ h (ih_vector _ _ _) (fun _ _ _ => rfl)
      | EcsOpEntity => rfl
      | EcsOpPrimitive subkind => rfl
    · intro ops start op_count base i s h
      rw [json_ser_type_ops_loop_step fuel world mem ops start op_count base i s] at h
      rw [json_ser_type_ops_loop_step (fuel + 1) world mem ops start op_count base i s,
        json_ser_type_ops_loop_step fuel world mem ops start op_count base i s]
      by_cases hlt : i < op_count
      · rw [if_pos hlt] at h
        rw [if_pos hlt, if_pos hlt]
        cases hop : op_at ops (start + i) with
        | none => rfl
        | some op =>
          rw [hop] at h
          dsimp only at h ⊢
          by_cases hinl : i ≠ 0 ∧ op.count > 1
          · rw [if_pos hinl] at h
            rw [if_pos hinl, if_pos hinl]
            exact andThen_fuel _ _ _ _ h (ih_elems _ _ _ _ _ _ _)
              (fun s2 _ h2 => ih_loop _ _ _ _ _ _ h2)
          · rw [if_neg hinl] at h
            rw [if_neg hinl, if_neg hinl]
            cases hk : op.kind with
            | EcsOpPush => rw [hk] at h; exact ih_loop _ _ _ _ _ _ h
            | EcsOpPop => rw [hk] at h; exact ih_loop _ _ _ _ _ _ h
            | EcsOpEnum =>
              rw [hk] at h
              exact andThen_fuel _ _ _ _ h (ih_op _ _ _)
                (fun s2 _ h2 => ih_loop _ _ _ _ _ _ h2)
            | EcsOpBitmask =>
              rw [hk] at h
              exact andThen_fuel _ _ _ _ h (ih_op _ _ _)
                (fun s2 _ h2 => ih_loop _ _ _ _ _ _ h2)
            | EcsOpArray =>
              rw [hk] at h
              exact andThen_fuel _ _ _ _ h (ih_op _ _ _)
                (fun s2 _ h2 => ih_loop _ _ _ _ _ _ h2)
            | EcsOpVector =>
              rw [hk] at h
              exact andThen_fuel _ _ _ _ h (ih_op _ _ _)
                (fun s2 _ h2 => ih_loop _ _ _ _ _ _ h2)
            | EcsOpEntity =>
              rw [hk] at h
              exact andThen_fuel _ _ _ _ h (ih_op _ _ _)
                (fun s2 _ h2 => ih_loop _ _ _ _ _ _ h2)
            | EcsOpPrimitive subkind =>
              rw [hk] at h
              exact andThen_fuel _ _ _ _ h (ih_op _ _ _)
                (fun s2 _ h2 => ih_loop _ _ _ _ _ _ h2)
      · rw [if_neg hlt, if_neg hlt]
    · intro ops start op_count base s h
      rw [json_ser_type_ops] at h
      rw [json_ser_type_ops, json_ser_type_ops]
      exact ih_loop _ _ _ _ _ _ h

/-- A successful run of `json_ser_type_ops` is the same with any larger fuel. -/
theorem json_ser_type_ops_fuel_le (world : ecs_world_t) (mem : Memory)
    (ops : List ecs_meta_type_op_t) (start op_count base : Int) (s s1 : ecs_strbuf_t)
    (F : Nat) (h : json_ser_type_ops F world mem ops start op_count base s = .ok s1)
    (fuel : Nat) (hfuel : F ≤ fuel) :
    json_ser_type_ops fuel world mem ops start op_count base s = .ok s1 := by
  induction fuel with
  | zero =>
    have : F = 0 := by omega
    subst this
    exact h
  | succ fuel ih =>
    by_cases hF : F = fuel + 1
    · subst hF
      exact h
    · have h1 := ih (by omega)
      rw [(fuel_succ world mem fuel).2.2.2.2.2.2.2 ops start op_count base s
        (by rw [h1]; simp), h1]

/-! ## Element runs from the run on a fresh writer -/

/-- A bound that works for every index below `n`, from one bound per index. -/
theorem exists_common_fuel (n : Nat) (Q : Nat → Nat → Prop)
    (hmono : ∀ k F G, F ≤ G → Q k F → Q k G) (h : ∀ k, k < n → ∃ F, Q k F) :
    ∃ F, ∀ k, k < n → Q k F := by
  induction n with
  | zero => exact ⟨0, fun k hk => absurd hk (by omega)⟩
  | succ n ih =>
    obtain ⟨F, hF⟩ := ih (fun k hk => h k (by omega))
    obtain ⟨G, hG⟩ := h n (by omega)
    refine ⟨max F G, fun k hk => ?_⟩
    by_cases hkn : k = n
    · subst hkn
      exact hmono _ _ _ (le_max_right _ _) hG
    · exact hmono _ _ _ (le_max_left _ _) (hF k (by omega))

/-- On a slice with properly nested scopes that names no operation outside a scope, a run
that succeeds on a fresh writer with the text `s1.content` succeeds from every writer, with
any larger fuel: it appends that text and leaves the list scopes as they were. -/
theorem json_ser_type_ops_of_fresh (world : ecs_world_t) (hw : registry_scoped world)
    (mem : Memory) (ops : List ecs_meta_type_op_t) (start op_count base : Int) (cf : Nat)
    (hc : scope_check true cf ops start op_count 0 0 = true) (F : Nat) (s1 : ecs_strbuf_t)
    (h : json_ser_type_ops F world mem ops start op_count base ECS_STRBUF_INIT = .ok s1)
    (w : ecs_strbuf_t) (fuel : Nat) (hfuel : F ≤ fuel) :
    json_ser_type_ops fuel world mem ops start op_count base w =
      .ok ⟨w.content ++ s1.content, w.list_stack⟩ := by
  have h1 := json_ser_type_ops_fuel_le world mem ops start op_count base _ _ F h fuel hfuel
  have hlen := (scopes_depth world hw mem fuel).2.2.2.2.2.2.2 true ops start op_count base
    ECS_STRBUF_INIT s1 cf hc h1
  simp only [ECS_STRBUF_INIT, List.length_nil, List.length_eq_zero] at hlen
  have hrun := (framed_run world hw mem w.content w.list_stack fuel).2.2.2.2.2.2.2 true ops
    start op_count base ECS_STRBUF_INIT cf hc (by simp)
  have hinit : framed_writer w.content w.list_stack ECS_STRBUF_INIT = w := by
    simp [framed_writer, ECS_STRBUF_INIT]
  rw [hinit, h1] at hrun
  rw [hrun]
  simp only [framed_result, framed_writer, hlen, List.nil_append]

/-- `json_ser_elements` on `n` elements at `p`, `p + s`, ..., of a slice with properly
nested scopes that names no operation outside a scope: when the run on element `k`
succeeds on a fresh writer with the text `e k`, the call succeeds from every writer, with
enough fuel, and appends `[`, the texts separated by `, `, and `]`. -/
theorem json_ser_elements_of_fresh (world : ecs_world_t) (hw : registry_scoped world)
    (mem : Memory) (ops : List ecs_meta_type_op_t) (start op_count : Int) (cf : Nat)
    (hc : scope_check true cf ops start op_count 0 0 = true) (p s : Int) (n : Nat)
    (e : Nat → String)
    (helem : ∀ k, k < n → ∃ F s1,
      json_ser_type_ops F world mem ops start op_count (p + k * s) ECS_STRBUF_INIT
        = .ok s1 ∧ s1.content = e k) :
    ∃ N, ∀ fuel, N ≤ fuel → ∀ str,
      json_ser_elements fuel world mem ops start op_count p n s str =
        .ok ⟨str.content ++ ("[" ++ String.intercalate ", " ((List.range n).map e) ++ "]"),
          str.list_stack⟩ := by
  obtain ⟨F, hF⟩ := exists_common_fuel n
    (fun k F => ∀ w fuel, F ≤ fuel →
      json_ser_type_ops fuel world mem ops start op_count (p + k * s) w =
        .ok ⟨w.content ++ e k, w.list_stack⟩)
    (fun k F G hFG hQ w fuel hfuel => hQ w fuel (by omega))
    (fun k hk => by
      obtain ⟨F, s1, h1, h2⟩ := helem k hk
      refine ⟨F, fun w fuel hfuel => ?_⟩
      rw [← h2]
      exact json_ser_type_ops_of_fresh world hw mem ops start op_count _ cf hc F s1 h1 w
        fuel hfuel)
  exact ⟨F + n + 2, fun fuel hfuel str =>
    json_ser_elements_ok world mem ops start op_count p s n e F hF str fuel hfuel⟩

/-! ## C7 -/

/-- C7, as stated, fails on an element program that names an operation outside a scope,
and on one that reaches a program with ill-nested scopes.

(1) The vector at address 24 of the example buffer holds two elements at addresses 64 and
72; with the scope-free element program `[int32, int32 "x"]` the interpreter succeeds on
the two elements with the outputs `1"x": 2` and `3"x": 4`, but `json_ser_vector` appends
`[1, "x": 2, 3, "x": 4]`: inside the array the name of `x` is preceded by the separator of
the element list.

(2) The vector at address 200 holds one element at address 0; its element program is a
single DynamicVector operation, whose own element program `[ScopeClose, x, ScopeOpen]` is
ill-nested.  The interpreter succeeds on the element with the output `[}"x": 1{]`, but
`json_ser_vector` appends `[[}, "x": 1{]]`. -/
theorem vector_of_flat_pairs :
    (example_memory.vector 24 = some ⟨2, fun _ _ => 64⟩ ∧
      flat_pair_registry.get_EcsVector 8 = some ⟨14⟩ ∧
      flat_pair_registry.get_EcsComponent 14 = some ⟨8, 4⟩ ∧
      ecs_ptr_to_json 12 flat_pair_registry example_memory 14 (64 + 0 * 8) =
        some (some "1\"x\": 2") ∧
      ecs_ptr_to_json 12 flat_pair_registry example_memory 14 (64 + 1 * 8) =
        some (some "3\"x\": 4") ∧
      json_ser_vector 12 flat_pair_registry example_memory (example_op EcsOpVector 8) 24
          ECS_STRBUF_INIT = .ok ⟨"[1, \"x\": 2, 3, \"x\": 4]", []⟩ ∧
      "[1, \"x\": 2, 3, \"x\": 4]" ≠
        "[" ++ String.intercalate ", " ["1\"x\": 2", "3\"x\": 4"] ++ "]") ∧
    (nested_vector_memory.vector 200 = some ⟨1, fun _ _ => 0⟩ ∧
      unscoped_nested_registry.get_EcsVector 17 = some ⟨9⟩ ∧
      unscoped_nested_registry.get_EcsComponent 9 = some ⟨8, 8⟩ ∧
      ecs_ptr_to_json 20 unscoped_nested_registry nested_vector_memory 9 (0 + 0 * 8) =
        some (some "[\x7d\"x\": 1\x7b]") ∧
      json_ser_vector 20 unscoped_nested_registry nested_vector_memory
          (example_op EcsOpVector 17) 200 ECS_STRBUF_INIT =
        .ok ⟨"[[\x7d, \"x\": 1\x7b]]", []⟩ ∧
      "[[\x7d, \"x\": 1\x7b]]" ≠
        "[" ++ String.intercalate ", " ["[\x7d\"x\": 1\x7b]"] ++ "]") := by
  refine ⟨⟨by rfl, by rfl, by rfl, by rfl, by rfl, by rfl, by decide⟩,
    ⟨by rfl, by rfl, by rfl, by rfl, by rfl, by decide⟩⟩

/-- C7 (amended).  In a registry whose type programs all have properly nested scopes, for
a DynamicVector operation whose handle (read at `base + op.offset`) is non-null with
runtime count `n` and storage `p`, whose vector schema, element component (size `s`) and
element program `E` are registered, `E` having properly nested scopes and naming no
operation outside a scope: if the interpreter succeeds on `E` at `p + k * s` with output
`e k` for every `k < n` (`ecs_ptr_to_json` returns `e k`), then, with enough fuel,
`json_ser_vector` succeeds from every writer and appends exactly `[`, then `e 0`, ...,
`e (n-1)` in index order separated by `, `, then `]`, leaving the list scopes as they
were. -/
theorem json_ser_vector_elements (world : ecs_world_t) (hw : registry_scoped world)
    (mem : Memory) (op : ecs_meta_type_op_t) (base : Int)
    (value : ecs_vector_t) (v : EcsVector) (comp : EcsComponent)
    (ser : EcsMetaTypeSerialized) (n : Nat) (e : Nat → String)
    (hvec : mem.vector (ECS_OFFSET base op.offset) = some value)
    (hcount : value.count = n)
    (hv : world.get_EcsVector op.type = some v)
    (hcomp : world.get_EcsComponent v.type = some comp)
    (hser : world.get_EcsMetaTypeSerialized v.type = some ser) (cf : Nat)
    (hroot : scope_check true cf ser.ops 0 ser.ops.length 0 0 = true)
    (helem : ∀ k, k < n → ∃ F,
      ecs_ptr_to_json F world mem v.type
        (value.first comp.size comp.alignment + k * comp.size) = some (some (e k))) :
    ∃ N, ∀ fuel, N ≤ fuel → ∀ str,
      json_ser_vector fuel world mem op (ECS_OFFSET base op.offset) str =
        .ok ⟨str.content ++ ("[" ++ String.intercalate ", " ((List.range n).map e) ++ "]"),
          str.list_stack⟩ := by
  obtain ⟨N, hN⟩ := json_ser_elements_of_fresh world hw mem ser.ops 0 ser.ops.length cf
    hroot (value.first comp.size comp.alignment) comp.size n e
    (fun k hk => by
      obtain ⟨F, hF⟩ := helem k hk
      unfold ecs_ptr_to_json at hF
      cases hr : ecs_ptr_to_json_buf F world mem v.type
          (value.first comp.size comp.alignment + k * comp.size) ECS_STRBUF_INIT with
      | ok s1 =>
        rw [hr] at hF
        simp only [Option.some.injEq, ecs_strbuf_get] at hF
        simp only [ecs_ptr_to_json_buf, hser, json_ser_type] at hr
        obtain ⟨s2, h2, h3⟩ := andThen_eq_ok _ _ _ hr
        injection h3 with h3
        subst h3
        exact ⟨F, s2, h2, hF⟩
      | error s1 => rw [hr] at hF; simp at hF
      | abort c => rw [hr] at hF; simp at hF
      | assert_failed c => rw [hr] at hF; simp at hF
      | undefined => rw [hr] at hF; simp at hF
      | timeout => rw [hr] at hF; simp at hF)
  refine ⟨N + 2, fun fuel hfuel str => ?_⟩
  obtain ⟨f, rfl⟩ : ∃ f, fuel = f + 1 + 1 := ⟨fuel - 2, by omega⟩
  simp only [json_ser_vector, hvec, hv, hcomp, json_ser_type_elements, hser, hcount]
  exact hN f (by omega) str

/-- C7 on the example buffer: the vector at address 24 holds the structs `(1, 2)` and
`(3, 4)` and gives `[{"x": 1, "y": 2}, {"x": 3, "y": 4}]`. -/
theorem json_ser_vector_elements_witness :
    ecs_ptr_to_json 12 example_registry example_memory 3 (64 + (0 : Nat) * 8) =
      some (some "\x7b\"x\": 1, \"y\": 2\x7d") ∧
    ecs_ptr_to_json 12 example_registry example_memory 3 (64 + (1 : Nat) * 8) =
      some (some "\x7b\"x\": 3, \"y\": 4\x7d") ∧
    ∃ N, ∀ fuel, N ≤ fuel → ∀ str,
      json_ser_vector fuel example_registry example_memory (example_op EcsOpVector 4)
          (ECS_OFFSET 24 (example_op EcsOpVector 4).offset) str =
        .ok ⟨str.content ++ "[\x7b\"x\": 1, \"y\": 2\x7d, \x7b\"x\": 3, \"y\": 4\x7d]",
          str.list_stack⟩ :=
  ⟨by rfl, by rfl,
    json_ser_vector_elements example_registry example_registry_scoped example_memory
      (example_op EcsOpVector 4) 24 ⟨2, fun _ _ => 64⟩ ⟨3⟩ ⟨8, 4⟩ ⟨point_ops⟩ 2
      (fun k => if k = 0 then "\x7b\"x\": 1, \"y\": 2\x7d" else "\x7b\"x\": 3, \"y\": 4\x7d")
      (by rfl) (by rfl) (by rfl) (by rfl) (by rfl) 10 (by decide)
      (fun k hk => by
        have hk2 : k = 0 ∨ k = 1 := by omega
        rcases hk2 with rfl | rfl
        · exact ⟨12, by rfl⟩
        · exact ⟨12, by rfl⟩)⟩

/-! ## FixedArray operations -/

/-- A successful `ecs_ptr_to_json` is a successful run of the type's program on a fresh
writer. -/
theorem ecs_ptr_to_json_some (world : ecs_world_t) (mem : Memory) (type : Nat)
    (ser : EcsMetaTypeSerialized) (hser : world.get_EcsMetaTypeSerialized type = some ser)
    (ptr : Int) (F : Nat) (text : String)
    (h : ecs_ptr_to_json F world mem type ptr = some (some text)) :
    ∃ s1, json_ser_type_ops F world mem ser.ops 0 ser.ops.length ptr ECS_STRBUF_INIT
      = .ok s1 ∧ s1.content = text := by
  unfold ecs_ptr_to_json at h
  cases hr : ecs_ptr_to_json_buf F world mem type ptr ECS_STRBUF_INIT with
  | ok s1 =>
    rw [hr] at h
    simp only [Option.some.injEq, ecs_strbuf_get] at h
    simp only [ecs_ptr_to_json_buf, hser, json_ser_type] at hr
    obtain ⟨s2, h2, h3⟩ := andThen_eq_ok _ _ _ hr
    injection h3 with h3
    subst h3
    exact ⟨s2, h2, h⟩
  | error s1 => rw [hr] at h; simp at h
  | abort c => rw [hr] at h; simp at h
  | assert_failed c => rw [hr] at h; simp at h
  | undefined => rw [hr] at h; simp at h
  | timeout => rw [hr] at h; simp at h

/-- The dispatch of a FixedArray operation by `json_ser_type_op`, when the interpreter
succeeds on the element program at `(base + op.offset) + k * s` with output `e k` for
every `k < n`: from every writer, with enough fuel, one array of the `n` element texts is
appended. -/
theorem json_ser_type_op_array_of_fresh (world : ecs_world_t) (hw : registry_scoped world)
    (mem : Memory) (op : ecs_meta_type_op_t) (base : Int) (a : EcsArray)
    (comp : EcsComponent) (ser : EcsMetaTypeSerialized) (n : Nat) (e : Nat → String)
    (hkind : op.kind = EcsOpArray) (hcount : op.count = n)
    (ha : world.get_EcsArray op.type = some a)
    (hcomp : world.get_EcsComponent a.type = some comp)
    (hser : world.get_EcsMetaTypeSerialized a.type = some ser) (cf : Nat)
    (hroot : scope_check true cf ser.ops 0 ser.ops.length 0 0 = true)
    (helem : ∀ k, k < n → ∃ F,
      ecs_ptr_to_json F world mem a.type (ECS_OFFSET base op.offset + k * comp.size)
        = some (some (e k))) :
    ∃ N, ∀ fuel, N ≤ fuel → ∀ str,
      json_ser_type_op fuel world mem op base str =
        .ok ⟨str.content ++ ("[" ++ String.intercalate ", " ((List.range n).map e) ++ "]"),
          str.list_stack⟩ := by
  obtain ⟨N, hN⟩ := json_ser_elements_of_fresh world hw mem ser.ops 0 ser.ops.length cf
    hroot (ECS_OFFSET base op.offset) comp.size n e
    (fun k hk => by
      obtain ⟨F, hF⟩ := helem k hk
      exact ⟨F, ecs_ptr_to_json_some world mem a.type ser hser _ F _ hF⟩)
  refine ⟨N + 3, fun fuel hfuel str => ?_⟩
  obtain ⟨f, rfl⟩ : ∃ f, fuel = f + 1 + 1 + 1 := ⟨fuel - 3, by omega⟩
  simp only [json_ser_type_op, hkind, json_ser_array, ha, json_ser_type_elements, hser,
    hcomp, hcount]
  rw [hN f (by omega) str]
  rfl

/-! ## C17 -/

/-- C17, as stated, fails on a FixedArray member, and on element programs that name an
operation outside a scope or reach a program with ill-nested scopes.

(1) A FixedArray of two `int32` holding `1, 2` at address 64 is emitted as the one array
`[1, 2]` when it is the root operation of its program.  As the named member `a` at index 1
of a struct, with the same elementCount 2, it is expanded as an inline array of 2
repetitions with stride 8, and each repetition is encoded by `json_ser_array`, again with
elementCount 2: two nested arrays of two elements each, `[[1, 2], [3, 4]]`.

(2) A root FixedArray of two elements with the scope-free element program
`[int32, int32 "x"]`: the interpreter's outputs for the elements are `1"x": 2` and
`3"x": 4`, the array emitted is `[1, "x": 2, 3, "x": 4]`.

(3) A root FixedArray of one element whose program is a single DynamicVector operation
with the ill-nested element program `[ScopeClose, x, ScopeOpen]`: the interpreter's output
for the element is `[}"x": 1{]`, the array emitted is `[[}, "x": 1{]]`. -/
theorem fixed_array_member_nested :
    (op_at fixed_array_struct_ops 1 = some (array_op (some "a")) ∧
      (array_op (some "a")).kind = EcsOpArray ∧ (array_op (some "a")).count = 2 ∧
      ecs_ptr_to_json 12 example_registry example_memory 12 0 = some (some "[1, 2]") ∧
      ecs_ptr_to_json 30 example_registry example_memory 11 0 =
        some (some "\x7b\"a\": [[1, 2], [3, 4]]\x7d") ∧
      ecs_ptr_to_json 30 example_registry example_memory 11 0 ≠
        some (some "\x7b\"a\": [1, 2]\x7d")) ∧
    (ecs_ptr_to_json 12 flat_pair_registry example_memory 14 (64 + 0 * 8) =
        some (some "1\"x\": 2") ∧
      ecs_ptr_to_json 12 flat_pair_registry example_memory 14 (64 + 1 * 8) =
        some (some "3\"x\": 4") ∧
      ecs_ptr_to_json 12 flat_pair_registry example_memory 16 0 =
        some (some "[1, \"x\": 2, 3, \"x\": 4]") ∧
      "[1, \"x\": 2, 3, \"x\": 4]" ≠
        "[" ++ String.intercalate ", " ["1\"x\": 2", "3\"x\": 4"] ++ "]") ∧
    (ecs_ptr_to_json 20 unscoped_nested_registry nested_vector_memory 9 0 =
        some (some "[\x7d\"x\": 1\x7b]") ∧
      ecs_ptr_to_json 20 unscoped_nested_registry nested_vector_memory 19 0 =
        some (some "[[\x7d, \"x\": 1\x7b]]") ∧
      "[[\x7d, \"x\": 1\x7b]]" ≠
        "[" ++ String.intercalate ", " ["[\x7d\"x\": 1\x7b]"] ++ "]") := by
  refine ⟨by decide, ⟨by rfl, by rfl, by rfl, by decide⟩, ⟨by rfl, by rfl, by decide⟩⟩

/-- C17 (amended).  In a registry whose type programs all have properly nested scopes, for
a FixedArray operation `op` with elementCount `n` at cursor `i` of a slice, whose array
schema, element component (size `s`) and element program are registered, the element
program having properly nested scopes and naming no operation outside a scope.

(1) When `op` is the first operation of the slice, or `n ≤ 1`: if the interpreter succeeds
on the element program at `(base + op.offset) + k * s` with output `e k` for every
`k < n`, the iteration at `i` appends (after the field name, if `i ≠ 0`) exactly one array
`[e 0, ..., e (n-1)]` and moves the cursor to `i + 1`.

(2) When `op` is at an index `i ≠ 0` with `n > 1` and subProgramLength 1, it is expanded
as an inline array of `n` repetitions with stride `op.size`, each repetition being the
FixedArray dispatch of `op` again: if the interpreter succeeds on the element program at
`(base + j * op.size + op.offset) + k * s` with output `e j k` for all `j, k < n`, the
iteration at `i` appends, after the field name, an array of `n` arrays of `n` element
texts each, `[[e 0 0, ..., e 0 (n-1)], ..., [e (n-1) 0, ..., e (n-1) (n-1)]]`, and
moves the cursor to `i + 1`. -/
theorem json_ser_type_ops_fixed_array (world : ecs_world_t) (hw : registry_scoped world)
    (mem : Memory) (ops : List ecs_meta_type_op_t) (start len base i : Int)
    (op : ecs_meta_type_op_t) (a : EcsArray) (comp : EcsComponent)
    (ser : EcsMetaTypeSerialized) (n : Nat)
    (hop : op_at ops (start + i) = some op) (hlt : i < len)
    (hkind : op.kind = EcsOpArray) (hcount : op.count = n)
    (ha : world.get_EcsArray op.type = some a)
    (hcomp : world.get_EcsComponent a.type = some comp)
    (hser : world.get_EcsMetaTypeSerialized a.type = some ser) (cf : Nat)
    (hroot : scope_check true cf ser.ops 0 ser.ops.length 0 0 = true) :
    (¬(i ≠ 0 ∧ n > 1) → ∀ e : Nat → String,
      (∀ k, k < n → ∃ F,
        ecs_ptr_to_json F world mem a.type (ECS_OFFSET base op.offset + k * comp.size)
          = some (some (e k))) →
      ∃ N, ∀ fuel, N ≤ fuel → ∀ str,
        json_ser_type_ops_loop (fuel + 1) world mem ops start len base i str =
          json_ser_type_ops_loop fuel world mem ops start len base (i + 1)
            ⟨(if i ≠ 0 then named_writer op str else str).content ++
                ("[" ++ String.intercalate ", " ((List.range n).map e) ++ "]"),
              (if i ≠ 0 then named_writer op str else str).list_stack⟩) ∧
    (i ≠ 0 → n > 1 → op.op_count = 1 → ∀ e : Nat → Nat → String,
      (∀ j k, j < n → k < n → ∃ F,
        ecs_ptr_to_json F world mem a.type
          (ECS_OFFSET (base + j * op.size) op.offset + k * comp.size)
          = some (some (e j k))) →
      ∃ N, ∀ fuel, N ≤ fuel → ∀ str,
        json_ser_type_ops_loop (fuel + 1) world mem ops start len base i str =
          json_ser_type_ops_loop fuel world mem ops start len base (i + 1)
            ⟨(named_writer op str).content ++
                ("[" ++ String.intercalate ", " ((List.range n).map fun j =>
                  "[" ++ String.intercalate ", " ((List.range n).map (e j)) ++ "]")
                  ++ "]"),
              (named_writer op str).list_stack⟩) := by
  refine ⟨?_, ?_⟩
  · intro hinl e helem
    obtain ⟨N, hN⟩ := json_ser_type_op_array_of_fresh world hw mem op base a comp ser n e
      hkind hcount ha hcomp hser cf hroot helem
    refine ⟨N, fun fuel hfuel str => ?_⟩
    rw [json_ser_type_ops_loop_step, if_pos hlt, hop]
    dsimp only
    rw [if_neg (by rw [hcount]; exact_mod_cast hinl), hkind]
    dsimp only
    rw [hN fuel hfuel]
    rfl
  · intro hi hn hoc e helem
    have hrow : ∀ j, j < n → ∃ F, ∀ w fuel, F ≤ fuel →
        json_ser_type_ops fuel world mem ops (start + i) op.op_count (base + j * op.size) w =
          .ok ⟨w.content ++
            ("[" ++ String.intercalate ", " ((List.range n).map (e j)) ++ "]"),
            w.list_stack⟩ := by
      intro j hj
      obtain ⟨N, hN⟩ := json_ser_type_op_array_of_fresh world hw mem op (base + j * op.size)
        a comp ser n (e j) hkind hcount ha hcomp hser cf hroot (fun k hk => helem j k hj hk)
      refine ⟨N + 3, fun w fuel hfuel => ?_⟩
      obtain ⟨f, rfl⟩ : ∃ f, fuel = f + 1 + 1 + 1 := ⟨fuel - 3, by omega⟩
      rw [json_ser_type_ops, json_ser_type_ops_loop_step, if_pos (by omega), add_zero, hop]
      dsimp only
      rw [if_neg (by simp), hkind]
      dsimp only
      rw [if_neg (by simp), hN (f + 1) (by omega)]
      simp only [Result.andThen]
      rw [json_ser_type_ops_loop_step, if_neg (by omega)]
    obtain ⟨F, hF⟩ := exists_common_fuel n
      (fun j F => ∀ w fuel, F ≤ fuel →
        json_ser_type_ops fuel world mem ops (start + i) op.op_count (base + j * op.size) w =
          .ok ⟨w.content ++
            ("[" ++ String.intercalate ", " ((List.range n).map (e j)) ++ "]"),
            w.list_stack⟩)
      (fun j F G hFG hQ w fuel hfuel => hQ w fuel (by omega)) hrow
    refine ⟨F + n + 2, fun fuel hfuel str => ?_⟩
    rw [json_ser_type_ops_loop_step, if_pos hlt, hop]
    dsimp only
    rw [if_pos ⟨hi, by rw [hcount]; exact_mod_cast hn⟩, if_pos hi, hcount,
      json_ser_elements_ok world mem ops (start + i) op.op_count base op.size n _ F hF _
        fuel hfuel]
    simp only [Result.andThen, hoc]
    rw [show i + (1 - 1) + 1 = i + 1 by omega]

/-- C17 on the struct with the FixedArray member `a` of the example registry: the
iteration at the member appends the name and `[[1, 2], [3, 4]]`. -/
theorem json_ser_type_ops_fixed_array_witness :
    ∃ N, ∀ fuel, N ≤ fuel → ∀ str,
      json_ser_type_ops_loop (fuel + 1) example_registry example_memory
          fixed_array_struct_ops 0 3 0 1 str =
        json_ser_type_ops_loop fuel example_registry example_memory
          fixed_array_struct_ops 0 3 0 (1 + 1)
          ⟨(named_writer (array_op (some "a")) str).content ++ "[[1, 2], [3, 4]]",
            (named_writer (array_op (some "a")) str).list_stack⟩ :=
  (json_ser_type_ops_fixed_array example_registry example_registry_scoped example_memory
    fixed_array_struct_ops 0 3 0 1 (array_op (some "a")) ⟨10⟩ ⟨4, 4⟩
    ⟨[example_op (EcsOpPrimitive 9) 0]⟩ 2 (by rfl) (by decide) (by rfl) (by rfl) (by rfl)
    (by rfl) (by rfl) 10 (by decide)).2 (by decide) (by decide) (by rfl)
    (fun j k => if j = 0 then (if k = 0 then "1" else "2")
      else (if k = 0 then "3" else "4"))
    (fun j k hj hk => by
      have hj2 : j = 0 ∨ j = 1 := by omega
      have hk2 : k = 0 ∨ k = 1 := by omega
      rcases hj2 with rfl | rfl <;> rcases hk2 with rfl | rfl <;> exact ⟨12, by rfl⟩)

/-! ## Propagation of a failure through the call sites -/

end FlecsJson
